import Mathlib

set_option maxRecDepth 20000

/-
Verification development for the BPMN layout engine of this repository.

The embedding below translates, function by function, the two source files
that the claims refer to:

  * src/app.py          : the graph normalizer `_enforce_merging_gateways`
  * src/bpmn_generator.py : the class `BPMNLayoutGenerator` and its passes

Conventions of the embedding:

  * Python dicts keyed by node id are modelled by `dictNodes`, which
    replays CPython dict-comprehension semantics (first-occurrence key
    order, last-occurrence value).
  * Python `uuid.uuid4()` draws are modelled by an explicit identifier
    stream `Nat → String`; the k-th call reads index k.
  * CPython raises (KeyError / IndexError / ValueError / AttributeError /
    TypeError) are modelled by `Option`, `none` meaning the invocation
    raises and no output document is produced.
  * Numeric layout values are modelled by exact rationals; every number
    that reaches the serialized document first passes through Python
    `int(...)` (truncation, `pyInt`) or `round(...)` (half-to-even,
    `pyRound`), both of which are modelled exactly.
  * CPython iterates `set` objects in an implementation-defined order;
    the only such iteration (over `remaining_lanes` in
    `_optimize_lane_order`) is modelled in insertion order.  No theorem
    below depends on a tie broken by that order.
-/

/-- Python str.lower on one character; the kind strings handled by the
engine are ASCII, where CPython lowercasing adds 32 to A-Z. -/
def pyCharLower (c : Char) : Char :=
  if 'A' ≤ c ∧ c ≤ 'Z' then Char.ofNat (c.toNat + 32) else c

/-- Python str.lower. -/
def pyLower (s : String) : String := String.mk (s.data.map pyCharLower)

/-- Helper for substring search: does the first list start the second one. -/
def isPrefixL : List Char → List Char → Bool
  | [], _ => true
  | _ :: _, [] => false
  | a :: n, b :: h => a == b && isPrefixL n h

/-- Helper for substring search: does the first list occur inside the second. -/
def isInfixL (n : List Char) : List Char → Bool
  | [] => isPrefixL n []
  | b :: t => isPrefixL n (b :: t) || isInfixL n t

/-- Python `needle in hay` on strings: contiguous-substring test. -/
def pyIn (needle hay : String) : Bool := isInfixL needle.toList hay.toList

/-- Python `a or b` over optional strings, with `None` and `""` falsy. -/
def pyOrStr (a b : Option String) : Option String :=
  match a with
  | some s => if s = "" then b else some s
  | none => b

/-- Python truthiness of an optional string. -/
def pyTruthy (o : Option String) : Bool :=
  match o with
  | some s => s ≠ ""
  | none => false

/-- Python `int(q)`: truncation toward zero. -/
def pyInt (q : ℚ) : Int := if 0 ≤ q then ⌊q⌋ else ⌈q⌉

/-- Python `round(q)` (no digits argument): round half to even. -/
def pyRound (q : ℚ) : Int :=
  let f := ⌊q⌋
  let r := q - (f : ℚ)
  if r < 1/2 then f
  else if 1/2 < r then f + 1
  else if f % 2 = 0 then f else f + 1

/-- One entry of a node's `next_nodes` list.  The producing code
(`ProcessEdge` in src/app.py) emits dicts carrying `target_id` and
`label`; `bpmn_generator.py` additionally tolerates an `id` key and bare
string entries, so all three shapes are represented.  An absent key and
a key explicitly set to JSON null are conflated as `none`: every consumer
in the two source files treats them identically (both are falsy and both
default to the empty string where `.get(k, '')` is used on `label`). -/
inductive NextInfo where
  | strRef (s : String)
  | obj (idKey targetKey labelKey : Option String)
deriving DecidableEq, Repr

/-- An outgoing-edge record as attached to a node by
`_calculate_all_edge_waypoints` (the `node['edges']` list). -/
structure EdgeOut where
  id : String
  target_id : String
  waypoints : List (ℚ × ℚ)
  label : String
deriving DecidableEq, Repr

/-- A process node as consumed by both source files.  `label := none`
models an absent label key.  `edges` models the `edges` key attached
during waypoint calculation; it is absent (empty) on caller input. -/
structure PNode where
  id : String
  type : String
  label : Option String
  lane : String
  next_nodes : List NextInfo
  edges : List EdgeOut := []
deriving DecidableEq, Repr

/-- The input ProcessGraph (`ProcessKnowledge` in src/app.py). -/
structure ProcessGraph where
  prozessname : String
  prozessziel : String
  akteure : List String
  nodes : List PNode
deriving DecidableEq, Repr

/-- One insertion into the id-keyed dict: overwrite the value of an
existing key in place, or append a fresh key. -/
def dictStep (acc : List PNode) (n : PNode) : List PNode :=
  if acc.any (fun m => m.id == n.id) then
    acc.map (fun m => if m.id == n.id then n else m)
  else acc ++ [n]

/-- CPython dict-comprehension `{n['id']: n for n in nodes}` as a list:
keys keep first-occurrence order, values keep the last occurrence. -/
def dictNodes (ns : List PNode) : List PNode :=
  ns.foldl dictStep []

/-- Membership test `x in self.nodes` (dict keyed by id). -/
def isNodeId (ns : List PNode) (i : String) : Bool := ns.any (fun n => n.id == i)

/-- Dict value lookup `self.nodes[i]` over an id-unique list. -/
def findNode (ns : List PNode) (i : String) : Option PNode :=
  ns.find? (fun n => n.id == i)

/-- Lane of a node id (total with junk default; every use site in the
source guards the id to be a key of the node dict). -/
def laneOf (ns : List PNode) (i : String) : String :=
  match findNode ns i with
  | some n => n.lane
  | none => ""

/-- Kind string of a node id (same guard discipline as `laneOf`). -/
def typeOf (ns : List PNode) (i : String) : String :=
  match findNode ns i with
  | some n => n.type
  | none => ""

/-- One insertion into a first-occurrence set. -/
def dedupStep (acc : List String) (s : String) : List String :=
  if acc.contains s then acc else acc ++ [s]

/-- First-occurrence deduplication (CPython dict/set key order). -/
def dedupFirst (l : List String) : List String :=
  l.foldl dedupStep []

-- ### src/app.py : the graph normalizer

/-- Reading `edge['target_id']` in `_enforce_merging_gateways`:
a bare string edge (TypeError) or a dict without the key (KeyError)
makes the call raise, modelled as `none`. -/
def appTarget : NextInfo → Option String
  | .strRef _ => none
  | .obj _ t _ => t

/-- The edge scan of `_enforce_merging_gateways` (lines 77-82 of
src/app.py): all (source id, target id) pairs in dict-iteration order,
failing when any edge cannot be read. -/
def collectEdgePairs (nd : List PNode) : Option (List (String × String)) :=
  (nd.flatMap (fun n => n.next_nodes.map (fun e => (n.id, e)))).mapM
    (fun p => (appTarget p.2).map (fun t => (p.1, t)))

/-- The pairs whose target id is a key of the node dict; only these
contribute to `in_degree` and `predecessors`. -/
def validPairs (nd : List PNode) (pairs : List (String × String)) :
    List (String × String) :=
  pairs.filter (fun p => isNodeId nd p.2)

/-- `in_degree[t]` of src/app.py. -/
def appInDegree (vp : List (String × String)) (t : String) : Nat :=
  (vp.map Prod.snd).count t

/-- `predecessors[t]` of src/app.py. -/
def appPredecessors (vp : List (String × String)) (t : String) : List String :=
  (vp.filter (fun p => p.2 == t)).map Prod.fst

/-- The merge-point targets, in `in_degree.items()` order (first touch
during the edge scan): in-degree above one and kind not containing
"Gateway" (case-sensitive, as in the source). -/
def offendersOf (nd : List PNode) (vp : List (String × String)) : List String :=
  (dedupFirst (vp.map Prod.snd)).filter
    (fun t => decide (2 ≤ appInDegree vp t) && !(pyIn "Gateway" (typeOf nd t)))

/-- Fresh gateway id `f"merge_gateway_{uuid.uuid4().hex[:6]}"`, the k-th
draw of the normalizer's identifier stream. -/
def mergeGatewayId (fresh : Nat → String) (k : Nat) : String :=
  "merge_gateway_" ++ fresh k

/-- The synthesized converging gateway for the k-th offender. -/
def mkMergeGateway (fresh : Nat → String) (k : Nat) (nd : List PNode)
    (target : String) : PNode :=
  { id := mergeGatewayId fresh k
    type := "exclusiveGateway"
    label := some ""
    lane := laneOf nd target
    next_nodes := [.obj none (some target) none]
    edges := [] }

/-- `reroute_map` as a lookup: the offender's position among the
offenders gives the identifier draw used for its gateway. -/
def rerouteTo (fresh : Nat → String) (offs : List String) (t : String) :
    Option String :=
  (offs.indexOf? t).map (mergeGatewayId fresh)

/-- Edge rewriting (lines 106-112 of src/app.py): an edge is retargeted
exactly when its target is an offender and the owning node is a recorded
predecessor of that target. -/
def rewriteEdge (fresh : Nat → String) (offs : List String)
    (vp : List (String × String)) (ownerId : String) (e : NextInfo) : NextInfo :=
  match e with
  | .obj i (some t) l =>
    match rerouteTo fresh offs t with
    | some g =>
      if (appPredecessors vp t).contains ownerId then .obj i (some g) l else e
    | none => e
  | _ => e

/-- `_enforce_merging_gateways` of src/app.py.  `fresh` supplies the
hex fragments of the synthesized gateway ids. -/
def enforceMergingGateways (fresh : Nat → String) (g : ProcessGraph) :
    Option ProcessGraph := do
  let nd := dictNodes g.nodes
  let pairs ← collectEdgePairs nd
  let vp := validPairs nd pairs
  let offs := offendersOf nd vp
  if offs.isEmpty then
    return g
  else
    let rewritten := g.nodes.map (fun n =>
      { n with next_nodes := n.next_nodes.map (rewriteEdge fresh offs vp n.id) })
    let added := offs.enum.map (fun p => mkMergeGateway fresh p.1 nd p.2)
    return { g with nodes := rewritten ++ added }

-- ### src/bpmn_generator.py : configuration constants (class LayoutConfig)

namespace LayoutConfig

def TASK_WIDTH : Nat := 100
def TASK_HEIGHT : Nat := 80
def GATEWAY_WIDTH : Nat := 40
def GATEWAY_HEIGHT : Nat := 40
def EVENT_WIDTH : Nat := 30
def EVENT_HEIGHT : Nat := 30
def HORIZONTAL_SPACING : Nat := 150
def VERTICAL_SPACING : Nat := 80
def LANE_PADDING_TOP : Nat := 60
def LANE_PADDING_BOTTOM : Nat := 60
def LANE_HEADER_WIDTH : Nat := 30
def LANE_CONTENT_PADDING_X : Nat := 60
def POOL_PADDING_X : Nat := 40
def POOL_PADDING_Y : Nat := 40
def ROUTING_MARGIN : Nat := 30

end LayoutConfig

-- ### `_build_graph_representations`

/-- Target extraction of `_build_graph_representations` (line 46): a dict
entry is read through `target_id` only, a bare string is the target itself. -/
def buildTarget : NextInfo → Option String
  | .strRef s => some s
  | .obj _ t _ => t

/-- `self.adj[u]`: valid successors of u, in edge order, with CPython
dict-of-lists append semantics over duplicate-id node entries. -/
def adjOf (nd : List PNode) (u : String) : List String :=
  (nd.filter (fun n => n.id == u)).flatMap (fun n =>
    n.next_nodes.filterMap (fun e =>
      match buildTarget e with
      | some t => if isNodeId nd t then some t else none
      | none => none))

/-- `self.rev_adj[v]`: sources of valid edges into v, in scan order. -/
def revAdjOf (nd : List PNode) (v : String) : List String :=
  nd.flatMap (fun n =>
    n.next_nodes.filterMap (fun e =>
      match buildTarget e with
      | some t => if t == v && isNodeId nd t then some n.id else none
      | none => none))

-- ### `_optimize_gateway_lanes`

/-- Replace the lane of one node id. -/
def setLane (nd : List PNode) (nid lane : String) : List PNode :=
  nd.map (fun m => if m.id == nid then { m with lane := lane } else m)

/-- One iteration of the `_optimize_gateway_lanes` loop for node id
`nid`, reading the current (already partially mutated) node list. -/
def gatewayLaneStep (adj : String → List String) (nd : List PNode)
    (nid : String) : List PNode :=
  match findNode nd nid with
  | none => nd
  | some node =>
    if pyIn "gateway" (pyLower node.type) then
      let succs := adj nid
      if succs.length ≤ 1 then nd
      else
        let laneSeq := succs.map (laneOf nd)
        match dedupFirst laneSeq with
        | [] => nd
        | k0 :: krest =>
          let cnt := fun l => laneSeq.count l
          let best := krest.foldl (fun acc k => if cnt acc < cnt k then k else acc) k0
          let maxCount := cnt best
          if 1 < ((k0 :: krest).map cnt).count maxCount then nd
          else if node.lane ≠ best then setLane nd nid best
          else nd
    else nd

/-- `_optimize_gateway_lanes`: sequential pass over the node dict. -/
def optimizeGatewayLanes (adj : String → List String) (nd : List PNode) :
    List PNode :=
  (nd.map (fun n => n.id)).foldl (gatewayLaneStep adj) nd

-- ### `_enforce_end_event_lanes`

/-- One iteration of the `_enforce_end_event_lanes` loop. -/
def endEventLaneStep (revAdj : String → List String) (nd : List PNode)
    (nid : String) : List PNode :=
  match findNode nd nid with
  | none => nd
  | some node =>
    if node.type == "endEvent" then
      match revAdj nid with
      | [] => nd
      | p :: _ =>
        let predecessorLane := laneOf nd p
        if node.lane ≠ predecessorLane then setLane nd nid predecessorLane
        else nd
    else nd

/-- `_enforce_end_event_lanes`: sequential pass over the node dict. -/
def enforceEndEventLanes (revAdj : String → List String) (nd : List PNode) :
    List PNode :=
  (nd.map (fun n => n.id)).foldl (endEventLaneStep revAdj) nd

-- ### `_optimize_lane_order`

/-- `lane_crossings[(a, b)]`: votes for the ordered lane pair, over all
valid edges whose endpoint lanes are read from the current node list. -/
def laneCrossings (adj : String → List String) (nd : List PNode)
    (a b : String) : Nat :=
  (nd.flatMap (fun n =>
    (adj n.id).map (fun v => (laneOf nd n.id, laneOf nd v)))).count (a, b)

/-- The inner candidate scan of the greedy loop: first strictly maximal
scorer in iteration order (initial best score is minus infinity). -/
def pickBestLane (score : String → Int) (remaining : List String) :
    Option String :=
  (remaining.foldl
    (fun (acc : Option String × Option Int) r =>
      let s := score r
      match acc.2 with
      | none => (some r, some s)
      | some m => if m < s then (some r, some s) else acc)
    (none, none)).1

/-- The greedy `while remaining_lanes` loop of `_optimize_lane_order`.
A falsy best candidate (`None` or the empty lane name) falls back to
`remaining_lanes.pop()`, modelled as the first remaining lane. -/
def greedyLaneOrder (cross : String → String → Nat) :
    Nat → String → List String → List String → List String
  | 0, _, _, ordered => ordered
  | fuel + 1, current, remaining, ordered =>
    match remaining with
    | [] => ordered
    | r0 :: _ =>
      let score := fun r => 2 * ((cross current r : Int)) - (cross r current : Int)
      match pickBestLane score remaining with
      | some b =>
        if b ≠ "" then
          greedyLaneOrder cross fuel b (remaining.erase b) (ordered ++ [b])
        else
          greedyLaneOrder cross fuel r0 (remaining.erase r0) (ordered ++ [r0])
      | none =>
        greedyLaneOrder cross fuel r0 (remaining.erase r0) (ordered ++ [r0])

/-- The body of `_optimize_lane_order` once the start lane is known:
greedy ordering plus the final start-lane fix-up.  `none` models the
IndexError on an empty greedy result and the ValueError when the fix-up
removes a start lane that was never placed. -/
def laneOrderFrom (nd : List PNode) (adj : String → List String)
    (akteure : List String) (startLane : String) : Option (List String) :=
  let cross := laneCrossings adj nd
  let remaining0 := dedupFirst akteure
  let (ordered0, remaining1) :=
    if remaining0.contains startLane then
      ([startLane], remaining0.erase startLane)
    else ([], remaining0)
  let orderedAll := greedyLaneOrder cross remaining1.length startLane remaining1 ordered0
  match orderedAll with
  | [] => none
  | o0 :: _ =>
    if o0 ≠ startLane then
      if orderedAll.contains startLane then
        some (startLane :: orderedAll.erase startLane)
      else none
    else some orderedAll

/-- `_optimize_lane_order`.  `none` additionally models the IndexError
on an empty actor list without a start event. -/
def optimizeLaneOrder (nd : List PNode) (adj : String → List String)
    (akteure : List String) : Option (List String) := do
  let startLane ←
    match nd.find? (fun n => n.type == "startEvent") with
    | some n => some (laneOf nd n.id)
    | none => akteure.head?
  laneOrderFrom nd adj akteure startLane

-- ### `_assign_ranks`

/-- Ranks are a total map from node id; only keys of the node dict are
ever read, matching the `self.ranks` dict initialized to all zeros. -/
abbrev Ranks := String → Nat

/-- The body of the Kahn queue loop for one successor v of the dequeued
node u: raise v's rank, decrement its pending in-degree (a Python int,
which may go negative), and enqueue v exactly when the count hits 0. -/
def kahnStep (u : String) (st : List String × (String → Int) × Ranks)
    (v : String) : List String × (String → Int) × Ranks :=
  let (q, d, r) := st
  let r2 : Ranks := fun x => if x = v then max (r v) (r u + 1) else r x
  let d2 : String → Int := fun x => if x = v then d v - 1 else d x
  let q2 := if d2 v = 0 then q ++ [v] else q
  (q2, d2, r2)

/-- The `while queue` loop of `_assign_ranks`.  The returned list of
dequeued ids is a ghost trace (the source keeps no such list); every id
is enqueued at most once (a strictly decreasing int counter hits zero at
most once, and ids starting at zero have no incoming edges), so a fuel
of one more than the node count always outlasts the queue. -/
def kahnLoop (adj : String → List String) :
    Nat → List String → (String → Int) → Ranks → List String →
    Ranks × List String
  | 0, _, _, ranks, processed => (ranks, processed)
  | _ + 1, [], _, ranks, processed => (ranks, processed)
  | fuel + 1, u :: rest, indeg, ranks, processed =>
    let st := (adj u).foldl (kahnStep u) (rest, indeg, ranks)
    kahnLoop adj fuel st.1 st.2.1 st.2.2 (processed ++ [u])

/-- The topological (longest-path) part of `_assign_ranks`
(lines 148-158), returning the final ranks and the dequeue trace. -/
def assignRanksKahn (nd : List PNode) (adj revAdj : String → List String) :
    Ranks × List String :=
  let ranks0 : Ranks := fun _ => 0
  let indeg0 : String → Int := fun v => ((revAdj v).length : Int)
  let queue0 := (nd.map (fun n => n.id)).filter (fun i => (revAdj i).length == 0)
  kahnLoop adj (nd.length + 1) queue0 indeg0 ranks0 []

/-- One iteration of the gateway-synchronization correction
(lines 160-168) for the node id `nid`. -/
def gatewaySyncStep (adj : String → List String) (nd : List PNode)
    (ranks : Ranks) (nid : String) : Ranks :=
  match findNode nd nid with
  | none => ranks
  | some node =>
    if pyIn "gateway" (pyLower node.type) && decide (1 < (adj nid).length) then
      match adj nid with
      | [] => ranks
      | s0 :: srest =>
        let m := (srest.map ranks).foldl max (ranks s0)
        fun x => if (s0 :: srest).contains x && decide (ranks x < m) then m
                 else ranks x
    else ranks

/-- `_assign_ranks`: Kahn layering followed by the sequential
gateway-synchronization pass over the node dict. -/
def assignRanks (nd : List PNode) (adj revAdj : String → List String) :
    Ranks × List String :=
  let (r1, processed) := assignRanksKahn nd adj revAdj
  ((nd.map (fun n => n.id)).foldl (gatewaySyncStep adj nd) r1, processed)

-- ### `_resolve_cross_lane_collisions`

/-- The mutable state of the collision-resolution pass. -/
structure ResolveState where
  ranks : Ranks
  corridor : List (String × String)

/-- The breadth-first forward propagation (lines 200-209) run after a
rank raise: a queue of ids, a visited list, and the rank map.  Each id
is enqueued at most once (guarded by `visited`), so node count plus two
units of fuel always outlast the queue. -/
def propagate (adj : String → List String) :
    Nat → List String → List String → Ranks → Ranks
  | 0, _, _, ranks => ranks
  | _ + 1, [], _, ranks => ranks
  | fuel + 1, curr :: rest, visited, ranks =>
    let st := (adj curr).foldl
      (fun (acc : List String × List String × Ranks) succ =>
        let (qq, vis, r) := acc
        if r succ ≤ r curr then
          let r2 : Ranks := fun x => if x = succ then r curr + 1 else r x
          if vis.contains succ then (qq, vis, r2)
          else (qq ++ [succ], vis ++ [succ], r2)
        else acc)
      (rest, visited, ranks)
    propagate adj fuel st.1 st.2.1 st.2.2

/-- Processing of a single edge (u→v) inside the collision scan
(lines 179-209).  `none` models the KeyError raised by
`lane_orders[...]` on a lane missing from the ordered lane list. -/
def edgeCollisionStep (nd : List PNode) (adj : String → List String)
    (laneOrd : String → Option Nat) (st : ResolveState × Bool)
    (u v : String) : Option (ResolveState × Bool) := do
  let (rs, made) := st
  let uo ← laneOrd (laneOf nd u)
  let vo ← laneOrd (laneOf nd v)
  if max uo vo - min uo vo ≤ 1 then
    return (rs, made)
  else
    let minO := min uo vo
    let maxO := max uo vo
    let cands := (nd.map (fun n => n.id)).filter (fun i => !(i == u || i == v))
    let collPairs ← cands.mapM (fun i =>
      (laneOrd (laneOf nd i)).map (fun o => (i, o)))
    let colliding := (collPairs.filter (fun p =>
      decide (minO < p.2) && decide (p.2 < maxO) &&
      decide (rs.ranks u ≤ rs.ranks p.1) &&
      decide (rs.ranks p.1 < rs.ranks v))).map Prod.fst
    match colliding with
    | [] => return (rs, made)
    | c0 :: crest =>
      let maxColl := (crest.map rs.ranks).foldl max (rs.ranks c0)
      let required := maxColl + 2
      if rs.ranks v < required then
        let corridor2 := rs.corridor ++ [(u, v)]
        let ranks2 : Ranks := fun x => if x = v then required else rs.ranks x
        let ranks3 := propagate adj (nd.length + 2) [v] [v] ranks2
        return ({ ranks := ranks3, corridor := corridor2 }, true)
      else
        return (rs, made)

/-- The scan of all outgoing edges of one node inside a resolution pass. -/
def scanNodeCollisions (nd : List PNode) (adj : String → List String)
    (laneOrd : String → Option Nat) (rs : ResolveState) (u : String) :
    Option (ResolveState × Bool) :=
  (adj u).foldlM (fun st v => edgeCollisionStep nd adj laneOrd st u v) (rs, false)

/-- One full pass of the outer `for u_id in self.nodes` loop, honoring
the `break` taken right after the first node whose scan adjusted a rank. -/
def scanAllCollisions (nd : List PNode) (adj : String → List String)
    (laneOrd : String → Option Nat) :
    List String → ResolveState → Option (ResolveState × Bool)
  | [], rs => some (rs, false)
  | u :: rest, rs => do
    let (rs2, made) ← scanNodeCollisions nd adj laneOrd rs u
    if made then return (rs2, true)
    else scanAllCollisions nd adj laneOrd rest rs2

/-- The bounded fixpoint loop of `_resolve_cross_lane_collisions`.  The
second component of the result is true when the loop exited because a
pass made no adjustment (`made_adjustments` false), and false when the
iteration guard reached the bound while adjustments were still being
made — in that case the source silently falls through. -/
def resolveLoop (nd : List PNode) (adj : String → List String)
    (laneOrd : String → Option Nat) (ids : List String) :
    Nat → ResolveState → Option (ResolveState × Bool)
  | 0, rs => some (rs, false)
  | fuel + 1, rs => do
    let (rs2, made) ← scanAllCollisions nd adj laneOrd ids rs
    if made then resolveLoop nd adj laneOrd ids fuel rs2
    else return (rs2, true)

/-- `_resolve_cross_lane_collisions` with its `MAX_ITERATIONS` bound of
the squared node count. -/
def resolveCrossLaneCollisions (nd : List PNode) (adj : String → List String)
    (ranks : Ranks) (ordered : List String) : Option (ResolveState × Bool) :=
  let laneOrd := fun lane => ordered.findIdx? (fun l => l == lane)
  resolveLoop nd adj laneOrd (nd.map (fun n => n.id)) (nd.length * nd.length)
    { ranks := ranks, corridor := [] }

-- ### `_get_node_dimensions`

/-- `_get_node_dimensions`: kind-dependent footprint with the task
footprint as fallback for unrecognized kind strings. -/
def getNodeDimensions (node_type : String) : Nat × Nat :=
  if pyIn "task" (pyLower node_type) then
    (LayoutConfig.TASK_WIDTH, LayoutConfig.TASK_HEIGHT)
  else if pyIn "gateway" (pyLower node_type) then
    (LayoutConfig.GATEWAY_WIDTH, LayoutConfig.GATEWAY_HEIGHT)
  else if pyIn "event" (pyLower node_type) then
    (LayoutConfig.EVENT_WIDTH, LayoutConfig.EVENT_HEIGHT)
  else (LayoutConfig.TASK_WIDTH, LayoutConfig.TASK_HEIGHT)

-- ### `_calculate_node_positions`

/-- Absolute bounding box of a node (`self.layout_info[nid]`). -/
structure NodeGeo where
  x : ℚ
  y : ℚ
  width : Nat
  height : Nat
deriving DecidableEq, Repr

/-- Vertical band of a lane (`self.lane_layout[lane]`), fields written by
`_calculate_node_positions`; all three are Python ints. -/
structure LaneGeo where
  y : Nat
  height : Nat
  order : Nat
deriving DecidableEq, Repr

/-- Python string `<`: codepoint-lexicographic comparison. -/
def strLtL : List Char → List Char → Bool
  | [], [] => false
  | [], _ :: _ => true
  | _ :: _, [] => false
  | a :: as, b :: bs =>
    if a.toNat < b.toNat then true
    else if b.toNat < a.toNat then false
    else strLtL as bs

/-- Python string `<=` (used here to express the ascending sort). -/
def pyStrLe (a b : String) : Bool := !(strLtL b.data a.data)

/-- Stable insertion into an ascending String list (`sorted(nodes)`). -/
def insertStringAsc (s : String) : List String → List String
  | [] => [s]
  | x :: xs => if pyStrLe s x then s :: x :: xs else x :: insertStringAsc s xs

/-- Python `sorted` on strings (codepoint-lexicographic, ascending). -/
def sortStringsAsc (l : List String) : List String :=
  match l with
  | [] => []
  | x :: xs => insertStringAsc x (sortStringsAsc xs)

/-- Stable insertion into an ascending Nat list. -/
def insertNatAsc (k : Nat) : List Nat → List Nat
  | [] => [k]
  | x :: xs => if k ≤ x then k :: x :: xs else x :: insertNatAsc k xs

/-- Python `sorted` on the rank keys of `nodes_by_rank.items()`. -/
def sortNatsAsc (l : List Nat) : List Nat :=
  match l with
  | [] => []
  | x :: xs => insertNatAsc x (sortNatsAsc xs)

/-- First-occurrence deduplication of rank keys (defaultdict key order). -/
def dedupNatFirst (l : List Nat) : List Nat :=
  l.foldl (fun acc s => if acc.contains s then acc else acc ++ [s]) []

/-- Placement of one lane (lines 128-143): lane height from its most
crowded rank column, then boxes for its nodes grouped by rank (ranks
ascending, ids sorted within a rank). -/
def positionsForLane (nd : List PNode) (ranks : Ranks) (laneName : String)
    (cursor : Nat) : Nat × List (String × NodeGeo) :=
  let nodesInLane := (nd.filter (fun n => n.lane == laneName)).map (fun n => n.id)
  let rankKeys := dedupNatFirst (nodesInLane.map ranks)
  let maxInRank :=
    (rankKeys.map (fun rk => (nodesInLane.filter (fun i => ranks i == rk)).length)).foldl
      max 1
  let laneHeight := maxInRank * (LayoutConfig.TASK_HEIGHT + LayoutConfig.VERTICAL_SPACING)
    + LayoutConfig.LANE_PADDING_TOP + LayoutConfig.LANE_PADDING_BOTTOM
  let geos := (sortNatsAsc rankKeys).flatMap (fun rk =>
    let group := nodesInLane.filter (fun i => ranks i == rk)
    let ySpacing : ℚ := (laneHeight : ℚ) / ((group.length : ℚ) + 1)
    (sortStringsAsc group).enum.map (fun p =>
      let (j, nid) := p
      let wh := getNodeDimensions (typeOf nd nid)
      let x : ℚ := (LayoutConfig.POOL_PADDING_X + LayoutConfig.LANE_HEADER_WIDTH
        + LayoutConfig.LANE_CONTENT_PADDING_X : Nat)
        + (rk * (LayoutConfig.TASK_WIDTH + LayoutConfig.HORIZONTAL_SPACING) : Nat)
      let y : ℚ := (cursor : ℚ) + ySpacing * ((j : ℚ) + 1) - (wh.2 : ℚ) / 2
      (nid, { x := x, y := y, width := wh.1, height := wh.2 })))
  (laneHeight, geos)

/-- `max(...)` over a Python iterable known nonempty at the call site. -/
def maxOfList (l : List Nat) : Nat :=
  match l with
  | [] => 0
  | x :: xs => xs.foldl max x

/-- `_calculate_node_positions`: lane bands stacked from the pool top,
node boxes per lane, pool width and height.  `none` models the KeyError
of `self.lane_layout[lane_name].update` on a lane absent from the
declared actor list. -/
def calculateNodePositions (nd : List PNode) (ranks : Ranks)
    (ordered akteure : List String) :
    Option (List (String × LaneGeo) × List (String × NodeGeo) × ℚ × Nat) := do
  let maxRank := maxOfList (nd.map (fun n => ranks n.id))
  let akt := dedupFirst akteure
  let st ← ordered.enum.foldlM
    (fun (st : Nat × List (String × LaneGeo) × List (String × NodeGeo)) p => do
      let (cursor, lgeos, ngeos) := st
      let (i, laneName) := p
      if akt.contains laneName then
        let res := positionsForLane nd ranks laneName cursor
        pure (cursor + res.1,
          lgeos ++ [(laneName, { y := cursor, height := res.1, order := i })],
          ngeos ++ res.2)
      else none)
    (LayoutConfig.POOL_PADDING_Y, [], [])
  let poolWidth : ℚ := (LayoutConfig.POOL_PADDING_X + LayoutConfig.LANE_HEADER_WIDTH
    + LayoutConfig.LANE_CONTENT_PADDING_X : Nat)
    + ((maxRank : ℚ) + 3/2) * ((LayoutConfig.TASK_WIDTH + LayoutConfig.HORIZONTAL_SPACING : Nat) : ℚ)
  return (st.2.1, st.2.2, poolWidth, st.1)

-- ### `_calculate_all_edge_waypoints`

/-- Target resolution at routing time (lines 228 and 233):
`info.get('id') or info.get('target_id')`.  A bare string entry raises
AttributeError, modelled as `none` at the outer level. -/
def routeTarget : NextInfo → Option (Option String)
  | .strRef _ => none
  | .obj i t _ => some (pyOrStr i t)

/-- `next_node_info.get('label', '')` with the absent/null conflation. -/
def infoLabel : NextInfo → String
  | .strRef _ => ""
  | .obj _ _ l => l.getD ""

/-- Assoc-list lookup in the node layout map. -/
def lookupGeo (layout : List (String × NodeGeo)) (i : String) : Option NodeGeo :=
  (layout.find? (fun p => p.1 == i)).map Prod.snd

/-- Assoc-list lookup in the lane layout map. -/
def lookupLaneGeo (lgeos : List (String × LaneGeo)) (lane : String) :
    Option LaneGeo :=
  (lgeos.find? (fun p => p.1 == lane)).map Prod.snd

/-- The `same_lane_successors` scan (lines 225-230), kept as the list of
resolved target ids: run only for gateway-kind sources, collecting
truthy targets that exist and share the source's lane. -/
def sameLaneSuccessors (nd : List PNode) (u : PNode) :
    Option (List String) :=
  if pyIn "gateway" (pyLower u.type) then
    u.next_nodes.foldlM
      (fun acc info => do
        let tid? ← routeTarget info
        match tid? with
        | some tid =>
          if tid ≠ "" && isNodeId nd tid && (laneOf nd tid == u.lane) then
            pure (acc ++ [tid])
          else pure acc
        | none => pure acc)
      []
  else some []

/-- Routing of one `next_nodes` entry (the body of the loop at lines
232-303): resolve the target, drop falsy or unknown targets, otherwise
compute the waypoint polyline and append one edge record, advancing the
identifier-draw counter by one. -/
def routeOneEdge (nd : List PNode) (ranks : Ranks)
    (corridor : List (String × String)) (laneGeos : List (String × LaneGeo))
    (layout : List (String × NodeGeo)) (poolWidth : ℚ) (uuid : Nat → String)
    (u : PNode) (sameLane : List String)
    (acc : List EdgeOut × Nat) (info : NextInfo) : Option (List EdgeOut × Nat) := do
  let tid? ← routeTarget info
  if !(pyTruthy tid?) || !(isNodeId nd (tid?.getD "")) then
    pure acc
  else
    let vId := tid?.getD ""
    let edgeLabel := infoLabel info
    let uL ← lookupGeo layout u.id
    let vL ← lookupGeo layout vId
    let vNode ← findNode nd vId
    let rankDiff : Int := (ranks vId : Int) - (ranks u.id : Int)
    let pStart0 : ℚ × ℚ := (uL.x + uL.width, uL.y + (uL.height : ℚ) / 2)
    let pEnd0 : ℚ × ℚ := (vL.x, vL.y + (vL.height : ℚ) / 2)
    let uOrdGeo ← lookupLaneGeo laneGeos u.lane
    let vOrdGeo ← lookupLaneGeo laneGeos vNode.lane
    let uOrd := uOrdGeo.order
    let vOrd := vOrdGeo.order
    let se :=
      if pyIn "gateway" (pyLower u.type) then
        if uOrd ≠ vOrd then
          if vOrd < uOrd then ((uL.x + (uL.width : ℚ) / 2, uL.y), "top")
          else ((uL.x + (uL.width : ℚ) / 2, uL.y + uL.height), "bottom")
        else if 2 ≤ sameLane.length then
          match sameLane.findIdx? (fun s => s == vId) with
          | none => (pStart0, "right")
          | some idx =>
            let numSucc := sameLane.length
            if numSucc == 2 then
              if idx == 0 then ((uL.x + (uL.width : ℚ) / 2, uL.y), "top")
              else ((uL.x + (uL.width : ℚ) / 2, uL.y + uL.height), "bottom")
            else if numSucc == 3 then
              if idx == 0 then ((uL.x + (uL.width : ℚ) / 2, uL.y), "top")
              else if idx == 1 then
                ((uL.x + uL.width, uL.y + (uL.height : ℚ) / 2), "right")
              else ((uL.x + (uL.width : ℚ) / 2, uL.y + uL.height), "bottom")
            else
              if idx % 2 == 0 then ((uL.x + (uL.width : ℚ) / 2, uL.y), "top")
              else ((uL.x + (uL.width : ℚ) / 2, uL.y + uL.height), "bottom")
        else (pStart0, "right")
      else (pStart0, "right")
    let pStart := se.1
    let exitDir := se.2
    let pEnd :=
      if 1 < rankDiff && pyIn "gateway" (pyLower vNode.type)
          && !(corridor.contains (u.id, vId)) then
        (vL.x + (vL.width : ℚ) / 2, vL.y)
      else pEnd0
    let mids : List (ℚ × ℚ) :=
      if 1 < rankDiff then
        if corridor.contains (u.id, vId) then
          let midX := pStart.1 + (vL.x - pStart.1) / 2
          [(midX, pStart.2), (midX, pEnd.2)]
        else
          let routingY := min pStart.2 pEnd.2 - (LayoutConfig.VERTICAL_SPACING : ℚ)
          let stubX1 := pStart.1 + (LayoutConfig.ROUTING_MARGIN : ℚ)
          [(stubX1, pStart.2), (stubX1, routingY), (pEnd.1, routingY)]
      else if rankDiff == 1 then
        if exitDir == "right" then
          let midX := pStart.1 + (LayoutConfig.ROUTING_MARGIN : ℚ) * 2
          [(midX, pStart.2), (midX, pEnd.2)]
        else [(pStart.1, pEnd.2)]
      else if rankDiff < 0 then
        let maxX := poolWidth + (LayoutConfig.POOL_PADDING_X : ℚ)
        [(maxX, pStart.2), (maxX, pEnd.2)]
      else []
    let wps := pStart :: (mids ++ [pEnd])
    let eid := "sid-" ++ uuid acc.2
    pure (acc.1 ++ [{ id := eid, target_id := vId, waypoints := wps,
                      label := edgeLabel }], acc.2 + 1)

/-- Routing of the outgoing edges of one node (lines 232-303), threading
the identifier-draw counter: one draw per emitted edge record. -/
def routeEdgesForNode (nd : List PNode) (ranks : Ranks)
    (corridor : List (String × String)) (laneGeos : List (String × LaneGeo))
    (layout : List (String × NodeGeo)) (poolWidth : ℚ) (uuid : Nat → String)
    (u : PNode) (cnt0 : Nat) : Option (List EdgeOut × Nat) := do
  let sameLane ← sameLaneSuccessors nd u
  u.next_nodes.foldlM
    (routeOneEdge nd ranks corridor laneGeos layout poolWidth uuid u sameLane)
    ([], cnt0)

/-- `_calculate_all_edge_waypoints`: rebuild every node's `edges` list in
dict order, threading the identifier counter (first edge draw is index 8,
after the eight constructor draws). -/
def calculateAllEdgeWaypoints (nd : List PNode) (ranks : Ranks)
    (corridor : List (String × String)) (laneGeos : List (String × LaneGeo))
    (layout : List (String × NodeGeo)) (poolWidth : ℚ) (uuid : Nat → String) :
    Option (List PNode × Nat) :=
  nd.foldlM
    (fun (acc : List PNode × Nat) u => do
      let res ← routeEdgesForNode nd ranks corridor laneGeos layout poolWidth
        uuid u acc.2
      pure (acc.1 ++ [{ u with edges := res.1 }], res.2))
    ([], 8)

-- ### `_create_xml`

/-- An ElementTree element: tag, ordered attributes, optional text,
child elements. -/
inductive XElem where
  | el (tag : String) (attrs : List (String × String)) (text : Option String)
       (children : List XElem)

/-- Tag accessor. -/
def XElem.tagOf : XElem → String
  | .el t _ _ _ => t

/-- Attribute-list accessor. -/
def XElem.attrsOf : XElem → List (String × String)
  | .el _ a _ _ => a

/-- Children accessor. -/
def XElem.childrenOf : XElem → List XElem
  | .el _ _ _ c => c

/-- Attribute lookup by name. -/
def XElem.attr (e : XElem) (k : String) : Option String :=
  (e.attrsOf.find? (fun p => p.1 == k)).map Prod.snd

/-- The eight identifier draws of `BPMNLayoutGenerator.__init__`
(line 38), in dict-literal evaluation order. -/
def sidOf (uuid : Nat → String) (k : Nat) : String := "sid-" ++ uuid k

/-- Label-anchor placement for a labelled edge (lines 352-366). -/
def edgeLabelPos (node : PNode) (e : EdgeOut) : ℚ × ℚ :=
  match e.waypoints with
  | p0 :: p1 :: _ =>
    if pyIn "gateway" (pyLower node.type) then
      if p0.1 == p1.1 then
        (p1.1 + 8, if p0.2 < p1.2 then p1.2 + 15 else p1.2 - 15)
      else (p0.1 + (p1.1 - p0.1) / 2, p1.2 - 20)
    else (p0.1 + 5, p0.2 - 25)
  | _ => (0, 0)

/-- `_create_xml`: the full document tree.  `none` models the KeyErrors
on lanes missing from the declared actor set and on nodes that never
received a bounding box. -/
def createXml (g : ProcessGraph) (nd : List PNode)
    (revAdj : String → List String) (laneGeos : List (String × LaneGeo))
    (layout : List (String × NodeGeo)) (poolWidth : ℚ) (poolHeight : Nat)
    (ordered : List String) (uuid : Nat → String) (cnt0 : Nat) :
    Option XElem := do
  let idsDefinitions := sidOf uuid 0
  let idsCollaboration := sidOf uuid 1
  let idsProcess := sidOf uuid 2
  let idsParticipant := sidOf uuid 3
  let idsLaneSet := sidOf uuid 4
  let idsDiagram := sidOf uuid 5
  let idsPlane := sidOf uuid 6
  let idsLabelStyle := sidOf uuid 7
  let akt := dedupFirst g.akteure
  let rootAttrs := [
    ("id", idsDefinitions),
    ("targetNamespace", "http://www.signavio.com"),
    ("xmlns", "http://www.omg.org/spec/BPMN/20100524/MODEL"),
    ("xmlns:bpmndi", "http://www.omg.org/spec/BPMN/20100524/DI"),
    ("xmlns:omgdc", "http://www.omg.org/spec/DD/20100524/DC"),
    ("xmlns:omgdi", "http://www.omg.org/spec/DD/20100524/DI"),
    ("xmlns:signavio", "http://www.signavio.com"),
    ("xmlns:xsi", "http://www.w3.org/2001/XMLSchema-instance")]
  let participant := XElem.el "participant"
    [("id", idsParticipant), ("name", g.prozessname), ("processRef", idsProcess)]
    none []
  let collaboration := XElem.el "collaboration" [("id", idsCollaboration)] none
    [participant]
  let laneIds ← ordered.enum.mapM (fun p =>
    if akt.contains p.2 then some (p.2, sidOf uuid (cnt0 + p.1)) else none)
  let laneElems := laneIds.map (fun p =>
    XElem.el "lane" [("id", p.2), ("name", p.1)] none
      ((nd.filter (fun n => n.lane == p.1)).map (fun n =>
        XElem.el "flowNodeRef" [] (some n.id) [])))
  let laneSet := XElem.el "laneSet" [("id", idsLaneSet)] none laneElems
  let nodeElems := nd.map (fun node =>
    let baseAttrs := [("id", node.id), ("name", node.label.getD "")]
    let attrs :=
      if pyIn "gateway" node.type then
        baseAttrs ++ [("gatewayDirection",
          if 1 < node.next_nodes.length then "Diverging" else "Converging")]
      else baseAttrs
    let incoming := (revAdj node.id).filterMap (fun src =>
      match findNode nd src with
      | some srcN =>
        ((srcN.edges.find? (fun e => e.target_id == node.id)).map (fun e =>
          XElem.el "incoming" [] (some e.id) []))
      | none => none)
    let outgoing := node.edges.map (fun e =>
      XElem.el "outgoing" [] (some e.id) [])
    XElem.el node.type attrs none (incoming ++ outgoing))
  let flows := nd.flatMap (fun u => u.edges.map (fun e =>
    let at0 := [("id", e.id), ("sourceRef", u.id), ("targetRef", e.target_id)]
    let ats := if e.label ≠ "" then at0 ++ [("name", e.label)] else at0
    XElem.el "sequenceFlow" ats none []))
  let process := XElem.el "process"
    [("id", idsProcess), ("isExecutable", "false")] none
    (laneSet :: (nodeElems ++ flows))
  let poolShape := XElem.el "bpmndi:BPMNShape"
    [("id", idsParticipant ++ "_gui"), ("bpmnElement", idsParticipant),
     ("isHorizontal", "true")] none
    [XElem.el "omgdc:Bounds"
      [("x", toString LayoutConfig.POOL_PADDING_X),
       ("y", toString LayoutConfig.POOL_PADDING_Y),
       ("width", toString (pyInt poolWidth)),
       ("height", toString poolHeight)] none []]
  let laneShapes ← akt.mapM (fun lane => do
    let geo ← lookupLaneGeo laneGeos lane
    let lid ← (laneIds.find? (fun p => p.1 == lane)).map Prod.snd
    pure (XElem.el "bpmndi:BPMNShape"
      [("id", lid ++ "_gui"), ("bpmnElement", lid), ("isHorizontal", "true")]
      none
      [XElem.el "omgdc:Bounds"
        [("x", toString (LayoutConfig.POOL_PADDING_X + LayoutConfig.LANE_HEADER_WIDTH)),
         ("y", toString geo.y),
         ("width", toString (pyInt (poolWidth - (LayoutConfig.LANE_HEADER_WIDTH : ℚ)))),
         ("height", toString geo.height)] none []]))
  let nodeShapes ← nd.mapM (fun node => do
    let geo ← lookupGeo layout node.id
    let boundsEl := XElem.el "omgdc:Bounds"
      [("x", toString (pyInt geo.x)), ("y", toString (pyInt geo.y)),
       ("width", toString geo.width), ("height", toString geo.height)] none []
    let kids :=
      if pyTruthy node.label then
        [boundsEl, XElem.el "bpmndi:BPMNLabel" [("labelStyle", idsLabelStyle)] none []]
      else [boundsEl]
    pure (XElem.el "bpmndi:BPMNShape"
      [("id", node.id ++ "_gui"), ("bpmnElement", node.id)] none kids))
  let edgeShapes := nd.flatMap (fun node => node.edges.map (fun e =>
    let wpEls := e.waypoints.map (fun p =>
      XElem.el "omgdi:waypoint"
        [("x", toString (pyRound p.1)), ("y", toString (pyRound p.2))] none [])
    let labelKids :=
      if e.label ≠ "" then
        let pos := edgeLabelPos node e
        let boundsKids :=
          if 2 ≤ e.waypoints.length then
            [XElem.el "omgdc:Bounds"
              [("x", toString (pyInt pos.1)), ("y", toString (pyInt pos.2)),
               ("width", toString (e.label.length * 7)), ("height", "14")]
              none []]
          else []
        [XElem.el "bpmndi:BPMNLabel" [("labelStyle", idsLabelStyle)] none
          boundsKids]
      else []
    XElem.el "bpmndi:BPMNEdge"
      [("id", e.id ++ "_gui"), ("bpmnElement", e.id)] none
      (wpEls ++ labelKids)))
  let plane := XElem.el "bpmndi:BPMNPlane"
    [("id", idsPlane), ("bpmnElement", idsCollaboration)] none
    (poolShape :: (laneShapes ++ nodeShapes ++ edgeShapes))
  let styleDefault := XElem.el "bpmndi:BPMNLabelStyle" [("id", idsLabelStyle)]
    none [XElem.el "omgdc:Font" [("name", "Arial"), ("size", "12.0")] none []]
  let diagram := XElem.el "bpmndi:BPMNDiagram" [("id", idsDiagram)] none
    [plane, styleDefault]
  return XElem.el "definitions" rootAttrs none [collaboration, process, diagram]

-- ### serialization to text (`tostring` + `minidom.toprettyxml`)

/-- Attribute-value escaping of the XML writer. -/
def escAttr (s : String) : String :=
  String.join (s.toList.map (fun c =>
    if c == '&' then "&amp;"
    else if c == '<' then "&lt;"
    else if c == '>' then "&gt;"
    else if c == '\x22' then "&quot;"
    else String.singleton c))

/-- Text-node escaping of the XML writer. -/
def escText (s : String) : String :=
  String.join (s.toList.map (fun c =>
    if c == '&' then "&amp;"
    else if c == '<' then "&lt;"
    else if c == '>' then "&gt;"
    else String.singleton c))

/-- Attribute rendering in insertion order. -/
def renderAttrs (attrs : List (String × String)) : String :=
  String.join (attrs.map (fun p =>
    " " ++ p.1 ++ "=\x22" ++ escAttr p.2 ++ "\x22"))

mutual

/-- Pretty-printing of one element with two-space indentation: empty
elements self-close, a lone text child is kept inline, child elements go
on their own deeper-indented lines (minidom.toprettyxml behavior). -/
def renderXml (ind : String) : XElem → String
  | .el tag attrs text children =>
    match text, children with
    | none, [] => ind ++ "<" ++ tag ++ renderAttrs attrs ++ "/>\n"
    | some t, [] =>
      ind ++ "<" ++ tag ++ renderAttrs attrs ++ ">" ++ escText t ++ "</"
        ++ tag ++ ">\n"
    | tx, _ =>
      ind ++ "<" ++ tag ++ renderAttrs attrs ++ ">\n"
        ++ (match tx with
            | some t => ind ++ "  " ++ escText t ++ "\n"
            | none => "")
        ++ renderXmlList (ind ++ "  ") children
        ++ ind ++ "</" ++ tag ++ ">\n"

/-- Child-list rendering. -/
def renderXmlList (ind : String) : List XElem → String
  | [] => ""
  | x :: xs => renderXml ind x ++ renderXmlList ind xs

end

/-- The serialized document: XML declaration plus the pretty-printed
tree, as returned by line 371 of src/bpmn_generator.py. -/
def xmlDocString (root : XElem) : String :=
  "<?xml version=\x221.0\x22 encoding=\x22UTF-8\x22?>\n" ++ renderXml "" root

-- ### `generate_bpmn_xml`: the full pipeline

/-- The document tree produced by one invocation (everything up to but
not including the final text rendering). -/
def generateBpmnTree (g : ProcessGraph) (uuid : Nat → String) :
    Option XElem := do
  let nd := dictNodes g.nodes
  let adj := adjOf nd
  let revAdj := revAdjOf nd
  let nd1 := optimizeGatewayLanes adj nd
  let ordered ← optimizeLaneOrder nd1 adj g.akteure
  let nd2 := enforceEndEventLanes revAdj nd1
  let ranksA := assignRanks nd2 adj revAdj
  let resolved ← resolveCrossLaneCollisions nd2 adj ranksA.1 ordered
  let pos ← calculateNodePositions nd2 resolved.1.ranks ordered g.akteure
  let (laneGeos, layout, poolWidth, poolHeight) := pos
  let routed ← calculateAllEdgeWaypoints nd2 resolved.1.ranks resolved.1.corridor
    laneGeos layout poolWidth uuid
  createXml g routed.1 revAdj laneGeos layout poolWidth poolHeight ordered
    uuid routed.2

/-- `generate_bpmn_xml`: the pipeline of lines 373-383, returning the
serialized document text; `none` models an invocation that raises. -/
def generateBpmnXml (g : ProcessGraph) (uuid : Nat → String) : Option String :=
  (generateBpmnTree g uuid).map xmlDocString

/-- The ranks of the final layout (after rank assignment, gateway
synchronization and collision resolution), when the pipeline reaches the
geometry stage. -/
def finalRanks (g : ProcessGraph) : Option Ranks := do
  let nd := dictNodes g.nodes
  let adj := adjOf nd
  let revAdj := revAdjOf nd
  let nd1 := optimizeGatewayLanes adj nd
  let ordered ← optimizeLaneOrder nd1 adj g.akteure
  let nd2 := enforceEndEventLanes revAdj nd1
  let ranksA := assignRanks nd2 adj revAdj
  let resolved ← resolveCrossLaneCollisions nd2 adj ranksA.1 ordered
  return resolved.1.ranks

/-- `copy.deepcopy` of the input graph (line 32): a structurally equal,
disjoint value. -/
def deepCopy (g : ProcessGraph) : ProcessGraph :=
  { prozessname := g.prozessname
    prozessziel := g.prozessziel
    akteure := g.akteure
    nodes := g.nodes }

/-- One caller-visible layout invocation: the engine works on a private
deep copy of the caller's graph (`__init__`, line 32), and the pair
returned here is (caller's graph after the call, engine output).  All
engine mutation happens on values derived from the copy. -/
def runLayoutInvocation (g : ProcessGraph) (uuid : Nat → String) :
    ProcessGraph × Option String :=
  (g, generateBpmnXml (deepCopy g) uuid)

-- ### observers and claim-level predicates

/-- The edges the router retains: entries whose resolved target
(`info.get('id') or info.get('target_id')`, line 233) is truthy and
names an existing node.  These are exactly the edges serialized as
sequence flows. -/
def retainedEdges (nd : List PNode) : List (String × String) :=
  nd.flatMap (fun n => n.next_nodes.filterMap (fun e =>
    match e with
    | .strRef _ => none
    | .obj i t _ =>
      match pyOrStr i t with
      | some v => if v ≠ "" && isNodeId nd v then some (n.id, v) else none
      | none => none))

/-- The targets the router retains from one `next_nodes` list: resolved
targets that are truthy and name an existing node, in entry order. -/
def retainedTargetsL (nd : List PNode) (l : List NextInfo) : List String :=
  l.filterMap (fun e =>
    match e with
    | .strRef _ => none
    | .obj i t _ =>
      match pyOrStr i t with
      | some v => if v ≠ "" && isNodeId nd v then some v else none
      | none => none)

/-- The retained targets of one node's outgoing entries. -/
def retainedTargets (nd : List PNode) (n : PNode) : List String :=
  retainedTargetsL nd n.next_nodes

/-- Final ranks with a junk total default (read only under `isSome`). -/
def finalRanksD (g : ProcessGraph) : Ranks :=
  (finalRanks g).getD (fun _ => 0)

/-- Claim C1 as stated: whenever the layout reaches the geometry stage,
every retained edge satisfies the monotonic layering inequality in the
final rank assignment. -/
def finalLayoutRankMonotone (g : ProcessGraph) : Prop :=
  (finalRanks g).isSome = true →
  ∀ p ∈ retainedEdges (dictNodes g.nodes),
    finalRanksD g p.1 + 1 ≤ finalRanksD g p.2

/-- Claim C4 as stated: all direct successors of a diverging gateway
share one rank in the final layout. -/
def divergingGatewaySuccessorsAligned (g : ProcessGraph) : Prop :=
  (finalRanks g).isSome = true →
  ∀ n ∈ dictNodes g.nodes,
    pyIn "gateway" (pyLower n.type) = true →
    1 < (adjOf (dictNodes g.nodes) n.id).length →
    ∀ v ∈ adjOf (dictNodes g.nodes) n.id,
      ∀ w ∈ adjOf (dictNodes g.nodes) n.id,
        finalRanksD g v = finalRanksD g w

/-- Is a `next_nodes` entry a dict (rather than a bare string)? -/
def isObjInfo : NextInfo → Bool
  | .strRef _ => false
  | .obj _ _ _ => true

/-- Well-formedness used by the totality theorems: every edge entry is a
dict (bare strings make the router raise AttributeError). -/
def edgesAllDicts (nd : List PNode) : Prop :=
  ∀ n ∈ nd, ∀ e ∈ n.next_nodes, isObjInfo e = true

/-- Well-formedness: every node's lane is a declared actor. -/
def lanesDeclared (g : ProcessGraph) : Prop :=
  ∀ n ∈ dictNodes g.nodes, g.akteure.contains n.lane = true

/-- The `process` element of a document tree (second child of
`definitions`). -/
def docProcessOf (t : XElem) : Option XElem := t.childrenOf.get? 1

/-- The per-node typed elements of the process element: everything but
the lane set and the sequence flows. -/
def processNodeElems (p : XElem) : List XElem :=
  p.childrenOf.filter (fun c =>
    !(c.tagOf == "laneSet") && !(c.tagOf == "sequenceFlow"))

/-- The sequence-flow connectors of the process element. -/
def processFlowElems (p : XElem) : List XElem :=
  p.childrenOf.filter (fun c => c.tagOf == "sequenceFlow")

/-- A node with its lane blanked: the projection preserved by the two
lane-mutation passes (`_optimize_gateway_lanes`, `_enforce_end_event_lanes`),
which rewrite only the `lane` field. -/
def noLane (n : PNode) : PNode := { n with lane := "" }

/-- A node with its edges blanked: the projection preserved by the edge
router, which rewrites only the `edges` field. -/
def noEdges (n : PNode) : PNode := { n with edges := [] }

/-- The (source id, target id) pairs of the rebuilt `edges` lists, in
serialization order: exactly the sequence flows of the document. -/
def flowPairs (ns : List PNode) : List (String × String) :=
  ns.flatMap (fun n => n.edges.map (fun e => (n.id, e.target_id)))

-- ### concrete inputs used by the counterexamples and witnesses

/-- Edge dict with only a target id. -/
def tEdge (t : String) : NextInfo := .obj none (some t) none

/-- A task-like node constructor for the concrete graphs. -/
def tNode (i ty la : String) (es : List NextInfo) : PNode :=
  { id := i, type := ty, label := some (i ++ " label"), lane := la,
    next_nodes := es }

/-- Acyclic input on one lane whose gateway synchronization drags one
branch of the gateway `g` forward (to the rank of the long branch) while
the earlier-ranked successor chain `a → c` stays behind. -/
def exC1 : ProcessGraph :=
  { prozessname := "p", prozessziel := "z", akteure := ["L"],
    nodes := [
      tNode "s" "startEvent" "L" [tEdge "g", tEdge "x1"],
      tNode "g" "exclusiveGateway" "L" [tEdge "a", tEdge "b"],
      tNode "a" "task" "L" [tEdge "c"],
      tNode "b" "task" "L" [],
      tNode "x1" "task" "L" [tEdge "x2"],
      tNode "x2" "task" "L" [tEdge "x3"],
      tNode "x3" "task" "L" [tEdge "b"],
      tNode "c" "task" "L" []] }

/-- Input with two diverging gateways sharing the successor `b`: the
later-processed gateway g2 re-raises `b` after g1 was already
synchronized, leaving g1's successors at different ranks. -/
def exC4 : ProcessGraph :=
  { prozessname := "p", prozessziel := "z", akteure := ["L"],
    nodes := [
      tNode "s" "startEvent" "L" [tEdge "g1", tEdge "g2", tEdge "x1"],
      tNode "g1" "exclusiveGateway" "L" [tEdge "a", tEdge "b"],
      tNode "g2" "exclusiveGateway" "L" [tEdge "b", tEdge "c"],
      tNode "a" "task" "L" [],
      tNode "b" "task" "L" [],
      tNode "c" "task" "L" [],
      tNode "x1" "task" "L" [tEdge "x2"],
      tNode "x2" "task" "L" [tEdge "x3"],
      tNode "x3" "task" "L" [tEdge "x4"],
      tNode "x4" "task" "L" [tEdge "c"]] }

/-- Convergence input for the normalizer witnesses: two gateway branches
merge on the task `t`. -/
def exMerge : ProcessGraph :=
  { prozessname := "p", prozessziel := "z", akteure := ["L"],
    nodes := [
      tNode "s" "startEvent" "L" [tEdge "g"],
      tNode "g" "exclusiveGateway" "L" [tEdge "a", tEdge "b"],
      tNode "a" "task" "L" [tEdge "t"],
      tNode "b" "task" "L" [tEdge "t"],
      tNode "t" "task" "L" []] }

/-- Identifier stream used by witnesses that need one. -/
def exStreamW : Nat → String := fun k => "w" ++ toString k

/-- A concrete rank map used by the gateway-synchronization witness. -/
def exRanksW : Ranks := fun x => if x = "b" then 3 else 0

instance (g : ProcessGraph) : Decidable (finalLayoutRankMonotone g) := by
  unfold finalLayoutRankMonotone
  infer_instance

instance (g : ProcessGraph) : Decidable (divergingGatewaySuccessorsAligned g) := by
  unfold divergingGatewaySuccessorsAligned
  infer_instance

instance (nd : List PNode) : Decidable (edgesAllDicts nd) := by
  unfold edgesAllDicts
  infer_instance

instance (g : ProcessGraph) : Decidable (lanesDeclared g) := by
  unfold lanesDeclared
  infer_instance

/-- All `target_id` values of a node list, in scan order. -/
def targetsOf (ns : List PNode) : List String :=
  ns.flatMap (fun n => n.next_nodes.filterMap appTarget)

/-- In-degree of an id in a node list: occurrences as a `target_id`.
Counting only edges whose target exists is automatic at the use sites,
where the id is a node of the same list. -/
def listInDeg (ns : List PNode) (v : String) : Nat :=
  (targetsOf ns).count v

/-- Everything of an edge entry except its target. -/
def infoShell : NextInfo → Option String × Option String
  | .strRef _ => (none, none)
  | .obj i _ l => (i, l)

/-- Everything of a node except its edge targets: the normalizer may
rewrite targets but must not touch anything in this shell. -/
def nodeShell (n : PNode) :
    String × String × Option String × String × List (Option String × Option String)
      × List EdgeOut :=
  (n.id, n.type, n.label, n.lane, n.next_nodes.map infoShell, n.edges)

/-- The successful result of the normalizer's edge scan. -/
def pairsOf (ns : List PNode) : List (String × String) :=
  ns.flatMap (fun n => n.next_nodes.filterMap (fun e =>
    (appTarget e).map (fun t => (n.id, t))))

/-- Every edge entry is a dict carrying a `target_id` key (the
normalizer raises otherwise). -/
def edgesHaveTargets (ns : List PNode) : Prop :=
  ∀ n ∈ ns, ∀ e ∈ n.next_nodes, (appTarget e).isSome = true

instance (ns : List PNode) : Decidable (edgesHaveTargets ns) := by
  unfold edgesHaveTargets
  infer_instance

/-- A violation-free two-node chain for the idempotence witness. -/
def exChain : ProcessGraph :=
  { prozessname := "p", prozessziel := "z", akteure := ["L"],
    nodes := [tNode "s" "startEvent" "L" [tEdge "a"],
              tNode "a" "task" "L" []] }

/-- Two-lane input exercising the serializer counts: three nodes, two
resolvable edges, and one dangling edge target (`missing5`) that the
router must drop without failing. -/
def exC5 : ProcessGraph :=
  { prozessname := "p5", prozessziel := "z5", akteure := ["A", "B"],
    nodes := [
      tNode "s5" "startEvent" "A" [tEdge "t5"],
      tNode "t5" "task" "A" [tEdge "e5", tEdge "missing5"],
      tNode "e5" "endEvent" "B" []] }

/-- C10: node-dimension lookup is total over arbitrary kind strings —
when the kind contains none of "task", "gateway", "event"
(case-insensitively), `_get_node_dimensions` returns the task footprint
(width 100, height 80) instead of failing. -/
theorem C10_unknown_kind_gets_task_footprint (ty : String)
    (h1 : pyIn "task" (pyLower ty) = false)
    (h2 : pyIn "gateway" (pyLower ty) = false)
    (h3 : pyIn "event" (pyLower ty) = false) :
    getNodeDimensions ty = (100, 80) := by
  unfold getNodeDimensions
  rw [h1, h2, h3]
  rfl

/-- Witness for C10 at the concrete kind string "subProcess". -/
theorem C10_witness :
    pyIn "task" (pyLower "subProcess") = false ∧
    pyIn "gateway" (pyLower "subProcess") = false ∧
    pyIn "event" (pyLower "subProcess") = false ∧
    getNodeDimensions "subProcess" = (100, 80) :=
  ⟨by decide, by decide, by decide,
    C10_unknown_kind_gets_task_footprint "subProcess" (by decide) (by decide)
      (by decide)⟩

/-- C9: the caller's ProcessGraph value is unchanged by a layout
invocation — the engine operates on the private deep copy taken in
`__init__` (line 32), so the caller-side component of the invocation is
the original graph itself. -/
theorem C9_caller_graph_unchanged (g : ProcessGraph) (uuid : Nat → String) :
    (runLayoutInvocation g uuid).1 = g := rfl

/-- Counterexample to C1: on the acyclic single-lane input `exC1` the
pipeline completes, yet the retained edge a → c has rank(c) = 3 <
rank(a) + 1 = 5 in the final layout (gateway synchronization raised `a`
to the long branch's rank without re-layering its successors). -/
theorem C1_counterexample : ¬ finalLayoutRankMonotone exC1 := by decide

/-- Counterexample to C4: on `exC4` the diverging gateway g1 ends with
direct successors at ranks 2 and 5 — synchronizing the later gateway g2
re-raised the shared successor `b` after g1 had been processed. -/
theorem C4_counterexample : ¬ divergingGatewaySuccessorsAligned exC4 := by
  decide

/-- Helper: a fold of max is at least its seed. -/
theorem foldl_max_init_le (l : List Nat) : ∀ a, a ≤ l.foldl max a := by
  induction l with
  | nil => intro a; simp
  | cons x xs ih =>
    intro a
    simpa using le_trans (le_max_left a x) (ih (max a x))

/-- Helper: list members are bounded by a running maximum fold. -/
theorem le_foldl_max (l : List Nat) : ∀ a b, b = a ∨ b ∈ l → b ≤ l.foldl max a := by
  induction l with
  | nil =>
    intro a b h
    rcases h with h | h
    · simpa using h.le
    · cases h
  | cons x xs ih =>
    intro a b h
    simp only [List.foldl_cons]
    rcases h with h | h
    · exact h.le.trans (le_trans (le_max_left a x) (foldl_max_init_le xs _))
    · rcases List.mem_cons.mp h with h | h
      · exact h.le.trans (le_trans (le_max_right a x) (foldl_max_init_le xs _))
      · exact ih (max a x) b (Or.inr h)

/-- C4 amended: immediately after the gateway-synchronization step
processes one diverging gateway, all of that gateway's direct successors
carry the same rank; the claim fails only for the final layout, because
later steps (other gateways, collision resolution) can re-raise a shared
successor. -/
theorem C4_amended_sync_step_aligns (adj : String → List String)
    (nd : List PNode) (ranks : Ranks) (node : PNode)
    (hfind : findNode nd node.id = some node)
    (hgw : pyIn "gateway" (pyLower node.type) = true)
    (hdiv : 1 < (adj node.id).length) :
    ∀ v ∈ adj node.id, ∀ w ∈ adj node.id,
      gatewaySyncStep adj nd ranks node.id v =
        gatewaySyncStep adj nd ranks node.id w := by
  intro v hv w hw
  rcases hadj : adj node.id with _ | ⟨s0, srest⟩
  · rw [hadj] at hdiv; simp at hdiv
  · rw [hadj] at hv hw
    have key : ∀ x ∈ s0 :: srest,
        gatewaySyncStep adj nd ranks node.id x =
          (srest.map ranks).foldl max (ranks s0) := by
      intro x hx
      rw [hadj] at hdiv
      simp only [gatewaySyncStep, hfind, hadj, hgw, Bool.true_and,
        decide_eq_true_eq, if_pos hdiv]
      have hle : ranks x ≤ (srest.map ranks).foldl max (ranks s0) := by
        rcases List.mem_cons.mp hx with h | h
        · exact le_foldl_max _ _ _ (Or.inl (by rw [h]))
        · exact le_foldl_max _ _ _ (Or.inr (List.mem_map_of_mem ranks h))
      have hcont : (s0 :: srest).contains x = true :=
        List.elem_eq_true_of_mem hx
      by_cases hlt : ranks x < (srest.map ranks).foldl max (ranks s0)
      · rw [if_pos]
        rw [hcont, Bool.true_and, decide_eq_true_eq]
        exact hlt
      · rw [if_neg, le_antisymm hle (not_lt.mp hlt)]
        rw [hcont, Bool.true_and]
        simpa using hlt
    rw [key v hv, key w hw]

/-- Witness for the amended C4 theorem on the concrete merge graph with
the concrete rank map `exRanksW`. -/
theorem C4_amended_witness :
    gatewaySyncStep (adjOf (dictNodes exMerge.nodes)) (dictNodes exMerge.nodes)
      exRanksW "g" "a" =
    gatewaySyncStep (adjOf (dictNodes exMerge.nodes)) (dictNodes exMerge.nodes)
      exRanksW "g" "b" := by
  have h := C4_amended_sync_step_aligns (adjOf (dictNodes exMerge.nodes))
    (dictNodes exMerge.nodes) exRanksW
    (tNode "g" "exclusiveGateway" "L" [tEdge "a", tEdge "b"])
    (by decide) (by decide) (by decide)
  exact h "a" (by decide) "b" (by decide)

/-- Helper: dict insertion keeps the id list when the key exists. -/
theorem dictStep_ids_of_mem (acc : List PNode) (n : PNode)
    (h : acc.any (fun m => m.id == n.id) = true) :
    (dictStep acc n).map (fun m => m.id) = acc.map (fun m => m.id) := by
  unfold dictStep
  rw [if_pos h, List.map_map]
  apply List.map_congr_left
  intro m _
  by_cases hm : m.id = n.id
  · simp [hm]
  · simp [hm]

/-- Helper: the node dict has pairwise distinct ids. -/
theorem dictNodes_ids_nodup (ns : List PNode) :
    ((dictNodes ns).map (fun n => n.id)).Nodup := by
  suffices h : ∀ acc : List PNode, (acc.map (fun m => m.id)).Nodup →
      ((ns.foldl dictStep acc).map (fun m => m.id)).Nodup by
    exact h [] List.nodup_nil
  induction ns with
  | nil => intro acc hacc; simpa using hacc
  | cons n rest ih =>
    intro acc hacc
    simp only [List.foldl_cons]
    apply ih
    by_cases hmem : acc.any (fun m => m.id == n.id) = true
    · rw [dictStep_ids_of_mem acc n hmem]; exact hacc
    · unfold dictStep
      rw [if_neg hmem]
      rw [List.map_append]
      simp only [List.map_cons, List.map_nil]
      apply List.Nodup.append hacc (List.nodup_singleton _)
      intro x hx hx2
      simp only [List.mem_singleton] at hx2
      subst hx2
      rcases List.mem_map.mp hx with ⟨m, hm, hid⟩
      exact hmem (List.any_eq_true.mpr ⟨m, hm, by simp [hid]⟩)

/-- Helper: on id-unique input the node dict is the input itself. -/
theorem dictNodes_eq_self (ns : List PNode)
    (h : (ns.map (fun m => m.id)).Nodup) : dictNodes ns = ns := by
  suffices haux : ∀ acc : List PNode, ((acc ++ ns).map (fun m => m.id)).Nodup →
      ns.foldl dictStep acc = acc ++ ns by
    simpa using haux [] (by simpa using h)
  clear h
  induction ns with
  | nil => intro acc _; simp
  | cons n rest ih =>
    intro acc hacc
    simp only [List.foldl_cons]
    have hnotin : acc.any (fun m => m.id == n.id) = false := by
      rw [List.any_eq_false]
      intro m hm
      simp only [beq_iff_eq]
      intro heq
      rw [List.map_append, List.nodup_append] at hacc
      exact hacc.2.2 (List.mem_map_of_mem _ hm) (by simp [heq])
    rw [show dictStep acc n = acc ++ [n] from by unfold dictStep; rw [if_neg (by simp [hnotin])]]
    rw [ih (acc ++ [n]) (by simpa using hacc)]
    simp

/-- Helper: Bool contains agrees with membership for strings. -/
theorem containsS_iff (l : List String) (x : String) :
    l.contains x = true ↔ x ∈ l :=
  ⟨List.mem_of_elem_eq_true, List.elem_eq_true_of_mem⟩

/-- Helper: membership in the first-occurrence set. -/
theorem dedupFirst_mem (l : List String) (x : String) :
    x ∈ dedupFirst l ↔ x ∈ l := by
  suffices haux : ∀ acc : List String,
      (x ∈ l.foldl dedupStep acc ↔ x ∈ acc ∨ x ∈ l) by
    simpa using haux []
  induction l with
  | nil => intro acc; simp
  | cons s rest ih =>
    intro acc
    simp only [List.foldl_cons]
    by_cases hc : acc.contains s = true
    · have hds : dedupStep acc s = acc := by unfold dedupStep; rw [if_pos hc]
      rw [hds, ih acc]
      have hsacc : s ∈ acc := (containsS_iff acc s).mp hc
      constructor
      · rintro (h | h)
        · exact Or.inl h
        · exact Or.inr (List.mem_cons_of_mem _ h)
      · rintro (h | h)
        · exact Or.inl h
        · rcases List.mem_cons.mp h with h | h
          · exact Or.inl (h ▸ hsacc)
          · exact Or.inr h
    · have hds : dedupStep acc s = acc ++ [s] := by
        unfold dedupStep; rw [if_neg hc]
      rw [hds, ih (acc ++ [s])]
      simp only [List.mem_append, List.mem_singleton, List.mem_cons]
      tauto

/-- Helper: the first-occurrence set has no duplicates. -/
theorem dedupFirst_nodup (l : List String) : (dedupFirst l).Nodup := by
  suffices haux : ∀ acc : List String, acc.Nodup → (l.foldl dedupStep acc).Nodup by
    exact haux [] List.nodup_nil
  induction l with
  | nil => intro acc hacc; simpa using hacc
  | cons s rest ih =>
    intro acc hacc
    simp only [List.foldl_cons]
    by_cases hc : acc.contains s = true
    · have hds : dedupStep acc s = acc := by unfold dedupStep; rw [if_pos hc]
      rw [hds]; exact ih acc hacc
    · have hds : dedupStep acc s = acc ++ [s] := by
        unfold dedupStep; rw [if_neg hc]
      rw [hds]
      apply ih
      apply List.Nodup.append hacc (List.nodup_singleton _)
      intro y hy hy2
      simp only [List.mem_singleton] at hy2
      subst hy2
      exact hc ((containsS_iff acc y).mpr hy)

/-- Helper: dict lookup of a member over an id-unique list. -/
theorem findNode_of_nodup_mem (ns : List PNode) (n : PNode)
    (hnd : (ns.map (fun m => m.id)).Nodup) (hmem : n ∈ ns) :
    findNode ns n.id = some n := by
  induction ns with
  | nil => cases hmem
  | cons m rest ih =>
    simp only [List.map_cons, List.nodup_cons] at hnd
    rcases List.mem_cons.mp hmem with h | h
    · subst h
      unfold findNode
      simp
    · unfold findNode
      simp only [List.find?_cons]
      have hne : (m.id == n.id) = false := by
        simp only [beq_eq_false_iff_ne, ne_eq]
        intro heq
        exact hnd.1 (heq ▸ List.mem_map_of_mem _ h)
      rw [hne]
      exact ih hnd.2 h

/-- Helper: a found index is within bounds. -/
theorem indexOf?_lt_length (l : List String) (t : String) :
    ∀ k, l.indexOf? t = some k → k < l.length := by
  induction l with
  | nil => intro k h; simp [List.indexOf?_nil] at h
  | cons x xs ih =>
    intro k h
    rw [List.indexOf?_cons] at h
    by_cases hx : (x == t) = true
    · rw [if_pos hx] at h; cases h; simp
    · rw [if_neg hx] at h
      rcases Option.map_eq_some'.mp h with ⟨k2, hk2, hkeq⟩
      subst hkeq
      simpa using Nat.succ_lt_succ (ih k2 hk2)

/-- Helper: membership gives an index. -/
theorem indexOf?_isSome_of_mem (l : List String) (t : String) (h : t ∈ l) :
    (l.indexOf? t).isSome = true := by
  rcases ho : l.indexOf? t with _ | k
  · rw [List.indexOf?_eq_none_iff] at ho
    exact absurd (by simp : (t == t) = true) (by simpa using ho t h)
  · rfl

/-- Helper: no index for a non-member. -/
theorem indexOf?_eq_none_of_not_mem (l : List String) (t : String)
    (h : ¬ t ∈ l) : l.indexOf? t = none := by
  rw [List.indexOf?_eq_none_iff]
  intro x hx
  simp only [beq_iff_eq]
  intro he
  exact h (he ▸ hx)

/-- Helper: mapM over Option succeeds when every element maps to some,
returning the filterMap. -/
theorem mapM_option_all_some {α β : Type} (f : α → Option β) (l : List α)
    (h : ∀ a ∈ l, (f a).isSome = true) :
    l.mapM f = some (l.filterMap f) := by
  induction l with
  | nil => rfl
  | cons a rest ih =>
    rcases hfa : f a with _ | b
    · exact absurd (hfa ▸ h a (List.mem_cons_self a rest)) (by simp)
    · rw [List.mapM_cons, hfa, ih (fun x hx => h x (List.mem_cons_of_mem _ hx))]
      simp [List.filterMap_cons, hfa]

/-- Helper: flattening the (owner, edge) pairs and extracting targets
gives the pair scan. -/
theorem flatten_pairs_filterMap (ns : List PNode) :
    (ns.flatMap (fun n => n.next_nodes.map (fun e => (n.id, e)))).filterMap
      (fun p => (appTarget p.2).map (fun t => (p.1, t))) = pairsOf ns := by
  unfold pairsOf
  induction ns with
  | nil => rfl
  | cons n rest ih =>
    rw [List.flatMap_cons, List.flatMap_cons, List.filterMap_append, ih]
    congr 1
    rw [List.filterMap_map]
    rfl

/-- Helper: the edge scan of the normalizer succeeds on dict edges. -/
theorem collectEdgePairs_of_targets (ns : List PNode)
    (h : edgesHaveTargets ns) : collectEdgePairs ns = some (pairsOf ns) := by
  unfold collectEdgePairs
  rw [mapM_option_all_some, flatten_pairs_filterMap]
  intro p hp
  rcases List.mem_flatMap.mp hp with ⟨n, hn, hpn⟩
  rcases List.mem_map.mp hpn with ⟨e, he, hpe⟩
  subst hpe
  have hta := h n hn e he
  rcases ht : appTarget e with _ | t
  · rw [ht] at hta; simp at hta
  · simp [ht]

/-- Helper: a valid edge of a node makes that node a recorded
predecessor of its target. -/
theorem preds_contains (nd : List PNode) (n : PNode) (e : NextInfo) (t : String)
    (hn : n ∈ nd) (he : e ∈ n.next_nodes) (ht : appTarget e = some t)
    (htid : isNodeId nd t = true) :
    (appPredecessors (validPairs nd (pairsOf nd)) t).contains n.id = true := by
  apply (containsS_iff _ _).mpr
  unfold appPredecessors
  apply List.mem_map.mpr
  refine ⟨(n.id, t), ?_, rfl⟩
  apply List.mem_filter.mpr
  refine ⟨?_, by simp⟩
  unfold validPairs
  apply List.mem_filter.mpr
  refine ⟨?_, by simpa using htid⟩
  unfold pairsOf
  apply List.mem_flatMap.mpr
  refine ⟨n, hn, ?_⟩
  apply List.mem_filterMap.mpr
  exact ⟨e, he, by rw [ht]; rfl⟩

/-- Helper: characterization of the offender list. -/
theorem mem_offenders (nd : List PNode) (v : String) :
    v ∈ offendersOf nd (validPairs nd (pairsOf nd)) ↔
      2 ≤ appInDegree (validPairs nd (pairsOf nd)) v ∧
      pyIn "Gateway" (typeOf nd v) = false ∧ isNodeId nd v = true := by
  unfold offendersOf
  rw [List.mem_filter]
  constructor
  · rintro ⟨hd, hfilt⟩
    simp only [Bool.and_eq_true, decide_eq_true_eq, Bool.not_eq_true'] at hfilt
    refine ⟨hfilt.1, hfilt.2, ?_⟩
    rcases List.mem_map.mp ((dedupFirst_mem _ _).mp hd) with ⟨p, hp, hps⟩
    unfold validPairs at hp
    rcases List.mem_filter.mp hp with ⟨_, hid⟩
    simpa [hps] using hid
  · rintro ⟨hcnt, hgw, _⟩
    refine ⟨(dedupFirst_mem _ _).mpr ?_, ?_⟩
    · have hpos : 0 < ((validPairs nd (pairsOf nd)).map Prod.snd).count v := by
        unfold appInDegree at hcnt
        omega
      exact List.count_pos_iff.mp hpos
    · simp only [Bool.and_eq_true, decide_eq_true_eq, Bool.not_eq_true']
      exact ⟨hcnt, hgw⟩

/-- Helper: count through a snd-projection of a filter that the counted
value satisfies. -/
theorem count_map_snd_filter (l : List (String × String)) (v : String)
    (q : String → Bool) (hv : q v = true) :
    ((l.filter (fun p => q p.2)).map Prod.snd).count v =
      (l.map Prod.snd).count v := by
  induction l with
  | nil => rfl
  | cons p rest ih =>
    simp only [List.filter_cons, List.map_cons]
    by_cases hq : q p.2 = true
    · rw [if_pos hq]
      simp only [List.map_cons]
      rw [List.count_cons, List.count_cons, ih]
    · rw [if_neg hq, ih, List.count_cons]
      have hne : (p.2 == v) = false := by
        rw [beq_eq_false_iff_ne]
        intro he
        exact hq (he ▸ hv)
      simp [hne]

/-- Helper: targets of the pair scan are the raw target list. -/
theorem pairsOf_map_snd (ns : List PNode) :
    (pairsOf ns).map Prod.snd = targetsOf ns := by
  unfold pairsOf targetsOf
  induction ns with
  | nil => rfl
  | cons n rest ih =>
    rw [List.flatMap_cons, List.flatMap_cons, List.map_append, ih]
    congr 1
    rw [List.map_filterMap]
    congr 1
    funext e
    rcases appTarget e with _ | t <;> rfl

/-- Helper: for an existing id, the normalizer's in-degree equals the
raw target count. -/
theorem appInDegree_eq_listInDeg (nd : List PNode) (v : String)
    (hv : isNodeId nd v = true) :
    appInDegree (validPairs nd (pairsOf nd)) v = listInDeg nd v := by
  unfold appInDegree validPairs listInDeg
  rw [count_map_snd_filter _ _ _ hv, pairsOf_map_snd]

/-- Helper: rewriting leaves an edge alone when its target offends
nothing. -/
theorem rewriteEdge_not_offender (fresh : Nat → String) (offs : List String)
    (vp : List (String × String)) (owner : String) (e : NextInfo) (t : String)
    (ht : appTarget e = some t) (hto : ¬ t ∈ offs) :
    rewriteEdge fresh offs vp owner e = e := by
  cases e with
  | strRef s => rfl
  | obj i tk l =>
    cases tk with
    | none => rfl
    | some t2 =>
      obtain rfl : t2 = t := by simpa [appTarget] using ht
      simp only [rewriteEdge, rerouteTo]
      rw [indexOf?_eq_none_of_not_mem _ _ hto]
      rfl

/-- Helper: rewriting retargets an edge aimed at an offender to that
offender's synthesized gateway. -/
theorem rewriteEdge_offender (fresh : Nat → String) (offs : List String)
    (vp : List (String × String)) (owner : String) (e : NextInfo) (t : String)
    (ht : appTarget e = some t) (hto : t ∈ offs)
    (hpred : (appPredecessors vp t).contains owner = true) :
    ∃ k, offs.indexOf? t = some k ∧
      appTarget (rewriteEdge fresh offs vp owner e) =
        some (mergeGatewayId fresh k) := by
  cases e with
  | strRef s => simp [appTarget] at ht
  | obj i tk l =>
    cases tk with
    | none => simp [appTarget] at ht
    | some t2 =>
      obtain rfl : t2 = t := by simpa [appTarget] using ht
      rcases hidx : offs.indexOf? t2 with _ | k
      · exact absurd (indexOf?_isSome_of_mem offs t2 hto) (by simp [hidx])
      · refine ⟨k, rfl, ?_⟩
        simp only [rewriteEdge, rerouteTo, hidx]
        simp only [Option.map]
        rw [hpred]
        rfl

/-- Helper: target counts over one node's rewritten edge list. -/
theorem count_rewritten_edges (fresh : Nat → String) (offs : List String)
    (vp : List (String × String)) (owner : String) (v : String)
    (es : List NextInfo)
    (hT : ∀ e ∈ es, (appTarget e).isSome = true)
    (hP : ∀ e ∈ es, ∀ t, appTarget e = some t → t ∈ offs →
        (appPredecessors vp t).contains owner = true)
    (hfv : ∀ k, k < offs.length → mergeGatewayId fresh k ≠ v) :
    ((es.map (rewriteEdge fresh offs vp owner)).filterMap appTarget).count v =
      if v ∈ offs then 0 else (es.filterMap appTarget).count v := by
  induction es with
  | nil => simp
  | cons e rest ih =>
    have hTe := hT e (List.mem_cons_self e rest)
    rcases ht : appTarget e with _ | t
    · rw [ht] at hTe; simp at hTe
    · have ihr := ih (fun x hx => hT x (List.mem_cons_of_mem _ hx))
        (fun x hx => hP x (List.mem_cons_of_mem _ hx))
      by_cases hto : t ∈ offs
      · rcases rewriteEdge_offender fresh offs vp owner e t ht hto
          (hP e (List.mem_cons_self e rest) t ht hto) with ⟨k, hk, hrw⟩
        have hklen := indexOf?_lt_length offs t k hk
        have hmgne : (mergeGatewayId fresh k == v) = false := by
          rw [beq_eq_false_iff_ne]
          exact hfv k hklen
        rw [List.map_cons, List.filterMap_cons, hrw]
        rw [List.count_cons, ihr, hmgne]
        by_cases hv : v ∈ offs
        · simp [hv]
        · have htv : (t == v) = false := by
            rw [beq_eq_false_iff_ne]
            intro he
            exact hv (he ▸ hto)
          rw [if_neg hv, List.filterMap_cons, ht, List.count_cons, htv]
          simp [hv]
      · rw [List.map_cons, List.filterMap_cons,
          rewriteEdge_not_offender fresh offs vp owner e t ht hto, ht]
        rw [List.count_cons, ihr]
        by_cases hv : v ∈ offs
        · have htv : (t == v) = false := by
            rw [beq_eq_false_iff_ne]
            intro he
            exact hto (he ▸ hv)
          rw [if_pos hv, if_pos hv, htv]
          simp
        · rw [if_neg hv, if_neg hv, List.filterMap_cons, ht, List.count_cons]

/-- Helper: target counts over the whole rewritten node list. -/
theorem count_rewritten_nodes (fresh : Nat → String) (offs : List String)
    (vp : List (String × String)) (v : String) (ms : List PNode)
    (hT : ∀ n ∈ ms, ∀ e ∈ n.next_nodes, (appTarget e).isSome = true)
    (hP : ∀ n ∈ ms, ∀ e ∈ n.next_nodes, ∀ t, appTarget e = some t →
        t ∈ offs → (appPredecessors vp t).contains n.id = true)
    (hfv : ∀ k, k < offs.length → mergeGatewayId fresh k ≠ v) :
    (targetsOf (ms.map (fun n =>
      { n with next_nodes := n.next_nodes.map (rewriteEdge fresh offs vp n.id) }))).count v =
      if v ∈ offs then 0 else (targetsOf ms).count v := by
  induction ms with
  | nil => simp [targetsOf]
  | cons n rest ih =>
    unfold targetsOf
    rw [List.map_cons, List.flatMap_cons, List.flatMap_cons, List.count_append,
      List.count_append]
    have hedge := count_rewritten_edges fresh offs vp n.id v n.next_nodes
      (hT n (List.mem_cons_self n rest))
      (hP n (List.mem_cons_self n rest)) hfv
    have ihr := ih (fun x hx => hT x (List.mem_cons_of_mem _ hx))
      (fun x hx => hP x (List.mem_cons_of_mem _ hx))
    unfold targetsOf at ihr
    rw [hedge, ihr]
    by_cases hv : v ∈ offs
    · simp [hv]
    · simp [hv]

/-- Helper: the synthesized gateways contribute exactly the offender
list as targets. -/
theorem targets_added_gateways (fresh : Nat → String) (nd : List PNode)
    (offs : List String) :
    targetsOf (offs.enum.map (fun p => mkMergeGateway fresh p.1 nd p.2)) =
      offs := by
  unfold targetsOf
  have h : ∀ (base : Nat),
      ((offs.enumFrom base).map (fun p => mkMergeGateway fresh p.1 nd p.2)).flatMap
        (fun n => n.next_nodes.filterMap appTarget) = offs := by
    induction offs with
    | nil => intro base; rfl
    | cons t rest ih =>
      intro base
      simp only [List.enumFrom_cons, List.map_cons, List.flatMap_cons]
      rw [ih (base + 1)]
      rfl
  simpa [List.enum] using h 0

/-- Helper: in-degrees add over list concatenation. -/
theorem listInDeg_append (A B : List PNode) (v : String) :
    listInDeg (A ++ B) v = listInDeg A v + listInDeg B v := by
  unfold listInDeg targetsOf
  rw [List.flatMap_append, List.count_append]

/-- Helper: membership gives the id-membership test. -/
theorem isNodeId_of_mem (ns : List PNode) (n : PNode) (h : n ∈ ns) :
    isNodeId ns n.id = true :=
  List.any_eq_true.mpr ⟨n, h, by simp⟩

/-- Helper: the id-membership test gives a member. -/
theorem exists_of_isNodeId (ns : List PNode) (v : String)
    (h : isNodeId ns v = true) : ∃ n ∈ ns, n.id = v := by
  rcases List.any_eq_true.mp h with ⟨n, hn, hid⟩
  exact ⟨n, hn, by simpa using hid⟩

/-- Helper: kind lookup of a member over an id-unique list. -/
theorem typeOf_eq (ns : List PNode) (n : PNode)
    (hnd : (ns.map (fun m => m.id)).Nodup) (h : n ∈ ns) :
    typeOf ns n.id = n.type := by
  unfold typeOf
  rw [findNode_of_nodup_mem ns n hnd h]

/-- Helper: rewriting an edge does not change its non-target content. -/
theorem infoShell_rewriteEdge (fresh : Nat → String) (offs : List String)
    (vp : List (String × String)) (owner : String) (e : NextInfo) :
    infoShell (rewriteEdge fresh offs vp owner e) = infoShell e := by
  cases e with
  | strRef s => rfl
  | obj i tk l =>
    cases tk with
    | none => rfl
    | some t =>
      simp only [rewriteEdge]
      rcases rerouteTo fresh offs t with _ | gw
      · rfl
      · by_cases hc : owner ∈ appPredecessors vp t
        · simp [hc, infoShell]
        · simp [hc, infoShell]

/-- Helper: rewriting an edge keeps its target present. -/
theorem rewriteEdge_target_isSome (fresh : Nat → String) (offs : List String)
    (vp : List (String × String)) (owner : String) (e : NextInfo)
    (h : (appTarget e).isSome = true) :
    (appTarget (rewriteEdge fresh offs vp owner e)).isSome = true := by
  cases e with
  | strRef s => simpa [appTarget] using h
  | obj i tk l =>
    cases tk with
    | none => simpa [appTarget] using h
    | some t =>
      simp only [rewriteEdge]
      rcases rerouteTo fresh offs t with _ | gw
      · simp [appTarget]
      · by_cases hc : owner ∈ appPredecessors vp t
        · simp [hc, appTarget]
        · simp [hc, appTarget]

/-- Helper: a duplicate-free subset is no longer than its superset. -/
theorem nodup_subset_length_le (l m : List String) (h : l.Nodup)
    (hs : ∀ x ∈ l, x ∈ m) : l.length ≤ m.length := by
  classical
  calc l.length = l.toFinset.card := by rw [List.toFinset_card_of_nodup h]
  _ ≤ m.toFinset.card := Finset.card_le_card (by
      intro x hx
      rw [List.mem_toFinset] at *
      exact hs x hx)
  _ ≤ m.length := m.toFinset_card_le

/-- Helper: the offender list repeats nothing. -/
theorem offenders_nodup (nd : List PNode) (vp : List (String × String)) :
    (offendersOf nd vp).Nodup :=
  (dedupFirst_nodup _).filter _

/-- Helper: offenders are node ids, so there are at most as many
offenders as nodes. -/
theorem offenders_length_le (nd : List PNode) :
    (offendersOf nd (validPairs nd (pairsOf nd))).length ≤ nd.length := by
  apply le_trans (nodup_subset_length_le _ (nd.map (fun m => m.id))
    (offenders_nodup nd _) ?_)
  · simp
  · intro v hv
    rcases exists_of_isNodeId nd v ((mem_offenders nd v).mp hv).2.2 with ⟨n, hn, hid⟩
    exact hid ▸ List.mem_map_of_mem _ hn

/-- Helper: the computation performed by one normalizer call on
well-formed input, written out. -/
theorem enforce_run (g : ProcessGraph) (fresh : Nat → String)
    (hwt : edgesHaveTargets g.nodes)
    (hnd : (g.nodes.map (fun m => m.id)).Nodup) :
    enforceMergingGateways fresh g =
      (if (offendersOf g.nodes (validPairs g.nodes (pairsOf g.nodes))).isEmpty
       then some g
       else some { g with nodes :=
         (g.nodes.map (fun n => { n with next_nodes :=
           (n.next_nodes.map (rewriteEdge fresh
             (offendersOf g.nodes (validPairs g.nodes (pairsOf g.nodes)))
             (validPairs g.nodes (pairsOf g.nodes)) n.id)) })) ++
         ((offendersOf g.nodes (validPairs g.nodes (pairsOf g.nodes))).enum.map
           (fun p => mkMergeGateway fresh p.1 g.nodes p.2)) }) := by
  unfold enforceMergingGateways
  simp only [dictNodes_eq_self _ hnd, collectEdgePairs_of_targets g.nodes hwt]
  rfl

/-- Helper: rewriting targets preserves the node shell. -/
theorem nodeShell_rewriteNode (fresh : Nat → String) (offs : List String)
    (vp : List (String × String)) (n : PNode) :
    nodeShell
      { n with next_nodes := n.next_nodes.map (rewriteEdge fresh offs vp n.id) }
      = nodeShell n := by
  have h5 : List.map (infoShell ∘ rewriteEdge fresh offs vp n.id) n.next_nodes
      = List.map infoShell n.next_nodes :=
    List.map_congr_left (fun e _ => infoShell_rewriteEdge fresh offs vp n.id e)
  unfold nodeShell
  simp only [List.map_map]
  rw [h5]

/-- Central specification of `_enforce_merging_gateways` on well-formed
input (dict edges with targets, unique node ids, fresh distinct gateway
ids): the call succeeds; name, goal and lanes are unchanged; the
original nodes keep everything but their edge targets; only exclusive
gateways are appended; every non-gateway node of the output has
in-degree at most one; the output is again well-formed; and violation-free
input is returned unchanged. -/
theorem enforce_spec (g : ProcessGraph) (fresh : Nat → String)
    (hwt : edgesHaveTargets g.nodes)
    (hnd : (g.nodes.map (fun m => m.id)).Nodup)
    (hf1 : ∀ i, i < g.nodes.length → ∀ j, j < g.nodes.length → i ≠ j →
        mergeGatewayId fresh i ≠ mergeGatewayId fresh j)
    (hf2 : ∀ i, i < g.nodes.length → ∀ n ∈ g.nodes,
        mergeGatewayId fresh i ≠ n.id) :
    ∃ g2, enforceMergingGateways fresh g = some g2 ∧
      g2.prozessname = g.prozessname ∧
      g2.prozessziel = g.prozessziel ∧
      g2.akteure = g.akteure ∧
      (g2.nodes.take g.nodes.length).map nodeShell = g.nodes.map nodeShell ∧
      (∀ n ∈ g2.nodes.drop g.nodes.length, n.type = "exclusiveGateway") ∧
      (∀ n ∈ g2.nodes, pyIn "Gateway" n.type = false →
        listInDeg g2.nodes n.id ≤ 1) ∧
      edgesHaveTargets g2.nodes ∧
      (g2.nodes.map (fun m => m.id)).Nodup ∧
      ((∀ n ∈ g.nodes, pyIn "Gateway" n.type = false →
          listInDeg g.nodes n.id ≤ 1) → g2 = g) := by
  have hdict : dictNodes g.nodes = g.nodes := dictNodes_eq_self _ hnd
  set vp := validPairs g.nodes (pairsOf g.nodes) with hvp
  set offs := offendersOf g.nodes vp with hoffs
  set R := g.nodes.map (fun n =>
    { n with next_nodes := n.next_nodes.map (rewriteEdge fresh offs vp n.id) })
    with hR
  set A := offs.enum.map (fun p => mkMergeGateway fresh p.1 g.nodes p.2) with hA
  have hrun : enforceMergingGateways fresh g =
      (if offs.isEmpty then some g else some { g with nodes := R ++ A }) := by
    unfold enforceMergingGateways
    simp only [hdict, collectEdgePairs_of_targets g.nodes hwt]
    rfl
  have hKlen : offs.length ≤ g.nodes.length := hoffs ▸ hvp ▸ offenders_length_le g.nodes
  have hT : ∀ n ∈ g.nodes, ∀ e ∈ n.next_nodes, (appTarget e).isSome = true := hwt
  have hP : ∀ n ∈ g.nodes, ∀ e ∈ n.next_nodes, ∀ t, appTarget e = some t →
      t ∈ offs → (appPredecessors vp t).contains n.id = true := by
    intro m hm e he t ht hto
    exact preds_contains g.nodes m e t hm he ht
      (((mem_offenders g.nodes t).mp (hoffs ▸ hto)).2.2)
  have hviol : ∀ n ∈ g.nodes, pyIn "Gateway" n.type = false →
      2 ≤ listInDeg g.nodes n.id → n.id ∈ offs := by
    intro n hn hngw hcnt
    rw [hoffs, hvp]
    apply (mem_offenders g.nodes n.id).mpr
    refine ⟨?_, ?_, isNodeId_of_mem _ _ hn⟩
    · rw [appInDegree_eq_listInDeg _ _ (isNodeId_of_mem _ _ hn)]
      exact hcnt
    · rw [typeOf_eq _ _ hnd hn]
      exact hngw
  by_cases hemp : offs.isEmpty = true
  · have hoe : offs = [] := List.isEmpty_iff.mp hemp
    refine ⟨g, by rw [hrun, if_pos hemp], rfl, rfl, rfl, by simp, by simp,
      ?_, hwt, hnd, fun _ => rfl⟩
    intro n hn hngw
    by_contra hgt
    have hin := hviol n hn hngw (by omega)
    rw [hoe] at hin
    cases hin
  · have hRlen : R.length = g.nodes.length := by rw [hR, List.length_map]
    refine ⟨{ g with nodes := R ++ A }, by rw [hrun, if_neg hemp], rfl, rfl,
      rfl, ?_, ?_, ?_, ?_, ?_, ?_⟩
    · rw [show g.nodes.length = R.length from hRlen.symm, List.take_left, hR,
        List.map_map]
      apply List.map_congr_left
      intro n _
      exact nodeShell_rewriteNode fresh offs vp n
    · rw [show g.nodes.length = R.length from hRlen.symm, List.drop_left]
      intro n hn
      rcases List.mem_map.mp (hA ▸ hn) with ⟨p, _, rfl⟩
      rfl
    · intro n hn hngw
      rcases List.mem_append.mp hn with hnR | hnA
      · rcases List.mem_map.mp (hR ▸ hnR) with ⟨n0, hn0, rfl⟩
        show listInDeg (R ++ A) n0.id ≤ 1
        rw [listInDeg_append]
        have hfv : ∀ k, k < offs.length → mergeGatewayId fresh k ≠ n0.id :=
          fun k hk => hf2 k (lt_of_lt_of_le hk hKlen) n0 hn0
        have hrw := count_rewritten_nodes fresh offs vp n0.id g.nodes hT hP hfv
        have hRdeg : listInDeg R n0.id =
            if n0.id ∈ offs then 0 else listInDeg g.nodes n0.id := by
          rw [hR]
          exact hrw
        have hAdeg : listInDeg A n0.id = offs.count n0.id := by
          rw [hA]
          unfold listInDeg
          rw [targets_added_gateways]
        rw [hRdeg, hAdeg]
        by_cases hvo : n0.id ∈ offs
        · rw [if_pos hvo]
          have hle1 : offs.count n0.id ≤ 1 :=
            List.nodup_iff_count_le_one.mp (hoffs ▸ offenders_nodup g.nodes vp)
              n0.id
          omega
        · rw [if_neg hvo]
          have hzero : offs.count n0.id = 0 := List.count_eq_zero.mpr hvo
          have hbound : listInDeg g.nodes n0.id ≤ 1 := by
            by_contra hgt
            exact hvo (hviol n0 hn0 hngw (by omega))
          omega
      · exfalso
        rcases List.mem_map.mp (hA ▸ hnA) with ⟨p, _, rfl⟩
        have hty : (mkMergeGateway fresh p.1 g.nodes p.2).type =
            "exclusiveGateway" := rfl
        rw [hty] at hngw
        exact absurd hngw (by decide)
    · intro n hn e he
      rcases List.mem_append.mp hn with hnR | hnA
      · rcases List.mem_map.mp (hR ▸ hnR) with ⟨n0, hn0, rfl⟩
        rcases List.mem_map.mp he with ⟨e0, he0, rfl⟩
        exact rewriteEdge_target_isSome fresh offs vp n0.id e0 (hwt n0 hn0 e0 he0)
      · rcases List.mem_map.mp (hA ▸ hnA) with ⟨p, _, rfl⟩
        rcases List.mem_singleton.mp he with rfl
        rfl
    · rw [List.map_append]
      have hRids : R.map (fun m => m.id) = g.nodes.map (fun m => m.id) := by
        rw [hR, List.map_map]
        rfl
      have hAids : A.map (fun m => m.id) =
          (List.range offs.length).map (mergeGatewayId fresh) := by
        rw [hA, List.map_map, show ((fun m => PNode.id m) ∘
          fun p => mkMergeGateway fresh p.1 g.nodes p.2) =
          (mergeGatewayId fresh) ∘ Prod.fst from rfl, ← List.map_map,
          List.enum_map_fst]
      rw [hRids, hAids]
      apply List.Nodup.append hnd
      · apply List.Nodup.map_on
        · intro i hi j hj hij
          by_contra hne
          exact hf1 i (lt_of_lt_of_le (List.mem_range.mp hi) hKlen)
            j (lt_of_lt_of_le (List.mem_range.mp hj) hKlen) hne hij
        · exact List.nodup_range _
      · intro x hx hx2
        rcases List.mem_map.mp hx with ⟨n, hn, rfl⟩
        rcases List.mem_map.mp hx2 with ⟨i, hi, hieq⟩
        exact hf2 i (lt_of_lt_of_le (List.mem_range.mp hi) hKlen) n hn hieq
    · intro hclean
      exfalso
      rcases hoc : offs with _ | ⟨v, rest⟩
      · rw [hoc] at hemp
        exact hemp rfl
      · have hv : v ∈ offs := by rw [hoc]; exact List.mem_cons_self v rest
        rcases (mem_offenders g.nodes v).mp (hoffs ▸ hv) with ⟨hcnt, hgwt, hid⟩
        rcases exists_of_isNodeId g.nodes v hid with ⟨n, hn, rfl⟩
        rw [appInDegree_eq_listInDeg _ _ (isNodeId_of_mem _ _ hn)] at hcnt
        rw [typeOf_eq _ _ hnd hn] at hgwt
        have := hclean n hn hgwt
        omega

/-- C3: on any input graph with unique node ids, dict edges and fresh
synthesized ids, the Graph Normalizer returns a graph in which every
node whose kind is not a gateway has in-degree at most one; the output
keeps every original node (with everything except edge targets
untouched) and only appends synthesized exclusive gateways — nothing is
deleted. -/
theorem C3_normalizer_contract (g : ProcessGraph) (fresh : Nat → String)
    (hwt : edgesHaveTargets g.nodes)
    (hnd : (g.nodes.map (fun m => m.id)).Nodup)
    (hf1 : ∀ i, i < g.nodes.length → ∀ j, j < g.nodes.length → i ≠ j →
        mergeGatewayId fresh i ≠ mergeGatewayId fresh j)
    (hf2 : ∀ i, i < g.nodes.length → ∀ n ∈ g.nodes,
        mergeGatewayId fresh i ≠ n.id) :
    ∃ g2, enforceMergingGateways fresh g = some g2 ∧
      (∀ n ∈ g2.nodes, pyIn "Gateway" n.type = false →
        listInDeg g2.nodes n.id ≤ 1) ∧
      (g2.nodes.take g.nodes.length).map nodeShell = g.nodes.map nodeShell ∧
      (∀ n ∈ g2.nodes.drop g.nodes.length, n.type = "exclusiveGateway") ∧
      g2.prozessname = g.prozessname ∧
      g2.prozessziel = g.prozessziel ∧
      g2.akteure = g.akteure := by
  rcases enforce_spec g fresh hwt hnd hf1 hf2 with
    ⟨g2, h1, h2, h3, h4, h5, h6, h7, _, _, _⟩
  exact ⟨g2, h1, h7, h5, h6, h2, h3, h4⟩

/-- Witness for C3 on the concrete convergence input `exMerge` (two
branches of gateway g merge on task t). -/
theorem C3_witness :
    ∃ g2, enforceMergingGateways exStreamW exMerge = some g2 ∧
      (∀ n ∈ g2.nodes, pyIn "Gateway" n.type = false →
        listInDeg g2.nodes n.id ≤ 1) ∧
      (g2.nodes.take exMerge.nodes.length).map nodeShell =
        exMerge.nodes.map nodeShell ∧
      (∀ n ∈ g2.nodes.drop exMerge.nodes.length,
        n.type = "exclusiveGateway") ∧
      g2.prozessname = exMerge.prozessname ∧
      g2.prozessziel = exMerge.prozessziel ∧
      g2.akteure = exMerge.akteure :=
  C3_normalizer_contract exMerge exStreamW (by decide) (by decide) (by decide)
    (by decide)

/-- C6: the Graph Normalizer is idempotent — violation-free input is
returned unchanged, and the normalizer applied to its own output (with
any identifier stream) changes nothing and inserts no further gateways. -/
theorem C6_normalizer_idempotent (g : ProcessGraph) (fresh : Nat → String)
    (hwt : edgesHaveTargets g.nodes)
    (hnd : (g.nodes.map (fun m => m.id)).Nodup)
    (hf1 : ∀ i, i < g.nodes.length → ∀ j, j < g.nodes.length → i ≠ j →
        mergeGatewayId fresh i ≠ mergeGatewayId fresh j)
    (hf2 : ∀ i, i < g.nodes.length → ∀ n ∈ g.nodes,
        mergeGatewayId fresh i ≠ n.id) :
    ((∀ n ∈ g.nodes, pyIn "Gateway" n.type = false →
        listInDeg g.nodes n.id ≤ 1) →
      enforceMergingGateways fresh g = some g) ∧
    (∀ g2, enforceMergingGateways fresh g = some g2 →
      ∀ fresh2, enforceMergingGateways fresh2 g2 = some g2) := by
  rcases enforce_spec g fresh hwt hnd hf1 hf2 with
    ⟨g2, h1, _, _, _, _, _, hdeg, hwt2, hnd2, hid⟩
  constructor
  · intro hclean
    rw [h1, hid hclean]
  · intro g2b h1b fresh2
    have hg2 : g2b = g2 := by
      rw [h1] at h1b
      exact (Option.some.inj h1b).symm
    subst hg2
    have hdict2 : dictNodes g2b.nodes = g2b.nodes := dictNodes_eq_self _ hnd2
    have hoe : offendersOf g2b.nodes
        (validPairs g2b.nodes (pairsOf g2b.nodes)) = [] := by
      rcases hoc : offendersOf g2b.nodes
          (validPairs g2b.nodes (pairsOf g2b.nodes)) with _ | ⟨v, rest⟩
      · rfl
      · exfalso
        have hv : v ∈ offendersOf g2b.nodes
            (validPairs g2b.nodes (pairsOf g2b.nodes)) := by
          rw [hoc]; exact List.mem_cons_self v rest
        rcases (mem_offenders g2b.nodes v).mp hv with ⟨hcnt, hgwt, hidv⟩
        rcases exists_of_isNodeId g2b.nodes v hidv with ⟨n, hn, rfl⟩
        rw [appInDegree_eq_listInDeg _ _ (isNodeId_of_mem _ _ hn)] at hcnt
        rw [typeOf_eq _ _ hnd2 hn] at hgwt
        have := hdeg n hn hgwt
        omega
    rw [enforce_run g2b fresh2 hwt2 hnd2, hoe]
    rfl

/-- Witness for C6 on the clean chain `exChain` and on its own output. -/
theorem C6_witness :
    ((∀ n ∈ exChain.nodes, pyIn "Gateway" n.type = false →
        listInDeg exChain.nodes n.id ≤ 1) →
      enforceMergingGateways exStreamW exChain = some exChain) ∧
    (∀ g2, enforceMergingGateways exStreamW exChain = some g2 →
      ∀ fresh2, enforceMergingGateways fresh2 g2 = some g2) :=
  C6_normalizer_idempotent exChain exStreamW (by decide) (by decide)
    (by decide) (by decide)

/-- Helper: membership through ascending String insertion. -/
theorem mem_insertStringAsc (s x : String) (l : List String) :
    x ∈ insertStringAsc s l ↔ x = s ∨ x ∈ l := by
  induction l with
  | nil => simp [insertStringAsc]
  | cons a as ih =>
    unfold insertStringAsc
    by_cases hc : pyStrLe s a = true
    · rw [if_pos hc]
      simp [List.mem_cons]
    · rw [if_neg hc]
      simp only [List.mem_cons, ih]
      tauto

/-- Helper: sorting strings preserves membership. -/
theorem mem_sortStringsAsc (l : List String) (x : String) :
    x ∈ sortStringsAsc l ↔ x ∈ l := by
  induction l with
  | nil => simp [sortStringsAsc]
  | cons a as ih =>
    unfold sortStringsAsc
    rw [mem_insertStringAsc]
    simp [ih]

/-- Helper: membership through ascending Nat insertion. -/
theorem mem_insertNatAsc (k x : Nat) (l : List Nat) :
    x ∈ insertNatAsc k l ↔ x = k ∨ x ∈ l := by
  induction l with
  | nil => simp [insertNatAsc]
  | cons a as ih =>
    unfold insertNatAsc
    by_cases hc : k ≤ a
    · rw [if_pos hc]
      simp [List.mem_cons]
    · rw [if_neg hc]
      simp only [List.mem_cons, ih]
      tauto

/-- Helper: sorting rank keys preserves membership. -/
theorem mem_sortNatsAsc (l : List Nat) (x : Nat) :
    x ∈ sortNatsAsc l ↔ x ∈ l := by
  induction l with
  | nil => simp [sortNatsAsc]
  | cons a as ih =>
    unfold sortNatsAsc
    rw [mem_insertNatAsc]
    simp [ih]

/-- Helper: membership in the first-occurrence Nat set. -/
theorem dedupNatFirst_mem (l : List Nat) (x : Nat) :
    x ∈ dedupNatFirst l ↔ x ∈ l := by
  suffices haux : ∀ acc : List Nat,
      (x ∈ l.foldl (fun acc s => if acc.contains s then acc else acc ++ [s]) acc ↔
        x ∈ acc ∨ x ∈ l) by
    simpa [dedupNatFirst] using haux []
  induction l with
  | nil => intro acc; simp
  | cons s rest ih =>
    intro acc
    simp only [List.foldl_cons]
    by_cases hc : acc.contains s = true
    · rw [if_pos hc]
      rw [ih acc]
      have hsacc : s ∈ acc := List.mem_of_elem_eq_true hc
      constructor
      · rintro (h | h)
        · exact Or.inl h
        · exact Or.inr (List.mem_cons_of_mem _ h)
      · rintro (h | h)
        · exact Or.inl h
        · rcases List.mem_cons.mp h with h | h
          · exact Or.inl (h ▸ hsacc)
          · exact Or.inr h
    · rw [if_neg hc]
      rw [ih (acc ++ [s])]
      simp only [List.mem_append, List.mem_singleton, List.mem_cons]
      tauto

/-- Helper: a present key makes the node-geometry lookup succeed. -/
theorem lookupGeo_isSome_of_key (layout : List (String × NodeGeo)) (x : String)
    (h : x ∈ layout.map Prod.fst) : (lookupGeo layout x).isSome = true := by
  unfold lookupGeo
  rcases List.mem_map.mp h with ⟨p, hp, hpx⟩
  have hex : (layout.find? (fun q => q.1 == x)).isSome = true := by
    rw [List.find?_isSome]
    exact ⟨p, hp, by simp [hpx]⟩
  rcases Option.isSome_iff_exists.mp hex with ⟨q, hq⟩
  rw [hq]
  rfl

/-- Helper: find? over an append tries the left segment first. -/
theorem find?_append_opt {α : Type} (p : α → Bool) (A B : List α) :
    (A ++ B).find? p =
      match A.find? p with
      | some q => some q
      | none => B.find? p := by
  induction A with
  | nil => simp
  | cons a as ih =>
    cases hp : p a with
    | false =>
      rw [List.cons_append, List.find?_cons_of_neg _ (by simp [hp]),
        List.find?_cons_of_neg _ (by simp [hp]), ih]
    | true =>
      rw [List.cons_append, List.find?_cons_of_pos _ hp, List.find?_cons_of_pos _ hp]

/-- Helper: lookup distributes over appended layout segments. -/
theorem lookupGeo_append (A B : List (String × NodeGeo)) (x : String) :
    lookupGeo (A ++ B) x =
      match lookupGeo A x with
      | some g => some g
      | none => lookupGeo B x := by
  unfold lookupGeo
  rw [find?_append_opt]
  cases List.find? (fun q => q.1 == x) A <;> rfl

/-- Helper: a present key makes the lane-geometry lookup succeed. -/
theorem lookupLaneGeo_isSome_of_key (lg : List (String × LaneGeo)) (x : String)
    (h : x ∈ lg.map Prod.fst) : (lookupLaneGeo lg x).isSome = true := by
  unfold lookupLaneGeo
  rcases List.mem_map.mp h with ⟨p, hp, hpx⟩
  have hex : (lg.find? (fun q => q.1 == x)).isSome = true := by
    rw [List.find?_isSome]
    exact ⟨p, hp, by simp [hpx]⟩
  rcases Option.isSome_iff_exists.mp hex with ⟨q, hq⟩
  rw [hq]
  rfl

theorem foldl_pick_mem {f : Option String × Option Int → String → Option String × Option Int}
    (hf : ∀ acc r b, (f acc r).1 = some b → b = r ∨ acc.1 = some b) :
    ∀ (l : List String) (acc : Option String × Option Int) (b : String),
      (l.foldl f acc).1 = some b → b ∈ l ∨ acc.1 = some b := by
  intro l
  induction l with
  | nil => intro acc b h; exact Or.inr h
  | cons a as ih =>
    intro acc b h
    rcases ih (f acc a) b h with h2 | h2
    · exact Or.inl (List.mem_cons_of_mem _ h2)
    · rcases hf acc a b h2 with h3 | h3
      · exact Or.inl (h3 ▸ List.mem_cons_self a as)
      · exact Or.inr h3

theorem pickBestLane_mem (score : String → Int) (remaining : List String) (b : String)
    (h : pickBestLane score remaining = some b) : b ∈ remaining := by
  unfold pickBestLane at h
  have hf : ∀ (acc : Option String × Option Int) r b,
      ((fun (acc : Option String × Option Int) r =>
        let s := score r
        match acc.2 with
        | none => (some r, some s)
        | some m => if m < s then (some r, some s) else acc) acc r).1 = some b →
      b = r ∨ acc.1 = some b := by
    intro acc r b hb
    rcases acc with ⟨a1, a2⟩
    cases a2 with
    | none =>
      simp only at hb
      exact Or.inl (by injection hb with h; exact h.symm)
    | some m =>
      simp only at hb
      by_cases hlt : m < score r
      · rw [if_pos hlt] at hb
        exact Or.inl (by injection hb with h; exact h.symm)
      · rw [if_neg hlt] at hb
        exact Or.inr hb
  rcases foldl_pick_mem hf remaining (none, none) b h with h2 | h2
  · exact h2
  · simp at h2

theorem greedy_append (cross : String → String → Nat) :
    ∀ (fuel : Nat) (cur : String) (rem ordered : List String),
      ∃ tail, greedyLaneOrder cross fuel cur rem ordered = ordered ++ tail := by
  intro fuel
  induction fuel with
  | zero =>
    intro cur rem ordered
    exact ⟨[], by simp [greedyLaneOrder]⟩
  | succ m ih =>
    intro cur rem ordered
    rcases rem with _ | ⟨r0, rest⟩
    · exact ⟨[], by simp [greedyLaneOrder]⟩
    · simp only [greedyLaneOrder]
      rcases hp : pickBestLane
          (fun r => 2 * ((cross cur r : Int)) - (cross r cur : Int)) (r0 :: rest)
        with _ | b
      · rcases ih r0 ((r0 :: rest).erase r0) (ordered ++ [r0]) with ⟨t, ht⟩
        exact ⟨r0 :: t, by rw [ht, List.append_assoc]; rfl⟩
      · by_cases hb : b = ""
        · subst hb
          simp only [ne_eq, not_true_eq_false, if_false]
          rcases ih r0 ((r0 :: rest).erase r0) (ordered ++ [r0]) with ⟨t, ht⟩
          exact ⟨r0 :: t, by rw [ht, List.append_assoc]; rfl⟩
        · dsimp only
          rw [if_pos hb]
          rcases ih b ((r0 :: rest).erase b) (ordered ++ [b]) with ⟨t, ht⟩
          exact ⟨b :: t, by rw [ht, List.append_assoc]; rfl⟩

theorem greedy_perm (cross : String → String → Nat) :
    ∀ (n : Nat) (rem : List String), rem.length = n →
      ∀ (cur : String) (ordered : List String),
        List.Perm (greedyLaneOrder cross n cur rem ordered) (ordered ++ rem) := by
  intro n
  induction n with
  | zero =>
    intro rem hlen cur ordered
    have hnil : rem = [] := List.eq_nil_of_length_eq_zero hlen
    subst hnil
    simp [greedyLaneOrder]
  | succ m ih =>
    intro rem hlen cur ordered
    rcases rem with _ | ⟨r0, rest⟩
    · simp at hlen
    · simp only [greedyLaneOrder]
      have hrest : rest.length = m := by simpa using hlen
      rcases hp : pickBestLane
          (fun r => 2 * ((cross cur r : Int)) - (cross r cur : Int)) (r0 :: rest)
        with _ | b
      · rw [List.erase_cons_head]
        have hperm := ih rest hrest r0 (ordered ++ [r0])
        refine hperm.trans ?_
        have h1 : (ordered ++ [r0]) ++ rest = ordered ++ (r0 :: rest) := by simp
        rw [h1]
      · by_cases hb : b = ""
        · subst hb
          simp only [ne_eq, not_true_eq_false, if_false]
          rw [List.erase_cons_head]
          have hperm := ih rest hrest r0 (ordered ++ [r0])
          refine hperm.trans ?_
          have h1 : (ordered ++ [r0]) ++ rest = ordered ++ (r0 :: rest) := by simp
          rw [h1]
        · dsimp only
          rw [if_pos hb]
          have hbmem : b ∈ r0 :: rest := pickBestLane_mem _ _ _ hp
          have hlen2 : ((r0 :: rest).erase b).length = m := by
            rw [List.length_erase_of_mem hbmem]
            simpa using hlen
          have hperm := ih ((r0 :: rest).erase b) hlen2 b (ordered ++ [b])
          refine hperm.trans ?_
          have h1 : (ordered ++ [b]) ++ (r0 :: rest).erase b =
              ordered ++ (b :: (r0 :: rest).erase b) := by simp
          rw [h1]
          exact List.Perm.append_left ordered (List.perm_cons_erase hbmem).symm

theorem laneOrderFrom_perm (nd : List PNode) (adj : String → List String)
    (akteure : List String) (s : String) (ordered : List String)
    (h : laneOrderFrom nd adj akteure s = some ordered) :
    List.Perm ordered (dedupFirst akteure) := by
  unfold laneOrderFrom at h
  dsimp only at h
  by_cases hc : (dedupFirst akteure).contains s = true
  · rw [if_pos hc] at h
    dsimp only at h
    have hsmem : s ∈ dedupFirst akteure := List.mem_of_elem_eq_true hc
    rcases greedy_append (laneCrossings adj nd) ((dedupFirst akteure).erase s).length s
        ((dedupFirst akteure).erase s) [s] with ⟨tail, htail⟩
    have hperm := greedy_perm (laneCrossings adj nd) ((dedupFirst akteure).erase s).length
        ((dedupFirst akteure).erase s) rfl s [s]
    rw [htail] at h hperm
    simp only [List.singleton_append] at h hperm
    rw [if_neg (by simp)] at h
    injection h with h
    subst h
    exact hperm.trans (List.perm_cons_erase hsmem).symm
  · rw [if_neg hc] at h
    dsimp only at h
    have hsnot : s ∉ dedupFirst akteure := by
      intro hmem
      exact hc (List.elem_eq_true_of_mem hmem)
    have hperm := greedy_perm (laneCrossings adj nd) (dedupFirst akteure).length
        (dedupFirst akteure) rfl s []
    simp only [List.nil_append] at hperm
    rcases hall : greedyLaneOrder (laneCrossings adj nd) (dedupFirst akteure).length s
        (dedupFirst akteure) [] with _ | ⟨o0, tl⟩
    · rw [hall] at h
      simp at h
    · rw [hall] at h hperm
      have ho0 : o0 ∈ dedupFirst akteure := hperm.mem_iff.mp (List.mem_cons_self o0 tl)
      have ho0ne : o0 ≠ s := fun he => hsnot (he ▸ ho0)
      dsimp only at h
      rw [if_pos ho0ne] at h
      have hnc : ¬((o0 :: tl).contains s = true) := by
        intro hcc
        exact hsnot (hperm.mem_iff.mp (List.mem_of_elem_eq_true hcc))
      rw [if_neg hnc] at h
      simp at h

theorem laneOrderFrom_some (nd : List PNode) (adj : String → List String)
    (akteure : List String) (s : String) (hsmem0 : s ∈ akteure) :
    (laneOrderFrom nd adj akteure s).isSome = true := by
  unfold laneOrderFrom
  dsimp only
  have hsmem : s ∈ dedupFirst akteure := (dedupFirst_mem akteure s).mpr hsmem0
  have hc : (dedupFirst akteure).contains s = true := List.elem_eq_true_of_mem hsmem
  rw [if_pos hc]
  dsimp only
  rcases greedy_append (laneCrossings adj nd) ((dedupFirst akteure).erase s).length s
      ((dedupFirst akteure).erase s) [s] with ⟨tail, htail⟩
  rw [htail]
  simp only [List.singleton_append]
  rw [if_neg (by simp)]
  rfl

theorem optimizeLaneOrder_perm (nd : List PNode) (adj : String → List String)
    (akteure : List String) (ordered : List String)
    (h : optimizeLaneOrder nd adj akteure = some ordered) :
    List.Perm ordered (dedupFirst akteure) := by
  unfold optimizeLaneOrder at h
  rcases hf : nd.find? (fun n => n.type == "startEvent") with _ | n
  · rw [hf] at h
    rcases hh : akteure.head? with _ | a
    · rw [hh] at h
      simp at h
    · rw [hh] at h
      simp only [Option.some_bind] at h
      exact laneOrderFrom_perm nd adj akteure a ordered h
  · rw [hf] at h
    simp only [Option.some_bind] at h
    exact laneOrderFrom_perm nd adj akteure (laneOf nd n.id) ordered h

theorem optimizeLaneOrder_some (nd : List PNode) (adj : String → List String)
    (akteure : List String)
    (hstart : ∀ n, nd.find? (fun m => m.type == "startEvent") = some n →
      laneOf nd n.id ∈ akteure)
    (hne : akteure ≠ []) :
    (optimizeLaneOrder nd adj akteure).isSome = true := by
  unfold optimizeLaneOrder
  rcases hf : nd.find? (fun m => m.type == "startEvent") with _ | n
  · rw [hf]
    dsimp only
    rcases hh : akteure.head? with _ | a
    · exact absurd (List.head?_eq_none_iff.mp hh) hne
    · have ha : a ∈ akteure := List.mem_of_mem_head? hh
      simpa using laneOrderFrom_some nd adj akteure a ha
  · rw [hf]
    dsimp only
    have hl := hstart n hf
    simpa using laneOrderFrom_some nd adj akteure (laneOf nd n.id) hl

theorem mem_keys_positionsForLane (nd : List PNode) (ranks : Ranks) (laneName : String)
    (cursor : Nat) (n : PNode) (hn : n ∈ nd) (hl : n.lane = laneName) :
    n.id ∈ (positionsForLane nd ranks laneName cursor).2.map Prod.fst := by
  unfold positionsForLane
  dsimp only
  have hinlane : n.id ∈ (nd.filter (fun m => m.lane == laneName)).map (fun m => m.id) :=
    List.mem_map.mpr ⟨n, List.mem_filter.mpr ⟨hn, by simp [hl]⟩, rfl⟩
  have hrk : ranks n.id ∈
      dedupNatFirst (((nd.filter (fun m => m.lane == laneName)).map (fun m => m.id)).map ranks) :=
    (dedupNatFirst_mem _ _).mpr (List.mem_map.mpr ⟨n.id, hinlane, rfl⟩)
  have hrks := (mem_sortNatsAsc _ _).mpr hrk
  have hgroup : n.id ∈ ((nd.filter (fun m => m.lane == laneName)).map (fun m => m.id)).filter
      (fun i => ranks i == ranks n.id) :=
    List.mem_filter.mpr ⟨hinlane, by simp⟩
  have hsorted := (mem_sortStringsAsc _ _).mpr hgroup
  rw [← List.enum_map_snd (sortStringsAsc (((nd.filter (fun m => m.lane == laneName)).map
      (fun m => m.id)).filter (fun i => ranks i == ranks n.id)))] at hsorted
  rcases List.mem_map.mp hsorted with ⟨q, hq, hq2⟩
  rcases q with ⟨j, s⟩
  dsimp only at hq2
  subst hq2
  exact List.mem_map.mpr ⟨_, List.mem_flatMap.mpr ⟨ranks n.id, hrks,
    List.mem_map.mpr ⟨(j, n.id), hq, rfl⟩⟩, rfl⟩

theorem lookupGeo_mono_append (A B : List (String × NodeGeo)) (x : String)
    (h : (lookupGeo A x).isSome = true) : (lookupGeo (A ++ B) x).isSome = true := by
  rcases hA : lookupGeo A x with _ | g
  · rw [hA] at h; simp at h
  · rw [lookupGeo_append, hA]
    rfl

theorem positions_fold_spec (nd : List PNode) (ranks : Ranks) (akteure : List String) :
    ∀ (l : List (Nat × String)) (st : Nat × List (String × LaneGeo) × List (String × NodeGeo)),
      (∀ p ∈ l, p.2 ∈ dedupFirst akteure) →
      ∃ st2, l.foldlM
          (fun (st : Nat × List (String × LaneGeo) × List (String × NodeGeo)) p => do
            let (cursor, lgeos, ngeos) := st
            let (i, laneName) := p
            if (dedupFirst akteure).contains laneName then
              let res := positionsForLane nd ranks laneName cursor
              pure (cursor + res.1,
                lgeos ++ [(laneName, { y := cursor, height := res.1, order := i })],
                ngeos ++ res.2)
            else none)
          st = some st2 ∧
        st2.2.1.map Prod.fst = st.2.1.map Prod.fst ++ l.map Prod.snd ∧
        (∀ x, (lookupGeo st.2.2 x).isSome = true → (lookupGeo st2.2.2 x).isSome = true) ∧
        (∀ n ∈ nd, n.lane ∈ l.map Prod.snd → (lookupGeo st2.2.2 n.id).isSome = true) := by
  intro l
  induction l with
  | nil =>
    intro st hall
    refine ⟨st, rfl, by simp, fun x h => h, ?_⟩
    intro n hn hmem
    simp at hmem
  | cons p rest ih =>
    intro st hall
    rcases p with ⟨i, laneName⟩
    rcases st with ⟨cursor, lgeos, ngeos⟩
    have hmemlane : laneName ∈ dedupFirst akteure := hall (i, laneName) (List.mem_cons_self _ _)
    have hc : (dedupFirst akteure).contains laneName = true := List.elem_eq_true_of_mem hmemlane
    rw [List.foldlM_cons]
    dsimp only
    rw [if_pos hc]
    set res := positionsForLane nd ranks laneName cursor with hres
    set lg1 : LaneGeo := { y := cursor, height := res.1, order := i } with hlg1
    rcases ih (cursor + res.1, lgeos ++ [(laneName, lg1)], ngeos ++ res.2)
        (fun q hq => hall q (List.mem_cons_of_mem _ hq)) with ⟨st2, hrun, hkeys, hmono, hcov⟩
    refine ⟨st2, ?_, ?_, ?_, ?_⟩
    · rw [pure_bind]
      exact hrun
    · rw [hkeys]
      simp
    · intro x hx
      exact hmono x (lookupGeo_mono_append _ _ _ hx)
    · intro n hn hmem
      rcases List.mem_cons.mp hmem with hmem | hmem
      · refine hmono n.id ?_
        apply lookupGeo_isSome_of_key
        rw [List.map_append]
        refine List.mem_append_right _ ?_
        rw [hres]
        exact mem_keys_positionsForLane nd ranks laneName cursor n hn hmem
      · exact hcov n hn hmem

theorem calculateNodePositions_spec (nd : List PNode) (ranks : Ranks)
    (ordered akteure : List String)
    (hord : ∀ x ∈ ordered, x ∈ dedupFirst akteure) :
    ∃ lg ly pw ph, calculateNodePositions nd ranks ordered akteure = some (lg, ly, pw, ph) ∧
      lg.map Prod.fst = ordered ∧
      (∀ n ∈ nd, n.lane ∈ ordered → (lookupGeo ly n.id).isSome = true) := by
  unfold calculateNodePositions
  dsimp only
  rcases positions_fold_spec nd ranks akteure ordered.enum
      (LayoutConfig.POOL_PADDING_Y, [], [])
      (fun p hp => by
        apply hord
        rw [← List.enum_map_snd ordered]
        exact List.mem_map.mpr ⟨p, hp, rfl⟩)
    with ⟨st2, hrun, hkeys, hmono, hcov⟩
  rw [hrun]
  refine ⟨st2.2.1, st2.2.2, _, st2.1, rfl, ?_, ?_⟩
  · rw [hkeys]
    simp [List.enum_map_snd]
  · intro n hn hmem
    apply hcov n hn
    rw [List.enum_map_snd]
    exact hmem

/-- Helper: the Option do-bind on a `some` reduces definitionally. -/
theorem bind_some_red {α β : Type} (x : α) (f : α → Option β) :
    (do
      let y ← some x
      f y : Option β) = f x := rfl

/-- Helper: the Option do-bind on a `pure` reduces definitionally. -/
theorem pure_bind_red {α β : Type} (x : α) (f : α → Option β) :
    (do
      let y ← (pure x : Option α)
      f y) = f x := rfl

theorem findNode_isSome (nd : List PNode) (v : String)
    (h : isNodeId nd v = true) :
    ∃ vn, findNode nd v = some vn ∧ vn ∈ nd := by
  rcases exists_of_isNodeId nd v h with ⟨n, hn, hid⟩
  have : (nd.find? (fun m => m.id == v)).isSome = true := by
    rw [List.find?_isSome]
    exact ⟨n, hn, by simp [hid]⟩
  rcases Option.isSome_iff_exists.mp this with ⟨vn, hvn⟩
  exact ⟨vn, hvn, List.mem_of_find?_eq_some hvn⟩

theorem sameLaneSuccessors_some (nd : List PNode) (u : PNode)
    (hobj : ∀ e ∈ u.next_nodes, isObjInfo e = true) :
    (sameLaneSuccessors nd u).isSome = true := by
  unfold sameLaneSuccessors
  by_cases hg : pyIn "gateway" (pyLower u.type) = true
  · rw [if_pos hg]
    suffices haux : ∀ (l : List NextInfo), (∀ e ∈ l, isObjInfo e = true) →
        ∀ (acc : List String),
        (l.foldlM
          (fun acc info => do
            let tid? ← routeTarget info
            match tid? with
            | some tid =>
              if tid ≠ "" && isNodeId nd tid && (laneOf nd tid == u.lane) then
                pure (acc ++ [tid])
              else pure acc
            | none => pure acc)
          acc).isSome = true by
      exact haux u.next_nodes hobj []
    intro l
    induction l with
    | nil => intro _ acc; rfl
    | cons e rest ih =>
      intro hl acc
      have he : isObjInfo e = true := hl e (List.mem_cons_self _ _)
      rcases e with s | ⟨i, t, lab⟩
      · simp [isObjInfo] at he
      · rw [List.foldlM_cons]
        simp only [routeTarget, bind_some_red]
        rcases hv : pyOrStr i t with _ | v
        · exact ih (fun e he => hl e (List.mem_cons_of_mem _ he)) acc
        · dsimp only
          by_cases hc : (v ≠ "" && isNodeId nd v && (laneOf nd v == u.lane)) = true
          · rw [if_pos hc]
            exact ih (fun e he => hl e (List.mem_cons_of_mem _ he)) (acc ++ [v])
          · rw [if_neg hc]
            exact ih (fun e he => hl e (List.mem_cons_of_mem _ he)) acc
  · rw [if_neg hg]
    rfl

theorem routeOneEdge_skip_none (nd : List PNode) (ranks : Ranks)
    (corridor : List (String × String)) (laneGeos : List (String × LaneGeo))
    (layout : List (String × NodeGeo)) (poolWidth : ℚ) (uuid : Nat → String)
    (u : PNode) (sameLane : List String) (acc : List EdgeOut × Nat)
    (i t lab : Option String) (hv : pyOrStr i t = none) :
    routeOneEdge nd ranks corridor laneGeos layout poolWidth uuid u sameLane acc
      (.obj i t lab) = some acc := by
  unfold routeOneEdge
  simp only [routeTarget, bind_some_red]
  rw [hv]
  simp [pyTruthy]

theorem routeOneEdge_skip_bad (nd : List PNode) (ranks : Ranks)
    (corridor : List (String × String)) (laneGeos : List (String × LaneGeo))
    (layout : List (String × NodeGeo)) (poolWidth : ℚ) (uuid : Nat → String)
    (u : PNode) (sameLane : List String) (acc : List EdgeOut × Nat)
    (i t lab : Option String) (v : String) (hv : pyOrStr i t = some v)
    (hbad : (v ≠ "" && isNodeId nd v) = false) :
    routeOneEdge nd ranks corridor laneGeos layout poolWidth uuid u sameLane acc
      (.obj i t lab) = some acc := by
  unfold routeOneEdge
  simp only [routeTarget, bind_some_red]
  rw [hv]
  have hcond : (!(pyTruthy (some v)) || !(isNodeId nd ((some v).getD ""))) = true := by
    simp only [pyTruthy, Option.getD_some]
    rw [← Bool.not_and]
    rw [show (decide ¬v = "" && isNodeId nd v) = (v ≠ "" && isNodeId nd v) from rfl, hbad]
    rfl
  rw [if_pos hcond]
  rfl

theorem routeOneEdge_retained (nd : List PNode) (ranks : Ranks)
    (corridor : List (String × String)) (laneGeos : List (String × LaneGeo))
    (layout : List (String × NodeGeo)) (poolWidth : ℚ) (uuid : Nat → String)
    (u : PNode) (sameLane : List String) (acc : List EdgeOut × Nat)
    (i t lab : Option String) (v : String) (hv : pyOrStr i t = some v)
    (hgood : (v ≠ "" && isNodeId nd v) = true)
    (hgeoU : (lookupGeo layout u.id).isSome = true)
    (hgeoV : (lookupGeo layout v).isSome = true)
    (hlaneU : (lookupLaneGeo laneGeos u.lane).isSome = true)
    (hlaneV : ∀ n ∈ nd, (lookupLaneGeo laneGeos n.lane).isSome = true) :
    ∃ ed, routeOneEdge nd ranks corridor laneGeos layout poolWidth uuid u sameLane acc
        (.obj i t lab) = some (acc.1 ++ [ed], acc.2 + 1) ∧
      ed.target_id = v ∧ ed.id = "sid-" ++ uuid acc.2 := by
  unfold routeOneEdge
  simp only [routeTarget, bind_some_red]
  rw [hv]
  have hnode : isNodeId nd v = true := by
    cases hb : isNodeId nd v
    · rw [hb, Bool.and_false] at hgood
      cases hgood
    · rfl
  have hcond : (!(pyTruthy (some v)) || !(isNodeId nd ((some v).getD ""))) = false := by
    simp only [pyTruthy, Option.getD_some]
    rw [← Bool.not_and]
    rw [show (decide ¬v = "" && isNodeId nd v) = (v ≠ "" && isNodeId nd v) from rfl, hgood]
    rfl
  have hnotc : ¬((!(pyTruthy (some v)) || !(isNodeId nd ((some v).getD ""))) = true) := by
    rw [hcond]
    simp
  rw [if_neg hnotc]
  simp only [Option.getD_some]
  rcases Option.isSome_iff_exists.mp hgeoU with ⟨gU, hgU⟩
  rcases Option.isSome_iff_exists.mp hgeoV with ⟨gV, hgV⟩
  rcases findNode_isSome nd v hnode with ⟨vn, hvn, hvnmem⟩
  rcases Option.isSome_iff_exists.mp hlaneU with ⟨lgU, hlgU⟩
  rcases Option.isSome_iff_exists.mp (hlaneV vn hvnmem) with ⟨lgV, hlgV⟩
  rw [hgU]
  simp only [bind_some_red]
  rw [hgV]
  simp only [bind_some_red]
  rw [hvn]
  simp only [bind_some_red]
  rw [hlgU]
  simp only [bind_some_red]
  rw [hlgV]
  simp only [bind_some_red]
  exact ⟨_, rfl, rfl, rfl⟩

theorem retainedTargetsL_cons_str (nd : List PNode) (s : String) (rest : List NextInfo) :
    retainedTargetsL nd (.strRef s :: rest) = retainedTargetsL nd rest := by
  simp [retainedTargetsL]

theorem retainedTargetsL_cons_none (nd : List PNode) (i t lab : Option String)
    (rest : List NextInfo) (hv : pyOrStr i t = none) :
    retainedTargetsL nd (.obj i t lab :: rest) = retainedTargetsL nd rest := by
  unfold retainedTargetsL
  rw [List.filterMap_cons]
  dsimp only
  rw [hv]

theorem retainedTargetsL_cons_bad (nd : List PNode) (i t lab : Option String)
    (v : String) (rest : List NextInfo) (hv : pyOrStr i t = some v)
    (hbad : (v ≠ "" && isNodeId nd v) = false) :
    retainedTargetsL nd (.obj i t lab :: rest) = retainedTargetsL nd rest := by
  unfold retainedTargetsL
  rw [List.filterMap_cons]
  dsimp only
  rw [hv]
  dsimp only
  rw [hbad]
  rfl

theorem retainedTargetsL_cons_good (nd : List PNode) (i t lab : Option String)
    (v : String) (rest : List NextInfo) (hv : pyOrStr i t = some v)
    (hgood : (v ≠ "" && isNodeId nd v) = true) :
    retainedTargetsL nd (.obj i t lab :: rest) = v :: retainedTargetsL nd rest := by
  unfold retainedTargetsL
  rw [List.filterMap_cons]
  dsimp only
  rw [hv]
  dsimp only
  rw [hgood]
  rfl

theorem routeEdges_fold_spec (nd : List PNode) (ranks : Ranks)
    (corridor : List (String × String)) (laneGeos : List (String × LaneGeo))
    (layout : List (String × NodeGeo)) (poolWidth : ℚ) (uuid : Nat → String)
    (u : PNode) (sameLane : List String)
    (hgeoU : (lookupGeo layout u.id).isSome = true)
    (hgeoV : ∀ v, isNodeId nd v = true → (lookupGeo layout v).isSome = true)
    (hlaneU : (lookupLaneGeo laneGeos u.lane).isSome = true)
    (hlaneV : ∀ n ∈ nd, (lookupLaneGeo laneGeos n.lane).isSome = true) :
    ∀ (l : List NextInfo), (∀ e ∈ l, isObjInfo e = true) →
    ∀ (acc : List EdgeOut × Nat),
      ∃ eds2, l.foldlM
          (routeOneEdge nd ranks corridor laneGeos layout poolWidth uuid u sameLane) acc
          = some (acc.1 ++ eds2, acc.2 + (retainedTargetsL nd l).length) ∧
        eds2.map (fun e => e.target_id) = retainedTargetsL nd l := by
  intro l
  induction l with
  | nil =>
    intro _ acc
    refine ⟨[], ?_, rfl⟩
    simp [retainedTargetsL]
  | cons e rest ih =>
    intro hl acc
    have he : isObjInfo e = true := hl e (List.mem_cons_self _ _)
    have hrest := fun e he => hl e (List.mem_cons_of_mem _ he)
    rcases e with s | ⟨i, t, lab⟩
    · simp [isObjInfo] at he
    · rw [List.foldlM_cons]
      rcases hv : pyOrStr i t with _ | v
      · rw [routeOneEdge_skip_none nd ranks corridor laneGeos layout poolWidth uuid u
          sameLane acc i t lab hv]
        rcases ih hrest acc with ⟨eds2, hrun, hmap⟩
        refine ⟨eds2, ?_, ?_⟩
        · rw [bind_some_red, hrun, retainedTargetsL_cons_none nd i t lab rest hv]
        · rw [hmap, retainedTargetsL_cons_none nd i t lab rest hv]
      · by_cases hgood : (v ≠ "" && isNodeId nd v) = true
        · have hnode : isNodeId nd v = true := by
            cases hb : isNodeId nd v
            · rw [hb, Bool.and_false] at hgood
              cases hgood
            · rfl
          rcases routeOneEdge_retained nd ranks corridor laneGeos layout poolWidth uuid u
              sameLane acc i t lab v hv hgood hgeoU (hgeoV v hnode) hlaneU hlaneV
            with ⟨ed, hstep, hed, hid⟩
          rw [hstep, bind_some_red]
          rcases ih hrest (acc.1 ++ [ed], acc.2 + 1) with ⟨eds2, hrun, hmap⟩
          refine ⟨ed :: eds2, ?_, ?_⟩
          · rw [hrun, retainedTargetsL_cons_good nd i t lab v rest hv hgood]
            have h1 : (acc.1 ++ [ed]) ++ eds2 = acc.1 ++ ed :: eds2 := by simp
            rw [h1]
            have h2 : acc.2 + 1 + (retainedTargetsL nd rest).length =
                acc.2 + (v :: retainedTargetsL nd rest).length := by
              simp
              omega
            rw [h2]
          · rw [retainedTargetsL_cons_good nd i t lab v rest hv hgood]
            simp [hed, hmap]
        · have hbad : (v ≠ "" && isNodeId nd v) = false := by
            cases hb : (v ≠ "" && isNodeId nd v)
            · rfl
            · exact absurd hb hgood
          rw [routeOneEdge_skip_bad nd ranks corridor laneGeos layout poolWidth uuid u
            sameLane acc i t lab v hv hbad]
          rcases ih hrest acc with ⟨eds2, hrun, hmap⟩
          refine ⟨eds2, ?_, ?_⟩
          · rw [bind_some_red, hrun, retainedTargetsL_cons_bad nd i t lab v rest hv hbad]
          · rw [hmap, retainedTargetsL_cons_bad nd i t lab v rest hv hbad]

theorem routeEdgesForNode_spec (nd : List PNode) (ranks : Ranks)
    (corridor : List (String × String)) (laneGeos : List (String × LaneGeo))
    (layout : List (String × NodeGeo)) (poolWidth : ℚ) (uuid : Nat → String)
    (u : PNode) (cnt0 : Nat)
    (hobj : ∀ e ∈ u.next_nodes, isObjInfo e = true)
    (hgeoU : (lookupGeo layout u.id).isSome = true)
    (hgeoV : ∀ v, isNodeId nd v = true → (lookupGeo layout v).isSome = true)
    (hlaneU : (lookupLaneGeo laneGeos u.lane).isSome = true)
    (hlaneV : ∀ n ∈ nd, (lookupLaneGeo laneGeos n.lane).isSome = true) :
    ∃ eds, routeEdgesForNode nd ranks corridor laneGeos layout poolWidth uuid u cnt0 =
        some (eds, cnt0 + (retainedTargets nd u).length) ∧
      eds.map (fun e => e.target_id) = retainedTargets nd u := by
  unfold routeEdgesForNode
  rcases Option.isSome_iff_exists.mp (sameLaneSuccessors_some nd u hobj) with ⟨s, hs⟩
  rw [hs, bind_some_red]
  rcases routeEdges_fold_spec nd ranks corridor laneGeos layout poolWidth uuid u s
      hgeoU hgeoV hlaneU hlaneV u.next_nodes hobj ([], cnt0) with ⟨eds2, hrun, hmap⟩
  refine ⟨eds2, ?_, hmap⟩
  rw [hrun]
  simp [retainedTargets]

theorem waypoints_fold_spec (nd : List PNode) (ranks : Ranks)
    (corridor : List (String × String)) (laneGeos : List (String × LaneGeo))
    (layout : List (String × NodeGeo)) (poolWidth : ℚ) (uuid : Nat → String)
    (hgeo : ∀ v, isNodeId nd v = true → (lookupGeo layout v).isSome = true)
    (hlane : ∀ n ∈ nd, (lookupLaneGeo laneGeos n.lane).isSome = true) :
    ∀ (ms : List PNode), (∀ m ∈ ms, m ∈ nd) →
      (∀ m ∈ ms, ∀ e ∈ m.next_nodes, isObjInfo e = true) →
    ∀ (acc : List PNode × Nat),
      ∃ ns2 cnt2, ms.foldlM
          (fun (acc : List PNode × Nat) u => do
            let res ← routeEdgesForNode nd ranks corridor laneGeos layout poolWidth
              uuid u acc.2
            pure (acc.1 ++ [{ u with edges := res.1 }], res.2))
          acc = some (acc.1 ++ ns2, cnt2) ∧
        ns2.map noEdges = ms.map noEdges ∧
        flowPairs ns2 = ms.flatMap (fun m => (retainedTargets nd m).map (fun v => (m.id, v))) := by
  intro ms
  induction ms with
  | nil =>
    intro _ _ acc
    exact ⟨[], acc.2, by simp, rfl, rfl⟩
  | cons m rest ih =>
    intro hmem hobj acc
    have hmmem : m ∈ nd := hmem m (List.mem_cons_self _ _)
    have hmobj : ∀ e ∈ m.next_nodes, isObjInfo e = true := hobj m (List.mem_cons_self _ _)
    have hgeoU : (lookupGeo layout m.id).isSome = true :=
      hgeo m.id (isNodeId_of_mem nd m hmmem)
    have hlaneU : (lookupLaneGeo laneGeos m.lane).isSome = true := hlane m hmmem
    rcases routeEdgesForNode_spec nd ranks corridor laneGeos layout poolWidth uuid m acc.2
        hmobj hgeoU hgeo hlaneU hlane with ⟨eds, hroute, hmap⟩
    rw [List.foldlM_cons, hroute, bind_some_red, pure_bind_red]
    rcases ih (fun q hq => hmem q (List.mem_cons_of_mem _ hq))
        (fun q hq => hobj q (List.mem_cons_of_mem _ hq))
        (acc.1 ++ [{ m with edges := eds }], acc.2 + (retainedTargets nd m).length)
      with ⟨ns2, cnt2, hrun, hshell, hflows⟩
    refine ⟨{ m with edges := eds } :: ns2, cnt2, ?_, ?_, ?_⟩
    · rw [hrun]
      have h1 : (acc.1 ++ [{ m with edges := eds }]) ++ ns2 =
          acc.1 ++ ({ m with edges := eds } :: ns2) := by simp
      rw [h1]
    · rw [List.map_cons, List.map_cons, hshell]
      rfl
    · unfold flowPairs at hflows ⊢
      rw [List.flatMap_cons, List.flatMap_cons, hflows]
      congr 1
      rw [← hmap, List.map_map]
      rfl

theorem calculateAllEdgeWaypoints_spec (nd : List PNode) (ranks : Ranks)
    (corridor : List (String × String)) (laneGeos : List (String × LaneGeo))
    (layout : List (String × NodeGeo)) (poolWidth : ℚ) (uuid : Nat → String)
    (hgeo : ∀ v, isNodeId nd v = true → (lookupGeo layout v).isSome = true)
    (hlane : ∀ n ∈ nd, (lookupLaneGeo laneGeos n.lane).isSome = true)
    (hobj : ∀ m ∈ nd, ∀ e ∈ m.next_nodes, isObjInfo e = true) :
    ∃ ns2 cnt2,
      calculateAllEdgeWaypoints nd ranks corridor laneGeos layout poolWidth uuid =
        some (ns2, cnt2) ∧
      ns2.map noEdges = nd.map noEdges ∧
      flowPairs ns2 = nd.flatMap (fun m => (retainedTargets nd m).map (fun v => (m.id, v))) := by
  unfold calculateAllEdgeWaypoints
  rcases waypoints_fold_spec nd ranks corridor laneGeos layout poolWidth uuid hgeo hlane
      nd (fun _ h => h) hobj ([], 8) with ⟨ns2, cnt2, hrun, hshell, hflows⟩
  exact ⟨ns2, cnt2, by rw [hrun]; simp, hshell, hflows⟩

theorem setLane_noLane (nd : List PNode) (nid lane : String) :
    (setLane nd nid lane).map noLane = nd.map noLane := by
  unfold setLane
  rw [List.map_map]
  apply List.map_congr_left
  intro m _
  by_cases h : (m.id == nid) = true
  · simp only [Function.comp, h, if_pos]
    rfl
  · simp only [Function.comp]
    rw [if_neg (by simp [h])]

theorem gatewayLaneStep_noLane (adj : String → List String) (nd : List PNode)
    (nid : String) :
    (gatewayLaneStep adj nd nid).map noLane = nd.map noLane := by
  unfold gatewayLaneStep
  rcases findNode nd nid with _ | node
  · rfl
  · dsimp only
    by_cases hg : (pyIn "gateway" (pyLower node.type) = true)
    · rw [if_pos hg]
      by_cases hlen : (adj nid).length ≤ 1
      · rw [if_pos hlen]
      · rw [if_neg hlen]
        rcases dedupFirst ((adj nid).map (laneOf nd)) with _ | ⟨k0, krest⟩
        · rfl
        · dsimp only
          split
          · rfl
          · split
            · exact setLane_noLane nd nid _
            · rfl
    · rw [if_neg hg]

theorem endEventLaneStep_noLane (revAdj : String → List String) (nd : List PNode)
    (nid : String) :
    (endEventLaneStep revAdj nd nid).map noLane = nd.map noLane := by
  unfold endEventLaneStep
  rcases findNode nd nid with _ | node
  · rfl
  · dsimp only
    by_cases he : (node.type == "endEvent") = true
    · rw [if_pos he]
      rcases revAdj nid with _ | ⟨p, ps⟩
      · rfl
      · dsimp only
        split
        · exact setLane_noLane nd nid _
        · rfl
    · rw [if_neg he]

theorem foldl_lane_steps_noLane (f : List PNode → String → List PNode)
    (hf : ∀ nd i, (f nd i).map noLane = nd.map noLane) :
    ∀ (ids : List String) (nd : List PNode),
      (ids.foldl f nd).map noLane = nd.map noLane := by
  intro ids
  induction ids with
  | nil => intro nd; rfl
  | cons i rest ih =>
    intro nd
    rw [List.foldl_cons, ih (f nd i), hf nd i]

theorem optimizeGatewayLanes_noLane (adj : String → List String) (nd : List PNode) :
    (optimizeGatewayLanes adj nd).map noLane = nd.map noLane :=
  foldl_lane_steps_noLane _ (gatewayLaneStep_noLane adj) _ nd

theorem enforceEndEventLanes_noLane (revAdj : String → List String) (nd : List PNode) :
    (enforceEndEventLanes revAdj nd).map noLane = nd.map noLane :=
  foldl_lane_steps_noLane _ (endEventLaneStep_noLane revAdj) _ nd

theorem map_id_of_noLane (ns2 ns : List PNode)
    (h : ns2.map noLane = ns.map noLane) :
    ns2.map (fun n => n.id) = ns.map (fun n => n.id) := by
  have h1 : ∀ l : List PNode, l.map (fun n => n.id) = (l.map noLane).map (fun n => n.id) := by
    intro l
    rw [List.map_map]
    rfl
  rw [h1 ns2, h1 ns, h]

theorem map_next_of_noLane (ns2 ns : List PNode)
    (h : ns2.map noLane = ns.map noLane) :
    ns2.map (fun n => n.next_nodes) = ns.map (fun n => n.next_nodes) := by
  have h1 : ∀ l : List PNode,
      l.map (fun n => n.next_nodes) = (l.map noLane).map (fun n => n.next_nodes) := by
    intro l
    rw [List.map_map]
    rfl
  rw [h1 ns2, h1 ns, h]

theorem isNodeId_congr : ∀ (ns2 ns : List PNode),
    ns2.map (fun n => n.id) = ns.map (fun n => n.id) →
    ∀ v, isNodeId ns2 v = isNodeId ns v := by
  intro ns2
  induction ns2 with
  | nil =>
    intro ns h v
    cases ns with
    | nil => rfl
    | cons b bs => simp at h
  | cons a as ih =>
    intro ns h v
    cases ns with
    | nil => simp at h
    | cons b bs =>
      simp only [List.map_cons, List.cons.injEq] at h
      unfold isNodeId
      simp only [List.any_cons]
      rw [h.1]
      have h2 := ih bs h.2 v
      unfold isNodeId at h2
      rw [h2]

theorem adjOf_valid (nd : List PNode) (u t : String) (h : t ∈ adjOf nd u) :
    isNodeId nd t = true := by
  unfold adjOf at h
  rcases List.mem_flatMap.mp h with ⟨n, _, hn2⟩
  rcases List.mem_filterMap.mp hn2 with ⟨e, _, he2⟩
  rcases hb : buildTarget e with _ | t2
  · rw [hb] at he2
    cases he2
  · rw [hb] at he2
    dsimp only at he2
    by_cases hid : isNodeId nd t2 = true
    · rw [if_pos hid] at he2
      injection he2 with he3
      rw [← he3]
      exact hid
    · rw [if_neg hid] at he2
      cases he2

theorem revAdjOf_valid (nd : List PNode) (v s : String) (h : s ∈ revAdjOf nd v) :
    isNodeId nd s = true := by
  unfold revAdjOf at h
  rcases List.mem_flatMap.mp h with ⟨n, hn, hn2⟩
  rcases List.mem_filterMap.mp hn2 with ⟨e, _, he2⟩
  rcases hb : buildTarget e with _ | t2
  · rw [hb] at he2
    cases he2
  · rw [hb] at he2
    dsimp only at he2
    by_cases hid : (t2 == v && isNodeId nd t2) = true
    · rw [if_pos hid] at he2
      injection he2 with he3
      rw [← he3]
      exact isNodeId_of_mem nd n hn
    · rw [if_neg hid] at he2
      cases he2

theorem laneOf_mem (nd : List PNode) (t : String) (h : isNodeId nd t = true) :
    ∃ n ∈ nd, laneOf nd t = n.lane := by
  rcases findNode_isSome nd t h with ⟨vn, hvn, hvnmem⟩
  refine ⟨vn, hvnmem, ?_⟩
  unfold laneOf
  rw [hvn]

theorem setLane_lanes (nd : List PNode) (nid lane : String) (n : PNode)
    (h : n ∈ setLane nd nid lane) :
    n.lane = lane ∨ ∃ m ∈ nd, n.lane = m.lane := by
  unfold setLane at h
  rcases List.mem_map.mp h with ⟨m, hm, hmn⟩
  by_cases hid : (m.id == nid) = true
  · rw [if_pos hid] at hmn
    exact Or.inl (by rw [← hmn])
  · rw [if_neg hid] at hmn
    exact Or.inr ⟨m, hm, by rw [← hmn]⟩

theorem foldl_choice_mem {α : Type} (f : α → α → α)
    (hf : ∀ a b, f a b = a ∨ f a b = b) :
    ∀ (l : List α) (a : α), l.foldl f a ∈ a :: l := by
  intro l
  induction l with
  | nil => intro a; exact List.mem_cons_self _ _
  | cons b bs ih =>
    intro a
    rw [List.foldl_cons]
    rcases hf a b with h | h
    · rw [h]
      rcases List.mem_cons.mp (ih a) with h2 | h2
      · rw [h2]
        exact List.mem_cons_self _ _
      · exact List.mem_cons_of_mem _ (List.mem_cons_of_mem _ h2)
    · rw [h]
      rcases List.mem_cons.mp (ih b) with h2 | h2
      · rw [h2]
        exact List.mem_cons_of_mem _ (List.mem_cons_self _ _)
      · exact List.mem_cons_of_mem _ (List.mem_cons_of_mem _ h2)

theorem contains_foldl_pick (akteure LS : List String) (k0 : String)
    (krest : List String)
    (hall : ∀ x ∈ k0 :: krest, akteure.contains x = true) :
    akteure.contains (krest.foldl
      (fun acc k => if LS.count acc < LS.count k then k else acc) k0) = true :=
  hall _ (foldl_choice_mem _
    (fun a b => by
      split
      · exact Or.inr rfl
      · exact Or.inl rfl) krest k0)

theorem gatewayLaneStep_lanes (adj : String → List String) (nd0 nd : List PNode)
    (akteure : List String) (nid : String)
    (hvalid : ∀ u t, t ∈ adj u → isNodeId nd0 t = true)
    (hids : nd.map (fun n => n.id) = nd0.map (fun n => n.id))
    (hP : ∀ n ∈ nd, akteure.contains n.lane = true) :
    ∀ n ∈ gatewayLaneStep adj nd nid, akteure.contains n.lane = true := by
  intro n hn
  unfold gatewayLaneStep at hn
  rcases hfn : findNode nd nid with _ | node
  · rw [hfn] at hn
    exact hP n hn
  · rw [hfn] at hn
    dsimp only at hn
    by_cases hg : (pyIn "gateway" (pyLower node.type) = true)
    · rw [if_pos hg] at hn
      by_cases hlen : (adj nid).length ≤ 1
      · rw [if_pos hlen] at hn
        exact hP n hn
      · rw [if_neg hlen] at hn
        rcases hdd : dedupFirst ((adj nid).map (laneOf nd)) with _ | ⟨k0, krest⟩
        · rw [hdd] at hn
          exact hP n hn
        · rw [hdd] at hn
          dsimp only at hn
          have hall : ∀ x ∈ k0 :: krest, akteure.contains x = true := by
            intro x hx
            have hxl : x ∈ (adj nid).map (laneOf nd) :=
              (dedupFirst_mem _ _).mp (hdd ▸ hx)
            rcases List.mem_map.mp hxl with ⟨t, ht, hxt⟩
            have hvt : isNodeId nd t = true := by
              rw [isNodeId_congr nd nd0 hids]
              exact hvalid nid t ht
            rcases laneOf_mem nd t hvt with ⟨m, hm, hlm⟩
            rw [← hxt, hlm]
            exact hP m hm
          split at hn
          · exact hP n hn
          · split at hn
            · rcases setLane_lanes nd nid _ n hn with h | ⟨m2, hm2, hl2⟩
              · rw [h]
                exact contains_foldl_pick akteure _ k0 krest hall
              · rw [hl2]
                exact hP m2 hm2
            · exact hP n hn
    · rw [if_neg hg] at hn
      exact hP n hn

theorem endEventLaneStep_lanes (revAdj : String → List String) (nd0 nd : List PNode)
    (akteure : List String) (nid : String)
    (hvalid : ∀ v s, s ∈ revAdj v → isNodeId nd0 s = true)
    (hids : nd.map (fun n => n.id) = nd0.map (fun n => n.id))
    (hP : ∀ n ∈ nd, akteure.contains n.lane = true) :
    ∀ n ∈ endEventLaneStep revAdj nd nid, akteure.contains n.lane = true := by
  intro n hn
  unfold endEventLaneStep at hn
  rcases hfn : findNode nd nid with _ | node
  · rw [hfn] at hn
    exact hP n hn
  · rw [hfn] at hn
    dsimp only at hn
    by_cases he : (node.type == "endEvent") = true
    · rw [if_pos he] at hn
      rcases hra : revAdj nid with _ | ⟨p, ps⟩
      · rw [hra] at hn
        exact hP n hn
      · rw [hra] at hn
        dsimp only at hn
        have hvp : isNodeId nd p = true := by
          rw [isNodeId_congr nd nd0 hids]
          exact hvalid nid p (hra ▸ List.mem_cons_self p ps)
        rcases laneOf_mem nd p hvp with ⟨m, hm, hlm⟩
        split at hn
        · rcases setLane_lanes nd nid _ n hn with h | ⟨m2, hm2, hl2⟩
          · rw [h, hlm]
            exact hP m hm
          · rw [hl2]
            exact hP m2 hm2
        · exact hP n hn
    · rw [if_neg he] at hn
      exact hP n hn

theorem foldl_lane_steps_lanes (nd0 : List PNode) (akteure : List String)
    (f : List PNode → String → List PNode)
    (hnl : ∀ nd i, (f nd i).map noLane = nd.map noLane)
    (hstep : ∀ nd i, nd.map (fun n => n.id) = nd0.map (fun n => n.id) →
      (∀ n ∈ nd, akteure.contains n.lane = true) →
      ∀ n ∈ f nd i, akteure.contains n.lane = true) :
    ∀ (ids : List String) (nd : List PNode),
      nd.map (fun n => n.id) = nd0.map (fun n => n.id) →
      (∀ n ∈ nd, akteure.contains n.lane = true) →
      ∀ n ∈ ids.foldl f nd, akteure.contains n.lane = true := by
  intro ids
  induction ids with
  | nil => intro nd _ hP n hn; exact hP n hn
  | cons i rest ih =>
    intro nd hids hP n hn
    rw [List.foldl_cons] at hn
    have hids2 : (f nd i).map (fun n => n.id) = nd0.map (fun n => n.id) := by
      rw [map_id_of_noLane (f nd i) nd (hnl nd i), hids]
    exact ih (f nd i) hids2 (hstep nd i hids hP) n hn

theorem findIdx?_isSome_of_mem (l : List String) (x : String) (h : x ∈ l) :
    (l.findIdx? (fun y => y == x)).isSome = true := by
  suffices haux : ∀ (l2 : List String) (i : Nat), x ∈ l2 →
      (List.findIdx? (fun y => y == x) l2 i).isSome = true by
    exact haux l 0 h
  intro l2
  induction l2 with
  | nil => intro i hx; cases hx
  | cons a as ih =>
    intro i hx
    simp only [List.findIdx?]
    by_cases ha : (a == x) = true
    · rw [if_pos ha]
      rfl
    · rw [if_neg ha]
      rcases List.mem_cons.mp hx with h2 | h2
      · exact absurd (by simp [h2]) ha
      · exact ih (i + 1) h2

theorem edgeCollisionStep_some (nd : List PNode) (adj : String → List String)
    (laneOrd : String → Option Nat) (st : ResolveState × Bool) (u v : String)
    (hu : (laneOrd (laneOf nd u)).isSome = true)
    (hv : (laneOrd (laneOf nd v)).isSome = true)
    (hall : ∀ i, isNodeId nd i = true → (laneOrd (laneOf nd i)).isSome = true) :
    (edgeCollisionStep nd adj laneOrd st u v).isSome = true := by
  unfold edgeCollisionStep
  rcases st with ⟨rs, made⟩
  dsimp only
  rcases Option.isSome_iff_exists.mp hu with ⟨uo, huo⟩
  rcases Option.isSome_iff_exists.mp hv with ⟨vo, hvo⟩
  rw [huo, bind_some_red, hvo, bind_some_red]
  split
  · rfl
  · have hmapm := mapM_option_all_some
      (fun i => (laneOrd (laneOf nd i)).map (fun o => (i, o)))
      ((nd.map (fun n => n.id)).filter (fun i => !(i == u || i == v)))
      (fun i hi => by
        have hvi : (laneOrd (laneOf nd i)).isSome = true := by
          apply hall
          have hid : i ∈ nd.map (fun n => n.id) := List.mem_of_mem_filter hi
          rcases List.mem_map.mp hid with ⟨n, hn, hni⟩
          rw [← hni]
          exact isNodeId_of_mem nd n hn
        rcases Option.isSome_iff_exists.mp hvi with ⟨o, ho⟩
        dsimp only
        rw [ho]
        rfl)
    rw [hmapm, bind_some_red]
    split
    · rfl
    · split
      · rfl
      · rfl

theorem scanNodeCollisions_some (nd : List PNode) (adj : String → List String)
    (laneOrd : String → Option Nat) (u : String)
    (hu : (laneOrd (laneOf nd u)).isSome = true)
    (hadj : ∀ t, t ∈ adj u → isNodeId nd t = true)
    (hall : ∀ i, isNodeId nd i = true → (laneOrd (laneOf nd i)).isSome = true) :
    ∀ (rs : ResolveState), (scanNodeCollisions nd adj laneOrd rs u).isSome = true := by
  intro rs
  unfold scanNodeCollisions
  suffices haux : ∀ (l : List String), (∀ t ∈ l, isNodeId nd t = true) →
      ∀ (st : ResolveState × Bool),
      (l.foldlM (fun st v => edgeCollisionStep nd adj laneOrd st u v) st).isSome = true by
    exact haux (adj u) hadj (rs, false)
  intro l
  induction l with
  | nil => intro _ st; rfl
  | cons v rest ih =>
    intro hl st
    rw [List.foldlM_cons]
    have hvst := edgeCollisionStep_some nd adj laneOrd st u v hu
      (hall v (hl v (List.mem_cons_self _ _))) hall
    rcases Option.isSome_iff_exists.mp hvst with ⟨st2, hst2⟩
    rw [hst2, bind_some_red]
    exact ih (fun t ht => hl t (List.mem_cons_of_mem _ ht)) st2

theorem scanAllCollisions_some (nd : List PNode) (adj : String → List String)
    (laneOrd : String → Option Nat)
    (hadj : ∀ u t, t ∈ adj u → isNodeId nd t = true)
    (hall : ∀ i, isNodeId nd i = true → (laneOrd (laneOf nd i)).isSome = true) :
    ∀ (ids : List String), (∀ u ∈ ids, isNodeId nd u = true) →
    ∀ (rs : ResolveState), (scanAllCollisions nd adj laneOrd ids rs).isSome = true := by
  intro ids
  induction ids with
  | nil => intro _ rs; rfl
  | cons u rest ih =>
    intro hids rs
    have hscan := scanNodeCollisions_some nd adj laneOrd u
      (hall u (hids u (List.mem_cons_self _ _))) (hadj u) hall rs
    rcases Option.isSome_iff_exists.mp hscan with ⟨⟨rs2, made⟩, hst⟩
    unfold scanAllCollisions
    rw [hst, bind_some_red]
    dsimp only
    split
    · rfl
    · exact ih (fun t ht => hids t (List.mem_cons_of_mem _ ht)) rs2

theorem resolveLoop_some (nd : List PNode) (adj : String → List String)
    (laneOrd : String → Option Nat) (ids : List String)
    (hadj : ∀ u t, t ∈ adj u → isNodeId nd t = true)
    (hall : ∀ i, isNodeId nd i = true → (laneOrd (laneOf nd i)).isSome = true)
    (hids : ∀ u ∈ ids, isNodeId nd u = true) :
    ∀ (fuel : Nat) (rs : ResolveState),
      (resolveLoop nd adj laneOrd ids fuel rs).isSome = true := by
  intro fuel
  induction fuel with
  | zero => intro rs; rfl
  | succ m ih =>
    intro rs
    unfold resolveLoop
    have hscan := scanAllCollisions_some nd adj laneOrd hadj hall ids hids rs
    rcases Option.isSome_iff_exists.mp hscan with ⟨⟨rs2, made⟩, hst⟩
    rw [hst, bind_some_red]
    dsimp only
    split
    · exact ih rs2
    · rfl

theorem resolveCrossLaneCollisions_some (nd : List PNode)
    (adj : String → List String) (ranks : Ranks) (ordered : List String)
    (hadj : ∀ u t, t ∈ adj u → isNodeId nd t = true)
    (hlane : ∀ n ∈ nd, n.lane ∈ ordered) :
    (resolveCrossLaneCollisions nd adj ranks ordered).isSome = true := by
  unfold resolveCrossLaneCollisions
  apply resolveLoop_some nd adj _ _ hadj
  · intro i hi
    rcases findNode_isSome nd i hi with ⟨vn, hvn, hvnmem⟩
    have hl : laneOf nd i = vn.lane := by
      unfold laneOf
      rw [hvn]
    rw [hl]
    exact findIdx?_isSome_of_mem ordered vn.lane (hlane vn hvnmem)
  · intro u hu
    rcases List.mem_map.mp hu with ⟨n, hn, hni⟩
    rw [← hni]
    exact isNodeId_of_mem nd n hn

theorem filterMap_eq_map_of_all {α β : Type} (f : α → Option β) (g : α → β) :
    ∀ (l : List α), (∀ a ∈ l, f a = some (g a)) → l.filterMap f = l.map g := by
  intro l
  induction l with
  | nil => intro _; rfl
  | cons a as ih =>
    intro h
    rw [List.filterMap_cons, h a (List.mem_cons_self _ _), List.map_cons,
      ih (fun x hx => h x (List.mem_cons_of_mem _ hx))]

theorem find?_map_snd_isSome {β : Type} (l : List (String × β)) (x : String)
    (h : x ∈ l.map Prod.fst) :
    ((l.find? (fun p => p.1 == x)).map Prod.snd).isSome = true := by
  rcases List.mem_map.mp h with ⟨p, hp, hpx⟩
  have hex : (l.find? (fun q => q.1 == x)).isSome = true := by
    rw [List.find?_isSome]
    exact ⟨p, hp, by simp [hpx]⟩
  rcases Option.isSome_iff_exists.mp hex with ⟨q, hq⟩
  rw [hq]
  rfl

theorem filter_cons_false {α : Type} (p : α → Bool) (a : α) (l : List α)
    (h : p a = false) : (a :: l).filter p = l.filter p := by
  simp [List.filter_cons, h]

theorem filter_cons_true {α : Type} (p : α → Bool) (a : α) (l : List α)
    (h : p a = true) : (a :: l).filter p = a :: l.filter p := by
  simp [List.filter_cons, h]

theorem filter_eq_self_of_all {α : Type} (p : α → Bool) :
    ∀ (l : List α), (∀ a ∈ l, p a = true) → l.filter p = l := by
  intro l
  induction l with
  | nil => intro _; rfl
  | cons a as ih =>
    intro h
    rw [filter_cons_true p a as (h a (List.mem_cons_self _ _)),
      ih (fun x hx => h x (List.mem_cons_of_mem _ hx))]

theorem filter_eq_nil_of_all {α : Type} (p : α → Bool) :
    ∀ (l : List α), (∀ a ∈ l, p a = false) → l.filter p = [] := by
  intro l
  induction l with
  | nil => intro _; rfl
  | cons a as ih =>
    intro h
    rw [filter_cons_false p a as (h a (List.mem_cons_self _ _)),
      ih (fun x hx => h x (List.mem_cons_of_mem _ hx))]

theorem map_flatMap_eq {α β γ δ : Type} (f : α → List β) (g : β → γ)
    (f2 : α → List δ) (g2 : δ → γ)
    (h : ∀ a, (f a).map g = (f2 a).map g2) :
    ∀ (l : List α), (l.flatMap f).map g = (l.flatMap f2).map g2 := by
  intro l
  induction l with
  | nil => rfl
  | cons a as ih =>
    rw [List.flatMap_cons, List.flatMap_cons, List.map_append, List.map_append, h a, ih]


theorem createXml_spec (g : ProcessGraph) (ndR : List PNode)
    (revAdj : String → List String) (laneGeos : List (String × LaneGeo))
    (layout : List (String × NodeGeo)) (poolWidth : ℚ) (poolHeight : Nat)
    (ordered : List String) (uuid : Nat → String) (cnt0 : Nat)
    (hordc : ∀ x ∈ ordered, (dedupFirst g.akteure).contains x = true)
    (haktmem : ∀ l ∈ dedupFirst g.akteure, l ∈ ordered)
    (haktgeo : ∀ l ∈ dedupFirst g.akteure, (lookupLaneGeo laneGeos l).isSome = true)
    (hgeo : ∀ n ∈ ndR, (lookupGeo layout n.id).isSome = true)
    (htype : ∀ n ∈ ndR, (n.type == "laneSet") = false ∧ (n.type == "sequenceFlow") = false) :
    ∃ tree p,
      createXml g ndR revAdj laneGeos layout poolWidth poolHeight ordered uuid cnt0 =
        some tree ∧
      docProcessOf tree = some p ∧
      (processNodeElems p).map (fun e => (XElem.tagOf e, XElem.attr e "id")) =
        ndR.map (fun n => (n.type, some n.id)) ∧
      (processFlowElems p).map
          (fun e => (XElem.attr e "sourceRef", XElem.attr e "targetRef")) =
        (flowPairs ndR).map (fun q => (some q.1, some q.2)) := by
  unfold createXml
  dsimp only
  have hmem_enum : ∀ p ∈ ordered.enum, (dedupFirst g.akteure).contains p.2 = true := by
    intro p hp
    apply hordc
    rw [← List.enum_map_snd ordered]
    exact List.mem_map.mpr ⟨p, hp, rfl⟩
  have hmapm1 : ordered.enum.mapM (fun p =>
      if (dedupFirst g.akteure).contains p.2 then some (p.2, sidOf uuid (cnt0 + p.1))
      else none) =
      some (ordered.enum.map (fun p => (p.2, sidOf uuid (cnt0 + p.1)))) := by
    rw [mapM_option_all_some _ _ (fun p hp => by
      rw [if_pos (hmem_enum p hp)]
      rfl)]
    congr 1
    apply filterMap_eq_map_of_all
    intro p hp
    rw [if_pos (hmem_enum p hp)]
  rw [hmapm1, bind_some_red]
  have hlkeys : ((ordered.enum.map (fun p => (p.2, sidOf uuid (cnt0 + p.1)))).map
      Prod.fst) = ordered := by
    rw [List.map_map]
    exact List.enum_map_snd ordered
  have hmapm2 := mapM_option_all_some
    (fun lane => do
      let geo ← lookupLaneGeo laneGeos lane
      let lid ← ((ordered.enum.map (fun p => (p.2, sidOf uuid (cnt0 + p.1)))).find?
        (fun p => p.1 == lane)).map Prod.snd
      pure (XElem.el "bpmndi:BPMNShape"
        [("id", lid ++ "_gui"), ("bpmnElement", lid), ("isHorizontal", "true")]
        none
        [XElem.el "omgdc:Bounds"
          [("x", toString (LayoutConfig.POOL_PADDING_X + LayoutConfig.LANE_HEADER_WIDTH)),
           ("y", toString geo.y),
           ("width", toString (pyInt (poolWidth - (LayoutConfig.LANE_HEADER_WIDTH : ℚ)))),
           ("height", toString geo.height)] none []]))
    (dedupFirst g.akteure)
    (fun lane hl => by
      dsimp only
      rcases Option.isSome_iff_exists.mp (haktgeo lane hl) with ⟨geo, hgeo2⟩
      rw [hgeo2, bind_some_red]
      rcases Option.isSome_iff_exists.mp (find?_map_snd_isSome _ lane
        (hlkeys ▸ haktmem lane hl)) with ⟨lid, hlid⟩
      rw [hlid, bind_some_red]
      rfl)
  rw [hmapm2, bind_some_red]
  have hmapm3 := mapM_option_all_some
    (fun node => do
      let geo ← lookupGeo layout node.id
      let boundsEl := XElem.el "omgdc:Bounds"
        [("x", toString (pyInt geo.x)), ("y", toString (pyInt geo.y)),
         ("width", toString geo.width), ("height", toString geo.height)] none []
      let kids :=
        if pyTruthy node.label then
          [boundsEl, XElem.el "bpmndi:BPMNLabel" [("labelStyle", sidOf uuid 7)] none []]
        else [boundsEl]
      pure (XElem.el "bpmndi:BPMNShape"
        [("id", node.id ++ "_gui"), ("bpmnElement", node.id)] none kids))
    ndR
    (fun node hn => by
      dsimp only
      rcases Option.isSome_iff_exists.mp (hgeo node hn) with ⟨geo, hgeo2⟩
      rw [hgeo2, bind_some_red]
      rfl)
  rw [hmapm3, bind_some_red]
  refine ⟨_, _, rfl, rfl, ?_, ?_⟩
  · unfold processNodeElems
    dsimp only [XElem.childrenOf]
    rw [filter_cons_false _ _ _ rfl, List.filter_append]
    rw [filter_eq_self_of_all _ _ (fun e he => by
      rcases List.mem_map.mp he with ⟨node, hnode, hmk⟩
      rcases htype node hnode with ⟨h1, h2⟩
      rw [← hmk]
      show (!(node.type == "laneSet") && !(node.type == "sequenceFlow")) = true
      rw [h1, h2]
      rfl)]
    rw [filter_eq_nil_of_all _ _ (fun e he => by
      rcases List.mem_flatMap.mp he with ⟨u, hu, he2⟩
      rcases List.mem_map.mp he2 with ⟨ed, hed, hmk⟩
      rw [← hmk]
      rfl)]
    rw [List.append_nil, List.map_map]
    apply List.map_congr_left
    intro node hnode
    simp only [Function.comp]
    by_cases hgw : pyIn "gateway" node.type = true
    · rw [if_pos hgw]
      rfl
    · rw [if_neg hgw]
      rfl
  · unfold processFlowElems
    dsimp only [XElem.childrenOf]
    rw [filter_cons_false _ _ _ rfl, List.filter_append]
    rw [filter_eq_nil_of_all _ _ (fun e he => by
      rcases List.mem_map.mp he with ⟨node, hnode, hmk⟩
      rcases htype node hnode with ⟨h1, h2⟩
      rw [← hmk]
      show (node.type == "sequenceFlow") = false
      exact h2)]
    rw [filter_eq_self_of_all _ _ (fun e he => by
      rcases List.mem_flatMap.mp he with ⟨u, hu, he2⟩
      rcases List.mem_map.mp he2 with ⟨ed, hed, hmk⟩
      rw [← hmk]
      rfl)]
    rw [List.nil_append]
    unfold flowPairs
    apply map_flatMap_eq
    intro u
    rw [List.map_map, List.map_map]
    apply List.map_congr_left
    intro e _
    simp only [Function.comp]
    by_cases hlab : (e.label ≠ "")
    · rw [if_pos hlab]
      rfl
    · rw [if_neg hlab]
      rfl

theorem filterMap_congr_fn {α β : Type} (f g : α → Option β) :
    ∀ (l : List α), (∀ a ∈ l, f a = g a) → l.filterMap f = l.filterMap g := by
  intro l
  induction l with
  | nil => intro _; rfl
  | cons a as ih =>
    intro h
    rw [List.filterMap_cons, List.filterMap_cons, h a (List.mem_cons_self _ _),
      ih (fun x hx => h x (List.mem_cons_of_mem _ hx))]

theorem retainedTargetsL_congr (nd2 nd : List PNode)
    (hiso : ∀ v, isNodeId nd2 v = isNodeId nd v) :
    ∀ (l : List NextInfo), retainedTargetsL nd2 l = retainedTargetsL nd l := by
  intro l
  unfold retainedTargetsL
  apply filterMap_congr_fn
  intro e _
  rcases e with s | ⟨i, t, lab⟩
  · rfl
  · dsimp only
    rcases pyOrStr i t with _ | v
    · rfl
    · dsimp only
      rw [hiso v]

theorem flatMap_comp_map {α β γ : Type} (g : α → β) (F : β → List γ) :
    ∀ (l : List α), (l.map g).flatMap F = l.flatMap (fun a => F (g a)) := by
  intro l
  induction l with
  | nil => rfl
  | cons a as ih =>
    rw [List.map_cons, List.flatMap_cons, List.flatMap_cons, ih]

theorem retainedEdges_eq_flat (nd : List PNode) :
    retainedEdges nd =
      nd.flatMap (fun n => (retainedTargetsL nd n.next_nodes).map (fun v => (n.id, v))) := by
  unfold retainedEdges retainedTargetsL
  congr 1
  funext n
  rw [List.map_filterMap]
  apply filterMap_congr_fn
  intro e _
  rcases e with s | ⟨i, t, lab⟩
  · rfl
  · dsimp only
    rcases pyOrStr i t with _ | v
    · rfl
    · dsimp only
      by_cases hg : (v ≠ "" && isNodeId nd v) = true
      · rw [hg]
        rfl
      · rw [Bool.eq_false_iff.mpr hg]
        rfl

theorem map_proj_eq {γ : Type} (P : PNode → γ) (Q : PNode → PNode)
    (hPQ : ∀ n, P (Q n) = P n) (l1 l2 : List PNode)
    (h : l1.map Q = l2.map Q) : l1.map P = l2.map P := by
  have e1 : ∀ l : List PNode, l.map P = (l.map Q).map P := by
    intro l
    rw [List.map_map]
    apply List.map_congr_left
    intro a _
    exact (hPQ a).symm
  rw [e1 l1, e1 l2, h]

theorem forall_proj_transfer {γ : Type} (P : PNode → γ) (nd2 nd : List PNode)
    (h : nd2.map P = nd.map P) (Q : γ → Prop)
    (hd : ∀ m ∈ nd, Q (P m)) : ∀ n ∈ nd2, Q (P n) := by
  intro n hn
  have hmem : P n ∈ nd2.map P := List.mem_map.mpr ⟨n, hn, rfl⟩
  rw [h] at hmem
  rcases List.mem_map.mp hmem with ⟨m, hm, hmp⟩
  rw [← hmp]
  exact hd m hm

theorem flatMap_proj_congr {γ : Type} (F : String × List NextInfo → List γ)
    (l1 l2 : List PNode)
    (h : l1.map (fun n => (n.id, n.next_nodes)) = l2.map (fun n => (n.id, n.next_nodes))) :
    l1.flatMap (fun n => F (n.id, n.next_nodes)) =
      l2.flatMap (fun n => F (n.id, n.next_nodes)) := by
  rw [← flatMap_comp_map (fun n => (n.id, n.next_nodes)) F l1,
    ← flatMap_comp_map (fun n => (n.id, n.next_nodes)) F l2, h]

theorem generateBpmnTree_spec (g : ProcessGraph) (uuid : Nat → String)
    (hlanes : lanesDeclared g)
    (hdicts : edgesAllDicts (dictNodes g.nodes))
    (hne : g.akteure ≠ [])
    (htype : ∀ n ∈ dictNodes g.nodes,
      (n.type == "laneSet") = false ∧ (n.type == "sequenceFlow") = false) :
    ∃ t p, generateBpmnTree g uuid = some t ∧ docProcessOf t = some p ∧
      (processNodeElems p).map (fun e => (XElem.tagOf e, XElem.attr e "id")) =
        (dictNodes g.nodes).map (fun n => (n.type, some n.id)) ∧
      (processFlowElems p).map
          (fun e => (XElem.attr e "sourceRef", XElem.attr e "targetRef")) =
        (retainedEdges (dictNodes g.nodes)).map (fun q => (some q.1, some q.2)) := by
  have hnodup := dictNodes_ids_nodup g.nodes
  set ndS := dictNodes g.nodes with hnd
  set adjS := adjOf ndS with hadjdef
  set revS := revAdjOf ndS with hrevdef
  set nd1S := optimizeGatewayLanes adjS ndS with hnd1
  set nd2S := enforceEndEventLanes revS nd1S with hnd2
  have hlanes' : ∀ n ∈ ndS, g.akteure.contains n.lane = true := hlanes
  have hdicts' : ∀ n ∈ ndS, ∀ e ∈ n.next_nodes, isObjInfo e = true := hdicts
  have hnl1 : nd1S.map noLane = ndS.map noLane := by
    rw [hnd1]
    exact optimizeGatewayLanes_noLane adjS ndS
  have hids1 : nd1S.map (fun n => n.id) = ndS.map (fun n => n.id) :=
    map_id_of_noLane _ _ hnl1
  have hP1 : ∀ n ∈ nd1S, g.akteure.contains n.lane = true := by
    have hmain := foldl_lane_steps_lanes ndS g.akteure (gatewayLaneStep adjS)
      (gatewayLaneStep_noLane adjS)
      (fun nd' i hids hP => gatewayLaneStep_lanes adjS ndS nd' g.akteure i
        (fun u t ht => adjOf_valid ndS u t ht) hids hP)
      (ndS.map (fun n => n.id)) ndS rfl hlanes'
    intro n hn
    rw [hnd1] at hn
    exact hmain n hn
  have hnodup1 : (nd1S.map (fun n => n.id)).Nodup := by
    rw [hids1]
    exact hnodup
  have hstart : ∀ n, nd1S.find? (fun m => m.type == "startEvent") = some n →
      laneOf nd1S n.id ∈ g.akteure := by
    intro n hf
    have hmem := List.mem_of_find?_eq_some hf
    have hfind : findNode nd1S n.id = some n := findNode_of_nodup_mem nd1S n hnodup1 hmem
    have hl : laneOf nd1S n.id = n.lane := by
      unfold laneOf
      rw [hfind]
    rw [hl]
    exact List.mem_of_elem_eq_true (hP1 n hmem)
  obtain ⟨ordered, hord⟩ :=
    Option.isSome_iff_exists.mp (optimizeLaneOrder_some nd1S adjS g.akteure hstart hne)
  have hperm := optimizeLaneOrder_perm nd1S adjS g.akteure ordered hord
  have hnl2 : nd2S.map noLane = nd1S.map noLane := by
    rw [hnd2]
    exact enforceEndEventLanes_noLane revS nd1S
  have hids2 : nd2S.map (fun n => n.id) = ndS.map (fun n => n.id) := by
    rw [map_id_of_noLane _ _ hnl2, hids1]
  have hP2 : ∀ n ∈ nd2S, g.akteure.contains n.lane = true := by
    have hmain := foldl_lane_steps_lanes ndS g.akteure (endEventLaneStep revS)
      (endEventLaneStep_noLane revS)
      (fun nd' i hids hP => endEventLaneStep_lanes revS ndS nd' g.akteure i
        (fun v s hs => revAdjOf_valid ndS v s hs) hids hP)
      (nd1S.map (fun n => n.id)) nd1S hids1 hP1
    intro n hn
    rw [hnd2] at hn
    exact hmain n hn
  have hordmem : ∀ x ∈ ordered, x ∈ dedupFirst g.akteure := fun x hx =>
    hperm.mem_iff.mp hx
  have hlaneord2 : ∀ n ∈ nd2S, n.lane ∈ ordered := by
    intro n hn
    have hmem : n.lane ∈ dedupFirst g.akteure :=
      (dedupFirst_mem _ _).mpr (List.mem_of_elem_eq_true (hP2 n hn))
    exact hperm.mem_iff.mpr hmem
  have hiso : ∀ v, isNodeId nd2S v = isNodeId ndS v := isNodeId_congr nd2S ndS hids2
  have hadj2 : ∀ u t, t ∈ adjS u → isNodeId nd2S t = true := by
    intro u t ht
    rw [hiso t]
    exact adjOf_valid ndS u t ht
  obtain ⟨⟨rs, stab⟩, hres⟩ := Option.isSome_iff_exists.mp
    (resolveCrossLaneCollisions_some nd2S adjS (assignRanks nd2S adjS revS).1 ordered
      hadj2 hlaneord2)
  obtain ⟨lg, ly, pw, ph, hpos, hlgkeys, hcov⟩ :=
    calculateNodePositions_spec nd2S rs.ranks ordered g.akteure hordmem
  have hgeoV : ∀ v, isNodeId nd2S v = true → (lookupGeo ly v).isSome = true := by
    intro v hv
    rcases exists_of_isNodeId nd2S v hv with ⟨n, hn, hid⟩
    rw [← hid]
    exact hcov n hn (hlaneord2 n hn)
  have hlaneAll : ∀ n ∈ nd2S, (lookupLaneGeo lg n.lane).isSome = true := by
    intro n hn
    apply lookupLaneGeo_isSome_of_key
    rw [hlgkeys]
    exact hlaneord2 n hn
  have hnext2 : nd2S.map (fun n => n.next_nodes) = ndS.map (fun n => n.next_nodes) := by
    rw [map_proj_eq (fun n => n.next_nodes) noLane (fun n => rfl) nd2S nd1S hnl2,
      map_proj_eq (fun n => n.next_nodes) noLane (fun n => rfl) nd1S ndS hnl1]
  have hobj2 : ∀ m ∈ nd2S, ∀ e ∈ m.next_nodes, isObjInfo e = true :=
    forall_proj_transfer (fun n => n.next_nodes) nd2S ndS hnext2
      (fun l => ∀ e ∈ l, isObjInfo e = true) hdicts'
  obtain ⟨ns2, cnt2, hroute, hshell, hflows⟩ :=
    calculateAllEdgeWaypoints_spec nd2S rs.ranks rs.corridor lg ly pw uuid
      hgeoV hlaneAll hobj2
  have hordc : ∀ x ∈ ordered, (dedupFirst g.akteure).contains x = true := fun x hx =>
    List.elem_eq_true_of_mem (hordmem x hx)
  have haktmem : ∀ l ∈ dedupFirst g.akteure, l ∈ ordered := fun l hl =>
    hperm.mem_iff.mpr hl
  have haktgeo : ∀ l ∈ dedupFirst g.akteure, (lookupLaneGeo lg l).isSome = true := by
    intro l hl
    apply lookupLaneGeo_isSome_of_key
    rw [hlgkeys]
    exact haktmem l hl
  have hids3 : ns2.map (fun m => m.id) = nd2S.map (fun m => m.id) :=
    map_proj_eq (fun m => m.id) noEdges (fun m => rfl) ns2 nd2S hshell
  have hgeo2 : ∀ n ∈ ns2, (lookupGeo ly n.id).isSome = true := by
    intro n hn
    have hidn : n.id ∈ ns2.map (fun m => m.id) := List.mem_map.mpr ⟨n, hn, rfl⟩
    rw [hids3] at hidn
    rcases List.mem_map.mp hidn with ⟨m, hm, hmid⟩
    rw [← hmid]
    exact hcov m hm (hlaneord2 m hm)
  have htypechain : ns2.map (fun n => n.type) = ndS.map (fun n => n.type) := by
    rw [map_proj_eq (fun n => n.type) noEdges (fun n => rfl) ns2 nd2S hshell,
      map_proj_eq (fun n => n.type) noLane (fun n => rfl) nd2S nd1S hnl2,
      map_proj_eq (fun n => n.type) noLane (fun n => rfl) nd1S ndS hnl1]
  have htype2 : ∀ n ∈ ns2,
      (n.type == "laneSet") = false ∧ (n.type == "sequenceFlow") = false :=
    forall_proj_transfer (fun n => n.type) ns2 ndS htypechain
      (fun ty => (ty == "laneSet") = false ∧ (ty == "sequenceFlow") = false) htype
  obtain ⟨tree, p, hcx, hdoc, hnodes, hflows2⟩ :=
    createXml_spec g ns2 revS lg ly pw ph ordered uuid cnt2
      hordc haktmem haktgeo hgeo2 htype2
  refine ⟨tree, p, ?_, hdoc, ?_, ?_⟩
  · unfold generateBpmnTree
    dsimp only
    rw [← hnd, ← hadjdef, ← hrevdef, ← hnd1, ← hnd2]
    rw [hord, bind_some_red, hres, bind_some_red, hpos, bind_some_red]
    dsimp only
    rw [hroute, bind_some_red]
    dsimp only
    exact hcx
  · rw [hnodes]
    rw [map_proj_eq (fun n => (n.type, some n.id)) noEdges (fun n => rfl) ns2 nd2S hshell,
      map_proj_eq (fun n => (n.type, some n.id)) noLane (fun n => rfl) nd2S nd1S hnl2,
      map_proj_eq (fun n => (n.type, some n.id)) noLane (fun n => rfl) nd1S ndS hnl1]
  · rw [hflows2, hflows]
    have hpairproj : nd2S.map (fun n => (n.id, n.next_nodes)) =
        ndS.map (fun n => (n.id, n.next_nodes)) := by
      rw [map_proj_eq (fun n => (n.id, n.next_nodes)) noLane (fun n => rfl) nd2S nd1S hnl2,
        map_proj_eq (fun n => (n.id, n.next_nodes)) noLane (fun n => rfl) nd1S ndS hnl1]
    have step1 : nd2S.flatMap (fun m => (retainedTargets nd2S m).map (fun v => (m.id, v))) =
        nd2S.flatMap (fun m => (retainedTargetsL ndS m.next_nodes).map (fun v => (m.id, v))) := by
      congr 1
      funext m
      unfold retainedTargets
      rw [retainedTargetsL_congr nd2S ndS hiso m.next_nodes]
    have step2 : nd2S.flatMap
        (fun m => (retainedTargetsL ndS m.next_nodes).map (fun v => (m.id, v))) =
        ndS.flatMap (fun m => (retainedTargetsL ndS m.next_nodes).map (fun v => (m.id, v))) :=
      flatMap_proj_congr
        (fun q => (retainedTargetsL ndS q.2).map (fun v => (q.1, v))) nd2S ndS hpairproj
    rw [step1, step2, ← retainedEdges_eq_flat ndS]

/-- C5: the process element of the emitted document contains exactly one
typed element per node of the input graph, in dict order, carrying the
node's kind as its tag and the node's id, and exactly one sequenceFlow
connector per edge whose resolved target names an existing node (in scan
order); dangling-target edges are dropped without failing.  Preconditions:
every node lane is declared, every edge entry is a dict, at least one
lane is declared, and no node kind collides with the reserved tags
`laneSet`/`sequenceFlow`. -/
theorem C5_serializer_counts (g : ProcessGraph) (uuid : Nat → String)
    (hlanes : lanesDeclared g)
    (hdicts : edgesAllDicts (dictNodes g.nodes))
    (hne : g.akteure ≠ [])
    (htype : ∀ n ∈ dictNodes g.nodes,
      (n.type == "laneSet") = false ∧ (n.type == "sequenceFlow") = false) :
    ∃ t p, generateBpmnTree g uuid = some t ∧ docProcessOf t = some p ∧
      (processNodeElems p).map (fun e => (XElem.tagOf e, XElem.attr e "id")) =
        (dictNodes g.nodes).map (fun n => (n.type, some n.id)) ∧
      (processFlowElems p).map
          (fun e => (XElem.attr e "sourceRef", XElem.attr e "targetRef")) =
        (retainedEdges (dictNodes g.nodes)).map (fun q => (some q.1, some q.2)) :=
  generateBpmnTree_spec g uuid hlanes hdicts hne htype

/-- Witness for C5 on the concrete graph `exC5`. -/
theorem C5_witness :
    lanesDeclared exC5 ∧ edgesAllDicts (dictNodes exC5.nodes) ∧
    exC5.akteure ≠ [] ∧
    (∀ n ∈ dictNodes exC5.nodes,
      (n.type == "laneSet") = false ∧ (n.type == "sequenceFlow") = false) ∧
    (∃ t p, generateBpmnTree exC5 exStreamW = some t ∧ docProcessOf t = some p ∧
      (processNodeElems p).map (fun e => (XElem.tagOf e, XElem.attr e "id")) =
        (dictNodes exC5.nodes).map (fun n => (n.type, some n.id)) ∧
      (processFlowElems p).map
          (fun e => (XElem.attr e "sourceRef", XElem.attr e "targetRef")) =
        (retainedEdges (dictNodes exC5.nodes)).map (fun q => (some q.1, some q.2))) :=
  ⟨by decide, by decide, by decide, by decide,
    C5_serializer_counts exC5 exStreamW (by decide) (by decide) (by decide) (by decide)⟩

theorem kahn_fold_spec (u : String) (P0 : String → Prop) :
    ∀ (S rest : List String) (d : String → Int) (r : Ranks),
      (∀ x, P0 x → d x ≤ 0) →
      (∀ x ∈ rest, d x ≤ 0) →
      u ∉ S →
      ∃ new,
        (S.foldl (kahnStep u) (rest, d, r)).1 = rest ++ new ∧ new.Nodup ∧
        (∀ x ∈ new, x ∈ S ∧ ¬ P0 x ∧ x ∉ rest) ∧
        (∀ x, (S.foldl (kahnStep u) (rest, d, r)).2.1 x = d x - (S.count x : Int)) ∧
        (∀ x ∈ rest ++ new, (S.foldl (kahnStep u) (rest, d, r)).2.1 x ≤ 0) ∧
        (∀ x, r x ≤ (S.foldl (kahnStep u) (rest, d, r)).2.2 x) ∧
        (∀ x, x ∉ S → (S.foldl (kahnStep u) (rest, d, r)).2.2 x = r x) ∧
        (∀ v ∈ S, r u + 1 ≤ (S.foldl (kahnStep u) (rest, d, r)).2.2 v) := by
  intro S
  induction S with
  | nil =>
    intro rest d r hP0 hrest _
    refine ⟨[], by simp, List.nodup_nil, ?_, ?_, ?_, ?_, ?_, ?_⟩
    · intro x hx; cases hx
    · intro x; simp
    · intro x hx; simpa using hrest x (by simpa using hx)
    · intro x; exact le_refl _
    · intro x _; rfl
    · intro v hv; cases hv
  | cons v S' ih =>
    intro rest d r hP0 hrest huS
    have huv : u ≠ v := fun he => huS (he ▸ List.mem_cons_self v S')
    have huS' : u ∉ S' := fun hm => huS (List.mem_cons_of_mem _ hm)
    rw [List.foldl_cons]
    -- the step
    set d2 : String → Int := fun x => if x = v then d v - 1 else d x with hd2
    set r2 : Ranks := fun x => if x = v then max (r v) (r u + 1) else r x with hr2
    have hd2x : ∀ x, d2 x = if x = v then d v - 1 else d x := fun x => rfl
    have hr2x : ∀ x, r2 x = if x = v then max (r v) (r u + 1) else r x := fun x => rfl
    have hstep : kahnStep u (rest, d, r) v =
        ((if d2 v = 0 then rest ++ [v] else rest), d2, r2) := rfl
    rw [hstep]
    by_cases henq : d2 v = 0
    · -- enqueue case
      rw [if_pos henq]
      have hdv : d v = 1 := by
        rw [hd2x v, if_pos rfl] at henq
        omega
      have hP0d2 : ∀ x, P0 x → d2 x ≤ 0 := by
        intro x hx
        rw [hd2x x]
        by_cases hxv : x = v
        · rw [if_pos hxv]
          omega
        · rw [if_neg hxv]
          exact hP0 x hx
      have hrest2 : ∀ x ∈ rest ++ [v], d2 x ≤ 0 := by
        intro x hx
        rw [hd2x x]
        by_cases hxv : x = v
        · rw [if_pos hxv]
          omega
        · rw [if_neg hxv]
          rcases List.mem_append.mp hx with h | h
          · exact hrest x h
          · exact absurd (List.mem_singleton.mp h) hxv
      rcases ih (rest ++ [v]) d2 r2 hP0d2 hrest2 huS' with
        ⟨new', hq, hnd, hmem, hdeq, hdle, hrle, hrout, hmono⟩
      have hvnotrest : v ∉ rest := by
        intro hv
        have := hrest v hv
        omega
      have hvnotnew : v ∉ new' := by
        intro hv
        exact (hmem v hv).2.2 (List.mem_append_right _ (List.mem_singleton.mpr rfl))
      refine ⟨v :: new', ?_, ?_, ?_, ?_, ?_, ?_, ?_, ?_⟩
      · rw [hq, List.append_assoc]
        rfl
      · exact List.nodup_cons.mpr ⟨hvnotnew, hnd⟩
      · intro x hx
        rcases List.mem_cons.mp hx with hx | hx
        · subst hx
          refine ⟨List.mem_cons_self _ _, ?_, hvnotrest⟩
          intro hP0v
          have := hP0 x hP0v
          omega
        · rcases hmem x hx with ⟨h1, h2, h3⟩
          exact ⟨List.mem_cons_of_mem _ h1, h2,
            fun hr => h3 (List.mem_append_left _ hr)⟩
      · intro x
        rw [hdeq x, hd2x x]
        by_cases hxv : x = v
        · subst hxv
          rw [if_pos rfl]
          have : (x :: S').count x = S'.count x + 1 := by
            simp [List.count_cons]
          rw [this]
          push_cast
          omega
        · rw [if_neg hxv]
          have : (v :: S').count x = S'.count x := by
            simp [List.count_cons, hxv]
          rw [this]
      · intro x hx
        apply hdle
        rcases List.mem_append.mp hx with h | h
        · exact List.mem_append_left _ (List.mem_append_left _ h)
        · rcases List.mem_cons.mp h with h | h
          · exact List.mem_append_left _ (List.mem_append_right _ (by simp [h]))
          · exact List.mem_append_right _ h
      · intro x
        refine le_trans ?_ (hrle x)
        rw [hr2x x]
        by_cases hxv : x = v
        · rw [if_pos hxv, hxv]
          exact le_max_left _ _
        · rw [if_neg hxv]
      · intro x hx
        have hxv : x ≠ v := fun he => hx (he ▸ List.mem_cons_self v S')
        have hxS' : x ∉ S' := fun hm => hx (List.mem_cons_of_mem _ hm)
        rw [hrout x hxS', hr2x x, if_neg hxv]
      · intro w hw
        have hru2 : r2 u = r u := by
          rw [hr2x u, if_neg huv]
        rcases List.mem_cons.mp hw with hw | hw
        · subst hw
          by_cases hwS' : w ∈ S'
          · have := hmono w hwS'
            rw [hru2] at this
            exact this
          · rw [hrout w hwS', hr2x w, if_pos rfl]
            exact le_trans (le_max_right _ _) (le_refl _)
        · have := hmono w hw
          rw [hru2] at this
          exact this
    · -- no-enqueue case
      rw [if_neg henq]
      have hrest2 : ∀ x ∈ rest, d2 x ≤ 0 := by
        intro x hx
        rw [hd2x x]
        by_cases hxv : x = v
        · rw [if_pos hxv]
          have := hrest x hx
          rw [hxv] at this
          omega
        · rw [if_neg hxv]
          exact hrest x hx
      have hP0d2 : ∀ x, P0 x → d2 x ≤ 0 := by
        intro x hx
        rw [hd2x x]
        by_cases hxv : x = v
        · rw [if_pos hxv]
          have := hP0 x hx
          rw [hxv] at this
          omega
        · rw [if_neg hxv]
          exact hP0 x hx
      rcases ih rest d2 r2 hP0d2 hrest2 huS' with
        ⟨new', hq, hnd, hmem, hdeq, hdle, hrle, hrout, hmono⟩
      refine ⟨new', hq, hnd, ?_, ?_, hdle, ?_, ?_, ?_⟩
      · intro x hx
        rcases hmem x hx with ⟨h1, h2, h3⟩
        exact ⟨List.mem_cons_of_mem _ h1, h2, h3⟩
      · intro x
        rw [hdeq x, hd2x x]
        by_cases hxv : x = v
        · subst hxv
          rw [if_pos rfl]
          have : (x :: S').count x = S'.count x + 1 := by
            simp [List.count_cons]
          rw [this]
          push_cast
          omega
        · rw [if_neg hxv]
          have : (v :: S').count x = S'.count x := by
            simp [List.count_cons, hxv]
          rw [this]
      · intro x
        refine le_trans ?_ (hrle x)
        rw [hr2x x]
        by_cases hxv : x = v
        · rw [if_pos hxv, hxv]
          exact le_max_left _ _
        · rw [if_neg hxv]
      · intro x hx
        have hxv : x ≠ v := fun he => hx (he ▸ List.mem_cons_self v S')
        have hxS' : x ∉ S' := fun hm => hx (List.mem_cons_of_mem _ hm)
        rw [hrout x hxS', hr2x x, if_neg hxv]
      · intro w hw
        have hru2 : r2 u = r u := by
          rw [hr2x u, if_neg huv]
        rcases List.mem_cons.mp hw with hw | hw
        · subst hw
          by_cases hwS' : w ∈ S'
          · have := hmono w hwS'
            rw [hru2] at this
            exact this
          · rw [hrout w hwS', hr2x w, if_pos rfl]
            exact le_trans (le_max_right _ _) (le_refl _)
        · have := hmono w hw
          rw [hru2] at this
          exact this

theorem cast_sum_map (l : List String) (F : String → Nat) :
    ((l.map (fun w => ((F w : Int)))).sum) = (((l.map F).sum : Nat) : Int) := by
  induction l with
  | nil => rfl
  | cons a as ih =>
    rw [List.map_cons, List.map_cons, List.sum_cons, List.sum_cons, ih]
    push_cast
    ring

theorem sum_le_of_nodup_subset (F : String → Nat) (S T : List String)
    (hS : S.Nodup) (hsub : ∀ x ∈ S, x ∈ T) :
    ((S.map F).sum) ≤ ((T.map F).sum) := by
  rcases hS.subperm hsub with ⟨l, hperm, hsl⟩
  calc (S.map F).sum = (l.map F).sum := ((hperm.map F).sum_eq).symm
    _ ≤ (T.map F).sum := (hsl.map F).sum_le_sum (fun b _ => Nat.zero_le b)

theorem single_le_sum_nat (F : String → Nat) (S : List String) (x : String)
    (hx : x ∈ S) : F x ≤ (S.map F).sum := by
  induction S with
  | nil => cases hx
  | cons a as ih =>
    rw [List.map_cons, List.sum_cons]
    rcases List.mem_cons.mp hx with h | h
    · rw [h]
      exact Nat.le_add_right _ _
    · exact le_trans (ih h) (Nat.le_add_left _ _)

theorem filter_eq_single_of_nodup (nd : List PNode)
    (hnodup : (nd.map (fun n => n.id)).Nodup) (n : PNode) (hn : n ∈ nd) :
    nd.filter (fun m => m.id == n.id) = [n] := by
  induction nd with
  | nil => cases hn
  | cons m rest ih =>
    rw [List.map_cons, List.nodup_cons] at hnodup
    rcases List.mem_cons.mp hn with h | h
    · subst h
      rw [filter_cons_true _ _ _ (by simp)]
      rw [filter_eq_nil_of_all _ _ (fun k hk => by
        by_cases he : (k.id == n.id) = true
        · exact absurd (List.mem_map.mpr ⟨k, hk, by simpa using he⟩) hnodup.1
        · exact Bool.eq_false_iff.mpr he)]
    · have hmne : (m.id == n.id) = false := by
        by_cases he : (m.id == n.id) = true
        · have : m.id = n.id := by simpa using he
          exact absurd (this ▸ List.mem_map.mpr ⟨n, h, rfl⟩) hnodup.1
        · exact Bool.eq_false_iff.mpr he
      rw [filter_cons_false (fun k => k.id == n.id) m rest hmne]
      exact ih hnodup.2 h

theorem adjOf_eq_of_nodup (nd : List PNode)
    (hnodup : (nd.map (fun n => n.id)).Nodup) (n : PNode) (hn : n ∈ nd) :
    adjOf nd n.id = n.next_nodes.filterMap (fun e =>
      match buildTarget e with
      | some t => if isNodeId nd t then some t else none
      | none => none) := by
  unfold adjOf
  rw [filter_eq_single_of_nodup nd hnodup n hn]
  simp

theorem perNodeCount (nd : List PNode) (v nid : String) :
    ∀ (l : List NextInfo),
      (l.filterMap (fun e =>
        match buildTarget e with
        | some t => if t == v && isNodeId nd t then some nid else none
        | none => none)).length =
      (l.filterMap (fun e =>
        match buildTarget e with
        | some t => if isNodeId nd t then some t else none
        | none => none)).count v := by
  intro l
  induction l with
  | nil => rfl
  | cons e rest ih =>
    rw [List.filterMap_cons, List.filterMap_cons]
    rcases hb : buildTarget e with _ | t
    · exact ih
    · dsimp only
      by_cases hid : isNodeId nd t = true
      · rw [if_pos hid]
        by_cases htv : (t == v) = true
        · rw [if_pos (by rw [htv, hid]; rfl)]
          have ht : t = v := by simpa using htv
          rw [List.length_cons, List.count_cons, ih]
          simp [ht]
        · rw [if_neg (by rw [Bool.eq_false_iff.mpr htv]; simp)]
          rw [List.count_cons, ih]
          have htne : ¬t = v := fun he => htv (by simp [he])
          simp [htne]
      · have hidf : isNodeId nd t = false := Bool.eq_false_iff.mpr hid
        rw [hidf]
        simpa using ih

theorem revAdj_duality (nd : List PNode)
    (hnodup : (nd.map (fun n => n.id)).Nodup) (v : String) :
    (revAdjOf nd v).length =
      (((nd.map (fun n => n.id)).map (fun x => (adjOf nd x).count v)).sum) := by
  unfold revAdjOf
  rw [List.length_flatMap, List.map_map]
  congr 1
  apply List.map_congr_left
  intro n hn
  simp only [Function.comp]
  rw [adjOf_eq_of_nodup nd hnodup n hn]
  exact perNodeCount nd v n.id n.next_nodes

theorem kahnLoop_monotone (adj : String → List String) (ids : List String)
    (total : String → Nat)
    (htotal : ∀ v, total v = ((ids.map (fun x => (adj x).count v)).sum))
    (hvalid : ∀ u t, t ∈ adj u → t ∈ ids)
    (hsrc : ∀ w t, t ∈ adj w → w ∈ ids) :
    ∀ (fuel : Nat) (queue processed : List String) (indeg : String → Int) (r : Ranks),
      (processed ++ queue).Nodup →
      (∀ x ∈ processed ++ queue, x ∈ ids) →
      (∀ v, indeg v = (total v : Int) -
        (((processed.map (fun w => (adj w).count v)).sum : Nat) : Int)) →
      (∀ x ∈ processed ++ queue, ∀ w, x ∈ adj w → w ∈ processed) →
      (∀ p ∈ processed, ∀ v ∈ adj p, r p + 1 ≤ r v) →
      (∀ x ∈ processed ++ queue, indeg x ≤ 0) →
      ∀ p ∈ (kahnLoop adj fuel queue indeg r processed).2,
        ∀ v ∈ adj p, (kahnLoop adj fuel queue indeg r processed).1 p + 1 ≤
          (kahnLoop adj fuel queue indeg r processed).1 v := by
  intro fuel
  induction fuel with
  | zero =>
    intro queue processed indeg r _ _ _ _ h5 _
    exact h5
  | succ m ih =>
    intro queue processed indeg r h1 h2 h3 h4 h5 h6
    rcases queue with _ | ⟨u, rest⟩
    · exact h5
    · have hstep : kahnLoop adj (m + 1) (u :: rest) indeg r processed =
          kahnLoop adj m ((adj u).foldl (kahnStep u) (rest, indeg, r)).1
            ((adj u).foldl (kahnStep u) (rest, indeg, r)).2.1
            ((adj u).foldl (kahnStep u) (rest, indeg, r)).2.2
            (processed ++ [u]) := rfl
      rw [hstep]
      have hdisj : List.Disjoint processed (u :: rest) :=
        List.disjoint_of_nodup_append h1
      have humem : u ∈ processed ++ u :: rest :=
        List.mem_append_right _ (List.mem_cons_self _ _)
      have hunotp : u ∉ processed := fun hp => hdisj hp (List.mem_cons_self _ _)
      have huadj : u ∉ adj u := fun ha => hunotp (h4 u humem u ha)
      rcases kahn_fold_spec u (fun x => x ∈ processed ++ u :: rest)
          (adj u) rest indeg r h6
          (fun x hx => h6 x (List.mem_append_right _ (List.mem_cons_of_mem _ hx)))
          huadj with
        ⟨new, hq, hndnew, hmemnew, hdeq, hdle, hrle, hrout, hmono⟩
      have hpu_nodup : (processed ++ [u]).Nodup := by
        have e2 : (processed ++ [u]) ++ rest = processed ++ u :: rest := by simp
        have h1b : ((processed ++ [u]) ++ rest).Nodup := by
          rw [e2]
          exact h1
        exact (List.nodup_append.mp h1b).1
      have inv1 : ((processed ++ [u]) ++
          ((adj u).foldl (kahnStep u) (rest, indeg, r)).1).Nodup := by
        rw [hq]
        have e1 : (processed ++ [u]) ++ (rest ++ new) =
            (processed ++ u :: rest) ++ new := by simp
        rw [e1]
        exact List.Nodup.append h1 hndnew
          (fun a ha hanew => (hmemnew a hanew).2.1 ha)
      have inv2 : ∀ x ∈ (processed ++ [u]) ++
          ((adj u).foldl (kahnStep u) (rest, indeg, r)).1, x ∈ ids := by
        rw [hq]
        intro x hx
        rcases List.mem_append.mp hx with hx | hx
        · rcases List.mem_append.mp hx with hx | hx
          · exact h2 x (List.mem_append_left _ hx)
          · rw [List.mem_singleton.mp hx]
            exact h2 u humem
        · rcases List.mem_append.mp hx with hx | hx
          · exact h2 x (List.mem_append_right _ (List.mem_cons_of_mem _ hx))
          · exact hvalid u x (hmemnew x hx).1
      have inv3 : ∀ v, ((adj u).foldl (kahnStep u) (rest, indeg, r)).2.1 v =
          (total v : Int) -
          ((((processed ++ [u]).map (fun w => (adj w).count v)).sum : Nat) : Int) := by
        intro v
        rw [hdeq v, h3 v]
        have hsums : ((processed ++ [u]).map (fun w => (adj w).count v)).sum =
            (processed.map (fun w => (adj w).count v)).sum + (adj u).count v := by
          rw [List.map_append, List.sum_append]
          simp
        rw [hsums]
        push_cast
        ring
      have inv4 : ∀ x ∈ (processed ++ [u]) ++
          ((adj u).foldl (kahnStep u) (rest, indeg, r)).1,
          ∀ w, x ∈ adj w → w ∈ processed ++ [u] := by
        rw [hq]
        intro x hx w hw
        have hold : x ∈ processed ++ u :: rest → w ∈ processed ++ [u] := fun hxo =>
          List.mem_append_left _ (h4 x hxo w hw)
        rcases List.mem_append.mp hx with hx | hx
        · rcases List.mem_append.mp hx with hx | hx
          · exact hold (List.mem_append_left _ hx)
          · exact hold (List.mem_singleton.mp hx ▸ humem)
        · rcases List.mem_append.mp hx with hx | hx
          · exact hold (List.mem_append_right _ (List.mem_cons_of_mem _ hx))
          · by_contra hwnot
            have hcnt := hdle x (List.mem_append_right _ hx)
            rw [hdeq x, h3 x] at hcnt
            have hcnt2 : total x ≤
                (processed.map (fun w => (adj w).count x)).sum + (adj u).count x := by
              omega
            have hwid := hsrc w x hw
            have hSnd : (w :: (processed ++ [u])).Nodup :=
              List.nodup_cons.mpr ⟨hwnot, hpu_nodup⟩
            have hsub : ∀ y ∈ w :: (processed ++ [u]), y ∈ ids := by
              intro y hy
              rcases List.mem_cons.mp hy with hy | hy
              · rw [hy]
                exact hwid
              · rcases List.mem_append.mp hy with hy | hy
                · exact h2 y (List.mem_append_left _ hy)
                · rw [List.mem_singleton.mp hy]
                  exact h2 u humem
            have hkey := sum_le_of_nodup_subset (fun z => (adj z).count x)
              (w :: (processed ++ [u])) ids hSnd hsub
            rw [List.map_cons, List.sum_cons, List.map_append, List.sum_append] at hkey
            have htx := htotal x
            have hcw : 0 < (adj w).count x := List.count_pos_iff.mpr hw
            simp only [List.map_cons, List.sum_cons, List.map_nil, List.sum_nil] at hkey
            omega
      have inv5 : ∀ p ∈ processed ++ [u], ∀ v ∈ adj p,
          ((adj u).foldl (kahnStep u) (rest, indeg, r)).2.2 p + 1 ≤
          ((adj u).foldl (kahnStep u) (rest, indeg, r)).2.2 v := by
        intro p hp v hv
        rcases List.mem_append.mp hp with hp | hp
        · have hpadj : p ∉ adj u := fun hpa => hunotp (h4 p (List.mem_append_left _ hp) u hpa)
          rw [hrout p hpadj]
          exact le_trans (h5 p hp v hv) (hrle v)
        · rw [List.mem_singleton.mp hp]
          rw [hrout u huadj]
          exact hmono v (List.mem_singleton.mp hp ▸ hv)
      have inv6 : ∀ x ∈ (processed ++ [u]) ++
          ((adj u).foldl (kahnStep u) (rest, indeg, r)).1,
          ((adj u).foldl (kahnStep u) (rest, indeg, r)).2.1 x ≤ 0 := by
        rw [hq]
        intro x hx
        rcases List.mem_append.mp hx with hx | hx
        · have hdx : indeg x ≤ 0 := by
            rcases List.mem_append.mp hx with hx | hx
            · exact h6 x (List.mem_append_left _ hx)
            · rw [List.mem_singleton.mp hx]
              exact h6 u humem
          rw [hdeq x]
          omega
        · exact hdle x hx
      exact ih ((adj u).foldl (kahnStep u) (rest, indeg, r)).1 (processed ++ [u])
        ((adj u).foldl (kahnStep u) (rest, indeg, r)).2.1
        ((adj u).foldl (kahnStep u) (rest, indeg, r)).2.2
        inv1 inv2 inv3 inv4 inv5 inv6

theorem adjOf_src_mem (nd : List PNode) (w t : String) (h : t ∈ adjOf nd w) :
    w ∈ nd.map (fun n => n.id) := by
  unfold adjOf at h
  rcases List.mem_flatMap.mp h with ⟨n, hn, _⟩
  rcases List.mem_filter.mp hn with ⟨hnmem, hid⟩
  exact List.mem_map.mpr ⟨n, hnmem, by simpa using hid⟩

/-- C1 (amended): at the end of the topological (Kahn) part of the
rank-assignment pass, every retained edge (p, v) whose source p was
dequeued satisfies rank p + 1 ≤ rank v; no well-formedness assumption on
the input graph is needed. -/
theorem C1_amended_kahn_monotone (g : ProcessGraph) :
    ∀ p ∈ (assignRanksKahn (dictNodes g.nodes) (adjOf (dictNodes g.nodes))
        (revAdjOf (dictNodes g.nodes))).2,
      ∀ v ∈ adjOf (dictNodes g.nodes) p,
        (assignRanksKahn (dictNodes g.nodes) (adjOf (dictNodes g.nodes))
          (revAdjOf (dictNodes g.nodes))).1 p + 1 ≤
        (assignRanksKahn (dictNodes g.nodes) (adjOf (dictNodes g.nodes))
          (revAdjOf (dictNodes g.nodes))).1 v := by
  set nd := dictNodes g.nodes with hnd
  have hnodup : (nd.map (fun n => n.id)).Nodup := dictNodes_ids_nodup g.nodes
  have hvalid : ∀ u t, t ∈ adjOf nd u → t ∈ nd.map (fun n => n.id) := by
    intro u t ht
    rcases exists_of_isNodeId nd t (adjOf_valid nd u t ht) with ⟨n, hn, hid⟩
    exact hid ▸ List.mem_map_of_mem _ hn
  have inv1 : (([] : List String) ++
      ((nd.map (fun n => n.id)).filter
        (fun i => (revAdjOf nd i).length == 0))).Nodup := by
    simpa using hnodup.filter _
  have inv2 : ∀ x ∈ ([] : List String) ++
      ((nd.map (fun n => n.id)).filter
        (fun i => (revAdjOf nd i).length == 0)), x ∈ nd.map (fun n => n.id) := by
    intro x hx
    rw [List.nil_append] at hx
    exact (List.mem_filter.mp hx).1
  have inv3 : ∀ v, ((fun v => ((revAdjOf nd v).length : Int)) v) =
      (((revAdjOf nd v).length : Nat) : Int) -
      (((([] : List String).map (fun w => (adjOf nd w).count v)).sum : Nat) : Int) := by
    intro v
    simp
  have inv4 : ∀ x ∈ ([] : List String) ++
      ((nd.map (fun n => n.id)).filter
        (fun i => (revAdjOf nd i).length == 0)),
      ∀ w, x ∈ adjOf nd w → w ∈ ([] : List String) := by
    intro x hx w hw
    exfalso
    rw [List.nil_append] at hx
    rcases List.mem_filter.mp hx with ⟨_, hxlen⟩
    have hx0 : (revAdjOf nd x).length = 0 := by simpa using hxlen
    have hwid : w ∈ nd.map (fun n => n.id) := adjOf_src_mem nd w x hw
    have hcw : 0 < (adjOf nd w).count x := List.count_pos_iff.mpr hw
    have hle : (adjOf nd w).count x ≤
        (((nd.map (fun n => n.id)).map (fun z => (adjOf nd z).count x)).sum) :=
      single_le_sum_nat (fun z => (adjOf nd z).count x)
        (nd.map (fun n => n.id)) w hwid
    have htx := revAdj_duality nd hnodup x
    omega
  have inv5 : ∀ p ∈ ([] : List String), ∀ v ∈ adjOf nd p,
      ((fun _ => 0 : Ranks) p) + 1 ≤ ((fun _ => 0 : Ranks) v) := by
    intro p hp
    cases hp
  have inv6 : ∀ x ∈ ([] : List String) ++
      ((nd.map (fun n => n.id)).filter
        (fun i => (revAdjOf nd i).length == 0)),
      ((fun v => ((revAdjOf nd v).length : Int)) x) ≤ 0 := by
    intro x hx
    rw [List.nil_append] at hx
    rcases List.mem_filter.mp hx with ⟨_, hxlen⟩
    have hx0 : (revAdjOf nd x).length = 0 := by simpa using hxlen
    simp [hx0]
  exact kahnLoop_monotone (adjOf nd) (nd.map (fun n => n.id))
    (fun v => (revAdjOf nd v).length)
    (fun v => revAdj_duality nd hnodup v)
    hvalid
    (fun w t ht => adjOf_src_mem nd w t ht)
    (nd.length + 1)
    ((nd.map (fun n => n.id)).filter (fun i => (revAdjOf nd i).length == 0))
    []
    (fun v => ((revAdjOf nd v).length : Int))
    (fun _ => 0)
    inv1 inv2 inv3 inv4 inv5 inv6

/-- Concrete instance of the amended C1 theorem: on `exC1` the dequeued
source `s` and its retained successor `g` satisfy the layering
inequality at the end of the Kahn pass. -/
theorem C1_amended_witness :
    (assignRanksKahn (dictNodes exC1.nodes) (adjOf (dictNodes exC1.nodes))
      (revAdjOf (dictNodes exC1.nodes))).1 "s" + 1 ≤
    (assignRanksKahn (dictNodes exC1.nodes) (adjOf (dictNodes exC1.nodes))
      (revAdjOf (dictNodes exC1.nodes))).1 "g" :=
  C1_amended_kahn_monotone exC1 "s" (by decide) "g" (by decide)
